import Mathlib

/-!
# Verification of the mini-rdms SQL engine core

A shallow embedding, in Lean 4, of the mini relational database engine:
the dynamic value model, the `Column` / `Table` row store
(`src/core/Column.js`, `src/core/Table.js`), the SQL tokenizer and parser
(`src/parser/SQLParser.js`), the query engine (`src/engine/QueryEngine.js`),
the database / database-manager layer (`src/database.js`,
`src/DatabaseManager.js`), followed by theorems about the embedded code.

Modelling conventions (JavaScript semantics):
* JS primitive values are the inductive `Value`; `Value.undef` models
  `undefined` (absent object properties), `Value.null` models `null`.
* JS numbers are modelled as exact rationals.  All numbers reaching the
  engine come from integer or decimal literals of the form `-?\d+(\.\d+)?`,
  which we represent exactly; IEEE-754 rounding of decimal fractions and
  exponent formatting of huge integers are not modelled (no behaviour in
  this development depends on them).
* Plain JS objects used as dictionaries (`rows`, `uniqueMap`, `indexes`,
  AST `set` clauses, join results) are association lists with
  JS own-property semantics: assignment to an existing key updates it in
  place, assignment to a fresh key appends, `delete` removes the entry.
  Prototype-chain lookups of bare objects are not modelled (the objects
  are used purely as dictionaries by the source).
* A JS `Set` is a duplicate-free list in insertion order.
* Property access on an object (`row[c]`) yields `Value.undef` when the
  key is absent, exactly as in JS.
* JS exceptions are modelled with `Except String`; functions that can
  observably mutate state before throwing return the state at throw time
  alongside the `Except` result.
-/

namespace MiniRDBMS

/-- The JS single-quote character, `'`. -/
def quoteChar : Char := Char.ofNat 39

/-- The JS backslash character. -/
def backslashChar : Char := Char.ofNat 92

/-- A JS primitive value as it occurs in the engine:  numbers (exact
rationals, see header), strings, booleans, `null` and `undefined`. -/
inductive Value where
  | num (q : ℚ)
  | str (s : String)
  | bool (b : Bool)
  | null
  | undef
deriving DecidableEq

/-- JS `value === null || value === undefined` — the "nullish" test used
throughout `Table.js` to decide whether a value takes part in unique
tracking and indexing. -/
def Value.isNullish : Value → Bool
  | .null => true
  | .undef => true
  | _ => false

/-- JS `typeof` (used only inside error messages). -/
def Value.jsTypeof : Value → String
  | .num _ => "number"
  | .str _ => "string"
  | .bool _ => "boolean"
  | .null => "object"
  | .undef => "undefined"

/-- Little-endian decimal digits of a natural number (fuel-based; any
fuel above the number itself is enough). -/
def natDigitsRev : Nat → Nat → List Char
  | 0, _ => []
  | fuel + 1, n =>
    if n < 10 then [Nat.digitChar n]
    else Nat.digitChar (n % 10) :: natDigitsRev fuel (n / 10)

/-- Decimal rendering of a natural number. -/
def natToString (n : Nat) : String := String.mk (natDigitsRev (n + 1) n).reverse

/-- Decimal rendering of an integer, as JS `String(n)` renders the integer
numbers used by the engine (exponent notation for magnitudes at or above
1e21 is not modelled; nothing in the claims depends on it). -/
def intToString : Int → String
  | .ofNat m => natToString m
  | .negSucc m => "-" ++ natToString (m + 1)

/-- JS string coercion of a value, as performed when a value is used as an
object property key (`indexes[col][value]`, the join bucket map).  For
non-integer rationals the JS double formatting is not reproduced exactly
(rendered as num/den); no stored or claim-relevant value is a non-integer
number. -/
def Value.toKeyString : Value → String
  | .num q => if q.den = 1 then intToString q.num else intToString q.num ++ "/" ++ natToString q.den
  | .str s => s
  | .bool b => if b then "true" else "false"
  | .null => "null"
  | .undef => "undefined"

/-- JS `ToNumber` on a string restricted to the shapes that can occur here:
optional sign, digits, optional fractional part.  Leading/trailing JS
whitespace is trimmed; the empty string converts to `0`; anything else
(exponents, hex, `Infinity`) yields `none` = NaN. -/
def jsStringToNumber (s : String) : Option ℚ :=
  let cs := s.data.dropWhile (fun c => c.isWhitespace)
  let cs := (cs.reverse.dropWhile (fun c => c.isWhitespace)).reverse
  if cs.isEmpty then some 0
  else
    let (sign, cs) : ℚ × List Char :=
      match cs with
      | '-' :: rest => (-1, rest)
      | '+' :: rest => (1, rest)
      | _ => (1, cs)
    let intPart := cs.takeWhile (fun c => c.isDigit)
    let rest := cs.dropWhile (fun c => c.isDigit)
    let readNat (ds : List Char) : ℕ := ds.foldl (fun a c => a * 10 + (c.toNat - 48)) 0
    match rest with
    | [] => if intPart.isEmpty then none else some (sign * (readNat intPart : ℚ))
    | '.' :: frac =>
      if frac.all (fun c => c.isDigit) ∧ ¬ (intPart.isEmpty ∧ frac.isEmpty) then
        some (sign * ((readNat intPart : ℚ) + (readNat frac : ℚ) / ((10 : ℚ) ^ frac.length)))
      else none
    | _ => none

/-- JS `ToNumber` of a primitive value; `none` is NaN. -/
def Value.toNumber : Value → Option ℚ
  | .num q => some q
  | .str s => jsStringToNumber s
  | .bool b => some (if b then 1 else 0)
  | .null => some 0
  | .undef => none

/-- JS `a < b` (abstract relational comparison): string/string compares
lexicographically, otherwise both sides convert with `ToNumber` and a NaN
on either side makes the comparison false. -/
def jsLt (a b : Value) : Bool :=
  match a, b with
  | .str s1, .str s2 => decide (s1 < s2)
  | _, _ =>
    match a.toNumber, b.toNumber with
    | some x, some y => decide (x < y)
    | _, _ => false

/-- JS `a > b`. -/
def jsGt (a b : Value) : Bool := jsLt b a

/-- JS `a >= b`: false on NaN, otherwise the negation of `a < b`. -/
def jsGe (a b : Value) : Bool :=
  match a, b with
  | .str s1, .str s2 => decide (s2 ≤ s1)
  | _, _ =>
    match a.toNumber, b.toNumber with
    | some x, some y => decide (y ≤ x)
    | _, _ => false

/-- JS `a <= b`. -/
def jsLe (a b : Value) : Bool := jsGe b a

/-- JS strict equality `===` on the primitive values of this engine:
numbers compare numerically, otherwise values of different runtime types
are never equal (`null === undefined` is false). -/
def jsStrictEq (a b : Value) : Bool := decide (a = b)

/-! ## JS objects as dictionaries (association lists) -/

/-- First binding of key `k`, i.e. JS property lookup returning a JS value
or `undefined`.  The raw `Option`-valued lookup. -/
def assocFind? {α : Type} (l : List (String × α)) (k : String) : Option α :=
  match l.find? (fun p => p.1 == k) with
  | some p => some p.2
  | none => none

/-- JS `obj[k] = v`: update the first binding of `k` in place, or append a
new binding (JS own-property insertion order). -/
def assocSet {α : Type} (l : List (String × α)) (k : String) (v : α) : List (String × α) :=
  match l with
  | [] => [(k, v)]
  | (k', v') :: rest =>
    if k' == k then (k, v) :: rest else (k', v') :: assocSet rest k v

/-- JS `delete obj[k]`: remove the (first) binding of `k`. -/
def assocErase {α : Type} (l : List (String × α)) (k : String) : List (String × α) :=
  List.eraseP (fun p => p.1 == k) l

/-- A row object: column name to value, in property insertion order. -/
def Row : Type := List (String × Value)

instance : DecidableEq Row := inferInstanceAs (DecidableEq (List (String × Value)))

/-- JS `row[c]`: the stored value, or `undefined` for an absent key. -/
def rowGet (r : Row) (c : String) : Value := (assocFind? r c).getD Value.undef

/-! ## JS Sets (the unique-tracking sets) -/

/-- JS `set.has(v)` (SameValueZero; no NaN values are ever stored). -/
def jsSetHas (s : List Value) (v : Value) : Bool := s.contains v

/-- JS `set.add(v)`. -/
def jsSetAdd (s : List Value) (v : Value) : List Value :=
  if s.contains v then s else s ++ [v]

/-- JS `set.delete(v)`. -/
def jsSetDelete (s : List Value) (v : Value) : List Value := s.erase v

end MiniRDBMS

namespace MiniRDBMS

/-! ## Column (`src/core/Column.js`)

Error messages are reproduced up to omission of the JS quote characters
around interpolated names/values. -/

/-- The three declared column types of the engine. -/
inductive ColType where
  | int
  | text
  | bool
deriving DecidableEq

/-- The SQL spelling of a column type. -/
def ColType.toStr : ColType → String
  | .int => "INT"
  | .text => "TEXT"
  | .bool => "BOOL"

/-- A column definition: name, declared type, constraint flags. -/
structure Column where
  name : String
  type : ColType
  primaryKey : Bool
  notNull : Bool
  unique : Bool
deriving DecidableEq

/-- The `Column` constructor: rejects an empty name or an unknown type
string; a primary key forces `unique` and `notNull`. -/
def Column.make (name : String) (type : String) (primaryKey notNull unique : Bool) :
    Except String Column :=
  if name == "" then .error "Column name must be a non-empty string"
  else
    match (if type == "INT" then some ColType.int
           else if type == "TEXT" then some ColType.text
           else if type == "BOOL" then some ColType.bool
           else none) with
    | none => .error ("Invalid column type " ++ type ++ ". Supported types: INT, TEXT, BOOL")
    | some ty =>
      if primaryKey then .ok ⟨name, ty, true, true, true⟩
      else .ok ⟨name, ty, false, notNull, unique⟩

/-- `Column.isValidType`: INT accepts exactly JS integers
(`Number.isInteger`), TEXT strings, BOOL booleans; null/undefined pass
(handled by `validate`). -/
def Column.isValidType (c : Column) (v : Value) : Bool :=
  match v with
  | .null => true
  | .undef => true
  | _ =>
    match c.type, v with
    | .int, .num q => q.den == 1
    | .text, .str _ => true
    | .bool, .bool _ => true
    | _, _ => false

/-- `Column.validate`: NOT NULL check first, then (for non-nullish values)
the type check. -/
def Column.validate (c : Column) (v : Value) : Except String Unit :=
  if c.notNull && v.isNullish then
    .error ("NOT NULL constraint violation: Column " ++ c.name ++ " cannot be null")
  else if v.isNullish then .ok ()
  else if !(c.isValidType v) then
    .error ("Type mismatch for column " ++ c.name ++ ": Expected " ++ c.type.toStr ++
      ", but got " ++ v.jsTypeof ++ " (value: " ++ v.toKeyString ++ ")")
  else .ok ()

/-! ## Table (`src/core/Table.js`) -/

/-- One column's hash index: normalized string key (JS property-key
coercion of the column value) to the bucket of row positions. -/
def HashIdx : Type := List (String × List Nat)

instance : DecidableEq HashIdx := inferInstanceAs (DecidableEq (List (String × List Nat)))

/-- The row store: schema, rows, unique-tracking sets (for unique /
primary-key columns), hash indexes. -/
structure Table where
  name : String
  columns : List Column
  rows : List Row
  uniqueMap : List (String × List Value)
  indexes : List (String × HashIdx)
deriving DecidableEq

/-- `this.columnMap[c]` — schema lookup by column name. -/
def Table.findColumn (t : Table) (c : String) : Option Column :=
  t.columns.find? (fun col => col.name == c)

/-- The TypeError raised when code calls a method on a missing uniqueMap
entry (reachable only for tables declaring more than one PRIMARY KEY
column, where only the first gets a unique-tracking set). -/
def uniqueMapTypeError : String :=
  "TypeError: Cannot read properties of undefined (uniqueMap entry missing)"

/-- Bucket insertion: `if (!idx[key]) idx[key] = []; idx[key].push(i)`. -/
def bucketAdd (idx : HashIdx) (key : String) (i : Nat) : HashIdx :=
  match assocFind? idx key with
  | some b => assocSet idx key (b ++ [i])
  | none => assocSet idx key [i]

/-- Bucket removal: splice out the first occurrence of `i`, then delete
the bucket if it ended up empty (`_updateIndexOnUpdate` /
`_updateIndexesOnDelete` removal logic). -/
def bucketRemove (idx : HashIdx) (key : String) (i : Nat) : HashIdx :=
  match assocFind? idx key with
  | some b =>
    let b' := b.erase i
    if b'.isEmpty then assocErase idx key else assocSet idx key b'
  | none => idx

/-- Populating an index by scanning all rows in order (`createIndex`
population loop; also one column of `_rebuildAllIndexes`, whose row-major
loop over all indexed columns touches independent buckets and therefore
equals this per-column build). -/
def buildIndex (rows : List Row) (c : String) : HashIdx :=
  (rows.enum).foldl
    (fun idx p =>
      let v := rowGet p.2 c
      if v.isNullish then idx else bucketAdd idx v.toKeyString p.1)
    []

/-- `Table.createIndex`: rejects unknown columns, then builds the index
from the existing rows and stores it under the column name. -/
def Table.createIndex (t : Table) (c : String) : Except String Table :=
  match t.findColumn c with
  | none => .error ("Cannot create index: Unknown column " ++ c)
  | some _ => .ok { t with indexes := assocSet t.indexes c (buildIndex t.rows c) }

/-- `Table.dropIndex`: `delete this.indexes[columnName]`. -/
def Table.dropIndex (t : Table) (c : String) : Table :=
  { t with indexes := assocErase t.indexes c }

/-- `_rebuildAllIndexes`: every existing index is cleared and repopulated
from a full scan. -/
def Table.rebuildAllIndexes (t : Table) : Table :=
  { t with indexes := t.indexes.map (fun p => (p.1, buildIndex t.rows p.1)) }

/-- First duplicate column name, in schema order (the `Table` constructor
throws on it while building `columnMap`). -/
def firstDupName (cols : List Column) : Option String :=
  (cols.foldl
    (fun acc col =>
      (acc.1 ∪ [col.name],
       acc.2 <|> (if col.name ∈ acc.1 then some col.name else none)))
    (([] : List String), (none : Option String))).2

/-- The `Table` constructor: validates name/columns, builds the
unique-tracking sets (primary key first, then the other unique columns in
schema order) and auto-creates the primary-key index. -/
def Table.mkNew (name : String) (columns : List Column) : Except String Table :=
  if name == "" then .error "Table name must be a non-empty string"
  else if columns.isEmpty then .error "Table must have at least one column"
  else
    match firstDupName columns with
    | some n => .error ("Duplicate column name: " ++ n)
    | none =>
      let pk? := columns.find? (fun c => c.primaryKey)
      let um0 : List (String × List Value) :=
        match pk? with
        | some pk => [(pk.name, [])]
        | none => []
      let um := columns.foldl
        (fun m col => if col.unique && !col.primaryKey then assocSet m col.name [] else m) um0
      let t : Table := ⟨name, columns, [], um, []⟩
      match pk? with
      | some pk => t.createIndex pk.name
      | none => .ok t

/-! ### WHERE evaluation -/

/-- A parsed WHERE comparison. -/
structure WhereClause where
  column : String
  operator : String
  value : Value
deriving DecidableEq

/-- Fuel-based matcher for the regex the LIKE branch builds
(`%`→`.*`, `_`→`.`, case-insensitive, anchored).  Faithful for patterns
without further regex metacharacters (none of the development's inputs
contain any). -/
def likeChars : Nat → List Char → List Char → Bool
  | 0, _, _ => false
  | _ + 1, [], [] => true
  | fuel + 1, '%' :: ps, cs =>
    likeChars fuel ps cs ||
      (match cs with
       | [] => false
       | _ :: cs' => likeChars fuel ('%' :: ps) cs')
  | fuel + 1, '_' :: ps, _ :: cs => likeChars fuel ps cs
  | fuel + 1, p :: ps, c :: cs => p.toLower == c.toLower && likeChars fuel ps cs
  | _ + 1, _, _ => false

/-- LIKE pattern match of string `s` against pattern `pat`. -/
def likeMatch (s pat : String) : Bool :=
  likeChars (pat.length + s.length + 1) pat.data s.data

/-- `_rowMatchesWhere`: evaluates one comparison against a row; strict
(`===`) equality for `=`/`==`/`!=`/`<>`, JS relational comparison for the
orderings, the LIKE branch returns false outright for a non-string row
value, and an unknown operator throws. -/
def rowMatchesWhere (row : Row) (w : WhereClause) : Except String Bool :=
  let rowValue := rowGet row w.column
  if w.operator == "=" || w.operator == "==" then .ok (jsStrictEq rowValue w.value)
  else if w.operator == "!=" || w.operator == "<>" then .ok (!jsStrictEq rowValue w.value)
  else if w.operator == ">" then .ok (jsGt rowValue w.value)
  else if w.operator == "<" then .ok (jsLt rowValue w.value)
  else if w.operator == ">=" then .ok (jsGe rowValue w.value)
  else if w.operator == "<=" then .ok (jsLe rowValue w.value)
  else if w.operator == "LIKE" then
    match rowValue with
    | .str s =>
      match w.value with
      | .str pat => .ok (likeMatch s pat)
      | _ => .error "TypeError: value.replace is not a function"
    | _ => .ok false
  else .error ("Unknown operator: " ++ w.operator)

/-- Positions of matching rows in ascending order (the scan loops of
`Table.update` and `_filterRows`); a thrown comparison aborts the scan. -/
def matchPositionsAsc (t : Table) (w : WhereClause) : Except String (List Nat) :=
  (t.rows.enum).foldlM
    (fun acc p => do
      let b ← rowMatchesWhere p.2 w
      pure (if b then acc ++ [p.1] else acc))
    []

/-- Positions of matching rows collected by `Table.delete`, which scans
from the last row down to the first (so the list is descending). -/
def matchPositionsDesc (t : Table) (w : WhereClause) : Except String (List Nat) :=
  ((t.rows.enum).reverse).foldlM
    (fun acc p => do
      let b ← rowMatchesWhere p.2 w
      pure (if b then acc ++ [p.1] else acc))
    []

/-- `_filterRows`: the `=` operator with an index on the filtered column
takes the O(1) bucket lookup (note the key coercion of the compared
value); every other case is a full scan. -/
def Table.filterRows (t : Table) (w : WhereClause) : Except String (List Row) :=
  if w.operator == "=" && (assocFind? t.indexes w.column).isSome then
    let idx := (assocFind? t.indexes w.column).getD []
    let bucket := (assocFind? idx w.value.toKeyString).getD []
    .ok (bucket.map (fun i => (t.rows.get? i).getD []))
  else
    t.rows.foldlM
      (fun acc row => do
        let b ← rowMatchesWhere row w
        pure (if b then acc ++ [row] else acc))
      []

/-- Projection of one row onto the requested columns
(`projectedRow[colName] = row[colName]` in request order). -/
def projectRow (cols : List String) (row : Row) : Row :=
  cols.foldl (fun acc c => assocSet acc c (rowGet row c)) []

/-- `Table.select`: `*` (or an empty request) expands to the schema
columns; every requested column must exist (the WHERE column is *not*
validated); then filter and project. -/
def Table.select (t : Table) (columnNames : List String) (w : Option WhereClause) :
    Except String (List Row) := do
  let columnsToReturn :=
    if columnNames.contains "*" || columnNames.isEmpty then
      t.columns.map (fun c => c.name)
    else columnNames
  match columnsToReturn.find? (fun c => (t.findColumn c).isNone) with
  | some c => .error ("Unknown column: " ++ c)
  | none => do
    let resultRows ←
      match w with
      | some wc => t.filterRows wc
      | none => pure t.rows
    pure (resultRows.map (projectRow columnsToReturn))

end MiniRDBMS

namespace MiniRDBMS

/-! ### INSERT -/

/-- The UNIQUE-violation message of `Table.insert` / `Table.update`. -/
def uniqueViolationMsg (v : Value) (c : String) : String :=
  "UNIQUE constraint violation: Value " ++ v.toKeyString ++ " already exists in column " ++ c

/-- The checks the insert validation loop runs for one column: `validate`
(NOT NULL, then type), then the uniqueness probe of the live value set. -/
def insertCheckCol (t : Table) (rowData : Row) (col : Column) : Except String Unit := do
  let value := rowGet rowData col.name
  col.validate value
  if col.unique || col.primaryKey then
    if !value.isNullish then
      match assocFind? t.uniqueMap col.name with
      | some s =>
        if jsSetHas s value then throw (uniqueViolationMsg value col.name) else pure ()
      | none => throw uniqueMapTypeError
    else pure ()
  else pure ()

/-- The validation loop of `Table.insert` (steps 1-2): walk the schema in
order, running each column's checks while building the normalized row.
No mutation happens here. -/
def Table.insertValidate (t : Table) (rowData : Row) : Except String Row :=
  t.columns.foldlM
    (fun row col => do
      insertCheckCol t rowData col
      pure (assocSet row col.name (rowGet rowData col.name)))
    ([] : Row)

/-- The loop body of insert step 4 over the schema columns. -/
def uniqueAddGo (row : Row) : Table → List Column → Table × Except String Unit
  | t, [] => (t, .ok ())
  | t, col :: cols =>
    if col.unique || col.primaryKey then
      let value := rowGet row col.name
      if !value.isNullish then
        match assocFind? t.uniqueMap col.name with
        | some s =>
          uniqueAddGo row { t with uniqueMap := assocSet t.uniqueMap col.name (jsSetAdd s value) } cols
        | none => (t, .error uniqueMapTypeError)
      else uniqueAddGo row t cols
    else uniqueAddGo row t cols

/-- Step 4 of `Table.insert`: add the new row's values to every
unique-tracking set (unreachable `uniqueMapTypeError` kept for
faithfulness; validation has already touched the same entries). -/
def Table.uniqueAddAll (t : Table) (row : Row) : Table × Except String Unit :=
  uniqueAddGo row t t.columns

/-- `_updateIndexesOnInsert`: append the new position to the bucket of the
inserted row's value in every index (skipping nullish values). -/
def updateIndexesOnInsert (indexes : List (String × HashIdx)) (row : Row) (n : Nat) :
    List (String × HashIdx) :=
  indexes.map (fun p =>
    let v := rowGet row p.1
    (p.1, if v.isNullish then p.2 else bucketAdd p.2 v.toKeyString n))

/-- `Table.insert`: validate (steps 1-2), then append the row, update the
unique sets, and update the indexes.  On a validation failure the returned
state is the untouched input table. -/
def Table.insert (t : Table) (rowData : Row) : Table × Except String Row :=
  match t.insertValidate rowData with
  | .error e => (t, .error e)
  | .ok row =>
    let n := t.rows.length
    let t1 := { t with rows := t.rows ++ [row] }
    match t1.uniqueAddAll row with
    | (t2, .error e) => (t2, .error e)
    | (t2, .ok ()) =>
      ({ t2 with indexes := updateIndexesOnInsert t2.indexes row n }, .ok row)

/-! ### UPDATE -/

/-- The per-row validation phase of `Table.update`: every SET column's new
value is validated and (when it differs from the row's current value)
checked against the unique-tracking set, before anything is applied. -/
def Table.updateRowValidate (t : Table) (set : List (String × Value)) (p : Nat) :
    Except String Unit :=
  let oldValues := (t.rows.get? p).getD []
  set.foldlM
    (fun _ kv => do
      let c := kv.1
      let newValue := kv.2
      match t.findColumn c with
      | none => throw ("Unknown column: " ++ c)
      | some col => do
        col.validate newValue
        if col.unique || col.primaryKey then
          if !(jsStrictEq newValue (rowGet oldValues c)) then
            if !newValue.isNullish then
              match assocFind? t.uniqueMap c with
              | some s =>
                if jsSetHas s newValue then throw (uniqueViolationMsg newValue c) else pure ()
              | none => throw uniqueMapTypeError
            else pure ()
          else pure ()
        else pure ())
    ()

/-- One SET entry of the per-row apply phase of `Table.update`: maintain
the unique set, patch the index (`_updateIndexOnUpdate`), then write the
row field.  `oldValues` is the snapshot of the row taken before the apply
loop started. -/
def applySetEntry (oldValues : Row) (p : Nat) (t : Table) (c : String) (newValue : Value) :
    Table × Except String Unit :=
  let col := (t.findColumn c).getD ⟨c, .int, false, false, false⟩
  let oldValue := rowGet oldValues c
  let umStep : Table × Except String Unit :=
    if col.unique || col.primaryKey then
      if oldValue.isNullish ∧ newValue.isNullish then (t, .ok ())
      else
        match assocFind? t.uniqueMap c with
        | some s =>
          let s1 := if oldValue.isNullish then s else jsSetDelete s oldValue
          let s2 := if newValue.isNullish then s1 else jsSetAdd s1 newValue
          ({ t with uniqueMap := assocSet t.uniqueMap c s2 }, .ok ())
        | none => (t, .error uniqueMapTypeError)
    else (t, .ok ())
  match umStep with
  | (t1, .error e) => (t1, .error e)
  | (t1, .ok ()) =>
    let t2 :=
      match assocFind? t1.indexes c with
      | some idx =>
        let idx1 := if oldValue.isNullish then idx else bucketRemove idx oldValue.toKeyString p
        let idx2 := if newValue.isNullish then idx1 else bucketAdd idx1 newValue.toKeyString p
        { t1 with indexes := assocSet t1.indexes c idx2 }
      | none => t1
    let row := (t2.rows.get? p).getD []
    ({ t2 with rows := t2.rows.set p (assocSet row c newValue) }, .ok ())

/-- The per-row apply loop over the SET entries. -/
def applySetEntries (oldValues : Row) (p : Nat) :
    Table → List (String × Value) → Table × Except String Unit
  | t, [] => (t, .ok ())
  | t, (c, newValue) :: rest =>
    match applySetEntry oldValues p t c newValue with
    | (t', .error e) => (t', .error e)
    | (t', .ok ()) => applySetEntries oldValues p t' rest

/-- The apply loop of `Table.update` for one matching row: apply every SET
entry in order (a thrown entry leaves the earlier entries applied). -/
def Table.updateRowApply (t : Table) (set : List (String × Value)) (p : Nat) :
    Table × Except String Unit :=
  applySetEntries ((t.rows.get? p).getD []) p t set

/-- The row loop of `Table.update`: for each matching position (ascending)
validate the whole SET clause, then apply it; a failure stops the loop,
keeping every earlier row's update. -/
def updateGo (set : List (String × Value)) : Table → List Nat → Nat → Table × Except String Nat
  | t, [], count => (t, .ok count)
  | t, p :: ps, count =>
    match t.updateRowValidate set p with
    | .error e => (t, .error e)
    | .ok () =>
      match t.updateRowApply set p with
      | (t', .error e) => (t', .error e)
      | (t', .ok ()) => updateGo set t' ps (count + 1)

/-- `Table.update`: WHERE is mandatory; SET columns are name-checked
up front; matching rows are found against the pre-update table; then the
row loop runs.  Returns the state at throw time together with the result. -/
def Table.update (t : Table) (set : List (String × Value)) (w : Option WhereClause) :
    Table × Except String Nat :=
  match w with
  | none => (t, .error "UPDATE requires a WHERE clause for safety")
  | some wc =>
    match set.find? (fun kv => (t.findColumn kv.1).isNone) with
    | some kv => (t, .error ("Unknown column: " ++ kv.1))
    | none =>
      match matchPositionsAsc t wc with
      | .error e => (t, .error e)
      | .ok ps => updateGo set t ps 0

/-- The success path of the row loop of `Table.update`: the table state
after the rows at the given positions have each been fully validated and
applied (`none` if any of them fails). -/
def updPrefix (set : List (String × Value)) : Table → List Nat → Option Table
  | t, [] => some t
  | t, p :: ps =>
    match t.updateRowValidate set p with
    | .error _ => none
    | .ok () =>
      match t.updateRowApply set p with
      | (_, .error _) => none
      | (t', .ok ()) => updPrefix set t' ps

/-! ### DELETE -/

/-- The unique-set removal loop of one row deletion. -/
def delUniqueGo (row : Row) : Table → List Column → Table × Except String Unit
  | t, [] => (t, .ok ())
  | t, col :: cols =>
    if col.unique || col.primaryKey then
      let value := rowGet row col.name
      if !value.isNullish then
        match assocFind? t.uniqueMap col.name with
        | some s =>
          delUniqueGo row { t with uniqueMap := assocSet t.uniqueMap col.name (jsSetDelete s value) } cols
        | none => (t, .error uniqueMapTypeError)
      else delUniqueGo row t cols
    else delUniqueGo row t cols

/-- Removing one row (inside the delete loop): drop its values from the
unique-tracking sets, patch the indexes (`_updateIndexesOnDelete`), then
splice the row out. -/
def Table.deleteOne (t : Table) (p : Nat) : Table × Except String Unit :=
  let row := (t.rows.get? p).getD []
  match delUniqueGo row t t.columns with
  | (t1, .error e) => (t1, .error e)
  | (t1, .ok ()) =>
    let idx' := t1.indexes.map (fun q =>
      let v := rowGet row q.1
      (q.1, if v.isNullish then q.2 else bucketRemove q.2 v.toKeyString p))
    ({ t1 with indexes := idx', rows := t1.rows.eraseIdx p }, .ok ())

/-- The delete loop over the (descending) matched positions. -/
def deleteGo : Table → List Nat → Table × Except String Unit
  | t, [] => (t, .ok ())
  | t, p :: ps =>
    match t.deleteOne p with
    | (t', .error e) => (t', .error e)
    | (t', .ok ()) => deleteGo t' ps

/-- `Table.delete`: WHERE is mandatory; matches are collected scanning
backwards; each is removed in descending-position order; finally all
indexes are rebuilt from scratch (skipped if the loop threw). -/
def Table.delete (t : Table) (w : Option WhereClause) : Table × Except String Nat :=
  match w with
  | none => (t, .error "DELETE requires a WHERE clause for safety")
  | some wc =>
    match matchPositionsDesc t wc with
    | .error e => (t, .error e)
    | .ok ps =>
      match deleteGo t ps with
      | (t', .error e) => (t', .error e)
      | (t', .ok ()) => (t'.rebuildAllIndexes, .ok ps.length)

end MiniRDBMS

namespace MiniRDBMS

/-! ## Tokenizer (`SQLParser._tokenize`) -/

/-- JS `\s` restricted to the ASCII whitespace characters (Unicode spaces
are not modelled; no input in this development contains them). -/
def jsIsSpace (c : Char) : Bool :=
  c == ' ' || c == '\t' || c == '\n' || c == '\r' || c == Char.ofNat 11 || c == Char.ofNat 12

/-- The single-character operators and punctuation `(),.;=><*`. -/
def isPunctChar (c : Char) : Bool :=
  c == '(' || c == ')' || c == ',' || c == '.' || c == ';' || c == '=' || c == '>' ||
    c == '<' || c == '*'

/-- Identifier start: `[a-zA-Z_]`. -/
def isIdentStart (c : Char) : Bool :=
  ('a' ≤ c && c ≤ 'z') || ('A' ≤ c && c ≤ 'Z') || c == '_'

/-- Identifier continuation: `[a-zA-Z0-9_.]` (the dot supports
`table.column`). -/
def isIdentChar (c : Char) : Bool :=
  isIdentStart c || c.isDigit || c == '.'

/-- Numeric continuation: `[0-9.]`. -/
def isNumChar (c : Char) : Bool := c.isDigit || c == '.'

/-- The quoted-string scanning loop: consumes up to the closing quote,
unescaping `\'` into a quote; `none` when the input ends before a closing
quote.  Returns the unescaped content and the remaining characters. -/
def consumeStrF : Nat → List Char → Option (List Char × List Char)
  | 0, _ => none
  | _, [] => none
  | fuel + 1, c :: rest =>
    if c = quoteChar then some ([], rest)
    else
      match c == backslashChar, rest with
      | true, c2 :: rest2 =>
        if c2 = quoteChar then (consumeStrF fuel rest2).map (fun p => (quoteChar :: p.1, p.2))
        else (consumeStrF fuel rest).map (fun p => (c :: p.1, p.2))
      | _, _ => (consumeStrF fuel rest).map (fun p => (c :: p.1, p.2))

/-- The quoted-string scanning loop (fuel instantiated so the exhaustion
branch is unreachable). -/
def consumeStr (cs : List Char) : Option (List Char × List Char) :=
  consumeStrF (cs.length + 1) cs

/-- Greedy two-character operator match (`>=`, `<=`, `!=`, `<>`). -/
def twoCharOpRest (c : Char) (cs : List Char) : Option (String × List Char) :=
  match cs with
  | c2 :: rest =>
    let two := String.mk [c, c2]
    if two == ">=" || two == "<=" || two == "!=" || two == "<>" then some (two, rest) else none
  | [] => none

/-- The tokenizer loop; `fuel` dominates the number of iterations (each
iteration consumes at least one character, so `length + 1` fuel always
suffices and the fuel-exhausted branch is unreachable from `tokenize`). -/
def tokenizeAux : Nat → List Char → Except String (List String)
  | 0, _ => .error "tokenizer fuel exhausted"
  | _, [] => .ok []
  | fuel + 1, c :: cs =>
    if jsIsSpace c then tokenizeAux fuel cs
    else if c = quoteChar then
      match consumeStr cs with
      | none => .error "Unterminated string literal"
      | some (content, rest) =>
        (tokenizeAux fuel rest).map
          (fun ts => String.mk (quoteChar :: (content ++ [quoteChar])) :: ts)
    else
      match twoCharOpRest c cs with
      | some (two, rest) => (tokenizeAux fuel rest).map (fun ts => two :: ts)
      | none =>
        if isPunctChar c then (tokenizeAux fuel cs).map (fun ts => String.mk [c] :: ts)
        else if isIdentStart c then
          (tokenizeAux fuel (cs.dropWhile isIdentChar)).map
            (fun ts => String.mk (c :: cs.takeWhile isIdentChar) :: ts)
        else if c.isDigit || c == '-' then
          (tokenizeAux fuel (cs.dropWhile isNumChar)).map
            (fun ts => String.mk (c :: cs.takeWhile isNumChar) :: ts)
        else .error ("Unexpected character: " ++ String.mk [c])

/-- `SQLParser._tokenize`. -/
def tokenize (s : String) : Except String (List String) :=
  tokenizeAux (s.data.length + 1) s.data

end MiniRDBMS

namespace MiniRDBMS

/-! ## Value coercion and the parser (`SQLParser`) -/

/-- ASCII uppercase of one character (JS `toUpperCase` restricted to
ASCII; no input of this development contains non-ASCII letters). -/
def asciiUpper (c : Char) : Char :=
  if 'a' ≤ c && c ≤ 'z' then Char.ofNat (c.toNat - 32) else c

/-- ASCII `String.prototype.toUpperCase`. -/
def jsToUpper (s : String) : String := String.mk (s.data.map asciiUpper)

/-- Digits to the number they denote. -/
def digitsToNat (ds : List Char) : ℕ :=
  ds.foldl (fun a c => a * 10 + (c.toNat - 48)) 0

/-- The regex `^-?\d+$` of `_parseValue`. -/
def intTokenChars : List Char → Bool
  | '-' :: rest => !rest.isEmpty && rest.all Char.isDigit
  | cs => !cs.isEmpty && cs.all Char.isDigit

/-- The regex `^-?\d+\.\d+$` of `_parseValue`. -/
def decTokenChars (cs : List Char) : Bool :=
  let cs' := match cs with | '-' :: r => r | _ => cs
  let ip := cs'.takeWhile Char.isDigit
  let rest := cs'.dropWhile Char.isDigit
  !ip.isEmpty &&
    (match rest with
     | '.' :: fs => !fs.isEmpty && fs.all Char.isDigit
     | _ => false)

/-- `parseInt(token, 10)` on a token matching `^-?\d+$`. -/
def intTokenVal : List Char → ℚ
  | '-' :: rest => -(digitsToNat rest : ℚ)
  | cs => (digitsToNat cs : ℚ)

/-- `parseFloat(token)` on a token matching `^-?\d+\.\d+$`, represented
exactly as a rational. -/
def decTokenVal (cs : List Char) : ℚ :=
  let sign : ℚ := match cs with | '-' :: _ => -1 | _ => 1
  let cs' := match cs with | '-' :: r => r | _ => cs
  let ip := cs'.takeWhile Char.isDigit
  let rest := cs'.dropWhile Char.isDigit
  let fs := match rest with | '.' :: fs => fs | _ => []
  sign * ((digitsToNat ip : ℚ) + (digitsToNat fs : ℚ) / ((10 : ℚ) ^ fs.length))

/-- Does the token both start and end with a quote (the JS
`startsWith/endsWith` pair — true even for the one-character token)? -/
def isQuotedToken (cs : List Char) : Bool :=
  match cs.head?, cs.getLast? with
  | some a, some b => a == quoteChar && b == quoteChar
  | _, _ => false

/-- `SQLParser._parseValue`: NULL / TRUE / FALSE (case-insensitive),
quoted string (quotes stripped), integer, decimal, and any other token
passes through as a bare string. -/
def parseValue (token : String) : Value :=
  if jsToUpper token == "NULL" then .null
  else if jsToUpper token == "TRUE" then .bool true
  else if jsToUpper token == "FALSE" then .bool false
  else if isQuotedToken token.data then .str (String.mk (token.data.drop 1).dropLast)
  else if intTokenChars token.data then .num (intTokenVal token.data)
  else if decTokenChars token.data then .num (decTokenVal token.data)
  else .str token

/-- `_parseValue` applied to a possibly-absent token (JS would call
`undefined.toUpperCase()`; the TypeError text is a placeholder — no claim
depends on it). -/
def parseValueOpt : Option String → Except String Value
  | none => .error "TypeError: Cannot read properties of undefined (reading toUpperCase)"
  | some t => .ok (parseValue t)

/-- JS truthiness check `!token` on an optional token (absent or empty). -/
def tokFalsy : Option String → Bool
  | none => true
  | some t => t == ""

/-! ### AST -/

/-- A JOIN ON condition (`right` may be absent when the token stream ends
early; the operator is always `=` or the parser has thrown). -/
structure OnCond where
  left : String
  operator : String
  right : Option String
deriving DecidableEq

/-- A JOIN clause. -/
structure JoinSpec where
  table : Option String
  onCond : Option OnCond
deriving DecidableEq

/-- A parsed CREATE TABLE column definition (type is the uppercased
type token, one of INT/TEXT/BOOL). -/
structure ColumnDef where
  name : String
  type : String
  primaryKey : Bool
  notNull : Bool
  unique : Bool
deriving DecidableEq

/-- The statement AST. -/
inductive Ast where
  | selectStmt (columns : List String) (table : String) (whereClause : Option WhereClause)
      (join : Option JoinSpec)
  | insertStmt (table : String) (columns : List String) (values : List Value)
  | updateStmt (table : String) (set : List (String × Value)) (whereClause : Option WhereClause)
  | deleteStmt (table : String) (whereClause : Option WhereClause)
  | createTableStmt (table : String) (columns : List ColumnDef)
  | dropTableStmt (table : String)
  | createDatabaseStmt (database : String) (ifNotExists : Bool)
  | dropDatabaseStmt (database : String) (ifExists : Bool)
  | useStmt (database : String)
  | showStmt (target : String)
deriving DecidableEq

/-- Uppercased view of an optional token (`tokens[i]?.toUpperCase()`). -/
def upTok (ts : List String) (i : Nat) : Option String := (ts.get? i).map jsToUpper

/-- `_parseWhereCondition` on the tokens following WHERE: column,
operator (LIKE normalized case-insensitively), value; trailing tokens are
ignored. -/
def parseWhereCond (rest : List String) : Except String WhereClause := do
  if tokFalsy (rest.get? 0) then throw "Expected column name in WHERE clause"
  let column := (rest.get? 0).getD ""
  if tokFalsy (rest.get? 1) then throw "Expected operator in WHERE clause"
  let op0 := (rest.get? 1).getD ""
  let operator := if jsToUpper op0 == "LIKE" then "LIKE" else op0
  match rest.get? 2 with
  | none => throw "Expected value in WHERE clause"
  | some vt => pure ⟨column, operator, parseValue vt⟩

/-- `_parseSelect`: the column list stops at FROM; an optional
(INNER) JOIN with optional ON condition; an optional trailing WHERE. -/
def parseSelect (tokens : List String) : Except String Ast := do
  let rest := tokens.drop 1
  let colToks := rest.takeWhile (fun t => jsToUpper t != "FROM")
  let columns := colToks.filter (fun t => t != ",")
  let afterCols := rest.dropWhile (fun t => jsToUpper t != "FROM")
  if columns.isEmpty then throw "SELECT requires at least one column"
  if (upTok afterCols 0) != some "FROM" then throw "SELECT requires FROM clause"
  let rest2 := afterCols.drop 1
  if tokFalsy (rest2.get? 0) then throw "Expected table name after FROM"
  let table := (rest2.get? 0).getD ""
  let rest3 := rest2.drop 1
  let mkTail : Option JoinSpec → List String → Except String Ast := fun join tl => do
    if (upTok tl 0) == some "WHERE" then
      let wc ← parseWhereCond (tl.drop 1)
      pure (.selectStmt columns table (some wc) join)
    else pure (.selectStmt columns table none join)
  if (upTok rest3 0) == some "JOIN" || (upTok rest3 0) == some "INNER" then
    let rest4 := if (upTok rest3 0) == some "INNER" then rest3.drop 1 else rest3
    if (upTok rest4 0) == some "JOIN" then
      let rest5 := rest4.drop 1
      let joinTable := rest5.get? 0
      let rest6 := rest5.drop 1
      if (upTok rest6 0) == some "ON" then
        let rest7 := rest6.drop 1
        match rest7.get? 0, rest7.get? 1 with
        | some leftSide, some op =>
          if op != "=" then throw "JOIN ON clause only supports = operator"
          let rightSide := rest7.get? 2
          mkTail (some ⟨joinTable, some ⟨leftSide, op, rightSide⟩⟩) (rest7.drop 3)
        | _, _ => throw "JOIN ON clause only supports = operator"
      else mkTail (some ⟨joinTable, none⟩) rest6
    else mkTail none rest4
  else mkTail none rest3

/-- `_parseInsert`. -/
def parseInsert (tokens : List String) : Except String Ast := do
  let rest := tokens.drop 1
  if (upTok rest 0) != some "INTO" then throw "INSERT requires INTO keyword"
  let rest2 := rest.drop 1
  if tokFalsy (rest2.get? 0) then throw "Expected table name after INSERT INTO"
  let table := (rest2.get? 0).getD ""
  let rest3 := rest2.drop 1
  let (columns, rest4) ←
    if rest3.get? 0 == some "(" then do
      let body := (rest3.drop 1).takeWhile (fun t => t != ")")
      let after := (rest3.drop 1).dropWhile (fun t => t != ")")
      if after.get? 0 != some ")" then throw "Expected ) after column list"
      pure (body.filter (fun t => t != ","), after.drop 1)
    else pure (([] : List String), rest3)
  if (upTok rest4 0) != some "VALUES" then throw "INSERT requires VALUES keyword"
  let rest5 := rest4.drop 1
  if rest5.get? 0 != some "(" then throw "Expected ( after VALUES"
  let body := (rest5.drop 1).takeWhile (fun t => t != ")")
  let after := (rest5.drop 1).dropWhile (fun t => t != ")")
  if after.get? 0 != some ")" then throw "Expected ) after values list"
  pure (.insertStmt table columns ((body.filter (fun t => t != ",")).map parseValue))

/-- The SET-assignment loop of `_parseUpdate` (fuel dominates the
iteration count; each iteration consumes at least three tokens). -/
def parseSetPairs : Nat → List String → List (String × Value) →
    Except String (List (String × Value) × List String)
  | 0, rest, acc => .ok (acc, rest)
  | fuel + 1, rest, acc =>
    match rest.get? 0 with
    | none => .ok (acc, rest)
    | some tok =>
      if jsToUpper tok == "WHERE" then .ok (acc, rest)
      else do
        if rest.get? 1 != some "=" then
          throw ("Expected = after column name " ++ tok)
        let v ← parseValueOpt (rest.get? 2)
        let rest' := rest.drop 3
        let rest'' := if rest'.get? 0 == some "," then rest'.drop 1 else rest'
        parseSetPairs fuel rest'' (assocSet acc tok v)

/-- `_parseUpdate`: table, SET assignments, and a WHERE clause the
grammar leaves optional (`whereClause` stays `none` without one). -/
def parseUpdate (tokens : List String) : Except String Ast := do
  let rest := tokens.drop 1
  if tokFalsy (rest.get? 0) then throw "Expected table name after UPDATE"
  let table := (rest.get? 0).getD ""
  let rest2 := rest.drop 1
  if (upTok rest2 0) != some "SET" then throw "UPDATE requires SET keyword"
  let (set, rest3) ← parseSetPairs (tokens.length + 1) (rest2.drop 1) []
  if (upTok rest3 0) == some "WHERE" then
    let wc ← parseWhereCond (rest3.drop 1)
    pure (.updateStmt table set (some wc))
  else pure (.updateStmt table set none)

/-- `_parseDelete`: WHERE likewise optional at parse time. -/
def parseDelete (tokens : List String) : Except String Ast := do
  let rest := tokens.drop 1
  if (upTok rest 0) != some "FROM" then throw "DELETE requires FROM keyword"
  let rest2 := rest.drop 1
  if tokFalsy (rest2.get? 0) then throw "Expected table name after DELETE FROM"
  let table := (rest2.get? 0).getD ""
  let rest3 := rest2.drop 1
  if (upTok rest3 0) == some "WHERE" then
    let wc ← parseWhereCond (rest3.drop 1)
    pure (.deleteStmt table (some wc))
  else pure (.deleteStmt table none)

/-- The constraint loop of one CREATE TABLE column definition: consume
until a comma or closing paren, recognizing PRIMARY KEY / NOT NULL /
UNIQUE and silently skipping anything else. -/
def parseConstraints : Nat → List String → Bool → Bool → Bool →
    ((Bool × Bool × Bool) × List String)
  | 0, rest, pk, nn, uq => ((pk, nn, uq), rest)
  | fuel + 1, rest, pk, nn, uq =>
    match rest.get? 0 with
    | none => ((pk, nn, uq), rest)
    | some t =>
      if t == "," || t == ")" then ((pk, nn, uq), rest)
      else if jsToUpper t == "PRIMARY" then
        let rest' := rest.drop 1
        if (upTok rest' 0) == some "KEY" then parseConstraints fuel (rest'.drop 1) true nn uq
        else parseConstraints fuel rest' pk nn uq
      else if jsToUpper t == "NOT" then
        let rest' := rest.drop 1
        if (upTok rest' 0) == some "NULL" then parseConstraints fuel (rest'.drop 1) pk true uq
        else parseConstraints fuel rest' pk nn uq
      else if jsToUpper t == "UNIQUE" then parseConstraints fuel (rest.drop 1) pk nn true
      else parseConstraints fuel (rest.drop 1) pk nn uq

/-- The column-definition loop of `_parseCreate` (note: the loop also
ends quietly at end of input — there is no closing-paren check). -/
def parseColDefs : Nat → List String → List ColumnDef → Except String (List ColumnDef)
  | 0, _, acc => .ok acc
  | fuel + 1, rest, acc =>
    match rest.get? 0 with
    | none => .ok acc
    | some t =>
      if t == ")" then .ok acc
      else if t == "," then parseColDefs fuel (rest.drop 1) acc
      else
        let ty := (upTok rest 1).getD "undefined"
        if ty != "INT" && ty != "TEXT" && ty != "BOOL" then
          .error ("Invalid column type: " ++ ((rest.get? 1).getD "undefined"))
        else
          let ((pk, nn, uq), rest') := parseConstraints fuel (rest.drop 2) false false false
          parseColDefs fuel rest' (acc ++ [⟨t, ty, pk, nn, uq⟩])

/-- `_parseCreate`: CREATE DATABASE (with optional IF NOT EXISTS) or
CREATE TABLE with its column definitions. -/
def parseCreate (tokens : List String) : Except String Ast := do
  let target := upTok tokens 1
  if target == some "DATABASE" then
    let rest := tokens.drop 2
    let (ifNotExists, rest') :=
      if (upTok rest 0) == some "IF" && (upTok rest 1) == some "NOT" &&
          (upTok rest 2) == some "EXISTS" then
        (true, rest.drop 3)
      else (false, rest)
    if tokFalsy (rest'.get? 0) then throw "Expected database name after CREATE DATABASE"
    pure (.createDatabaseStmt ((rest'.get? 0).getD "") ifNotExists)
  else if target != some "TABLE" then
    throw ("Unsupported CREATE target: " ++ target.getD "undefined" ++
      ". Only CREATE TABLE and CREATE DATABASE are supported")
  else do
    if tokFalsy (tokens.get? 2) then throw "Expected table name after CREATE TABLE"
    let tableName := (tokens.get? 2).getD ""
    let rest := tokens.drop 3
    if rest.get? 0 != some "(" then throw "Expected ( after table name"
    let cols ← parseColDefs (tokens.length + 1) (rest.drop 1) []
    if cols.isEmpty then throw "CREATE TABLE requires at least one column"
    pure (.createTableStmt tableName cols)

/-- `_parseDrop`: DROP DATABASE (with optional IF EXISTS) or DROP TABLE. -/
def parseDrop (tokens : List String) : Except String Ast := do
  let target := upTok tokens 1
  if target == some "DATABASE" then
    let rest := tokens.drop 2
    let (ifExists, rest') :=
      if (upTok rest 0) == some "IF" && (upTok rest 1) == some "EXISTS" then (true, rest.drop 2)
      else (false, rest)
    if tokFalsy (rest'.get? 0) then throw "Expected database name after DROP DATABASE"
    pure (.dropDatabaseStmt ((rest'.get? 0).getD "") ifExists)
  else if target != some "TABLE" then
    throw ("Unsupported DROP target: " ++ target.getD "undefined" ++
      ". Only DROP TABLE and DROP DATABASE are supported")
  else do
    if tokFalsy (tokens.get? 2) then throw "Expected table name after DROP TABLE"
    pure (.dropTableStmt ((tokens.get? 2).getD ""))

/-- `_parseUse`. -/
def parseUse (tokens : List String) : Except String Ast := do
  if tokFalsy (tokens.get? 1) then throw "Expected database name after USE"
  pure (.useStmt ((tokens.get? 1).getD ""))

/-- `_parseShow`. -/
def parseShow (tokens : List String) : Except String Ast := do
  match upTok tokens 1 with
  | none => throw "Expected DATABASES or TABLES after SHOW"
  | some target =>
    if target != "DATABASES" && target != "TABLES" then
      throw ("Unsupported SHOW target: " ++ target ++
        ". Only SHOW DATABASES and SHOW TABLES are supported")
    else pure (.showStmt target)

/-- JS `String.prototype.trim` restricted to the ASCII whitespace
characters (matching `jsIsSpace`). -/
def jsTrim (s : String) : String :=
  String.mk (((s.data.dropWhile jsIsSpace).reverse.dropWhile jsIsSpace).reverse)

/-- `SQLParser.parse`: input validation, tokenization, dispatch on the
first token. -/
def parse (sql : String) : Except String Ast := do
  if sql == "" then throw "SQL query must be a non-empty string"
  let norm := jsTrim sql
  if norm == "" then throw "SQL query cannot be empty"
  let tokens ← tokenize norm
  if tokens.isEmpty then throw "SQL query produced no tokens"
  match jsToUpper ((tokens.get? 0).getD "") with
  | "SELECT" => parseSelect tokens
  | "INSERT" => parseInsert tokens
  | "UPDATE" => parseUpdate tokens
  | "DELETE" => parseDelete tokens
  | "CREATE" => parseCreate tokens
  | "DROP" => parseDrop tokens
  | "USE" => parseUse tokens
  | "SHOW" => parseShow tokens
  | first => throw ("Unknown SQL command: " ++ first)

end MiniRDBMS

namespace MiniRDBMS

/-! ## Database (`src/database.js`) -/

/-- A named database: table name to `Table`, in creation order. -/
structure Db where
  name : String
  tables : List (String × Table)
deriving DecidableEq

/-- `Database.getTable`. -/
def Db.getTable (db : Db) (n : String) : Except String Table :=
  match assocFind? db.tables n with
  | none => .error ("Table " ++ n ++ " does not exist in database " ++ db.name)
  | some t => .ok t

/-- `Database.createTable` (the `instanceof` guard is a static given in
the embedding). -/
def Db.createTable (db : Db) (n : String) (t : Table) : Except String Db :=
  if (assocFind? db.tables n).isSome then
    .error ("Table " ++ n ++ " already exists in database " ++ db.name)
  else .ok { db with tables := assocSet db.tables n t }

/-- `Database.dropTable`. -/
def Db.dropTable (db : Db) (n : String) : Except String Db :=
  if (assocFind? db.tables n).isNone then
    .error ("Cannot drop table " ++ n ++ ": Table does not exist")
  else .ok { db with tables := assocErase db.tables n }

/-- Writing a mutated table back under its name (in JS the table object
is mutated in place; the embedding re-stores it explicitly). -/
def Db.putTable (db : Db) (n : String) (t : Table) : Db :=
  { db with tables := assocSet db.tables n t }

/-- Prefix every field of a row with a table qualifier, merging into
`acc` (`joinedRow[table + "." + col] = row[col]`). -/
def qualifyInto (acc : Row) (tn : String) (r : Row) : Row :=
  r.foldl (fun acc kv => assocSet acc (tn ++ "." ++ kv.1) kv.2) acc

/-- The bucket map `Database.join` builds over the right table's join
column — keyed, as every JS object, by the string coercion of the value. -/
def joinIndex (rows2 : List Row) (c2 : String) : List (String × List Row) :=
  rows2.foldl
    (fun m r2 =>
      let key := (rowGet r2 c2).toKeyString
      match assocFind? m key with
      | some b => assocSet m key (b ++ [r2])
      | none => assocSet m key [r2])
    []

/-- `Database.join`: INNER JOIN of two tables on a column pair, with both
sides' columns emitted under qualified `table.column` names. -/
def Db.join (db : Db) (t1n t2n c1 c2 : String) : Except String (List Row) := do
  let t1 ← db.getTable t1n
  let t2 ← db.getTable t2n
  if (t1.findColumn c1).isNone then
    throw ("Column " ++ c1 ++ " does not exist in table " ++ t1n)
  if (t2.findColumn c2).isNone then
    throw ("Column " ++ c2 ++ " does not exist in table " ++ t2n)
  let idx := joinIndex t2.rows c2
  pure (t1.rows.flatMap (fun r1 =>
    let matching := (assocFind? idx (rowGet r1 c1).toKeyString).getD []
    matching.map (fun r2 => qualifyInto (qualifyInto [] t1n r1) t2n r2)))

/-! ## DatabaseManager (`src/DatabaseManager.js`) and QueryEngine
(`src/engine/QueryEngine.js`)

The engine is modelled over an in-memory manager (`persist: false`;
persistence is an out-of-scope collaborator, spec section 1).  The JS
engine caches `this.database`, a reference aliasing an entry of
`manager.databases`; the embedding stores the *name* of that entry —
sound because through engine-driven execution the alias always denotes
the live object stored under that name, and it is cleared when that
database is dropped. -/

/-- The database-manager state. -/
structure Manager where
  databases : List (String × Db)
  currentDatabaseName : Option String
deriving DecidableEq

/-- The valid-identifier regex `^[a-zA-Z_][a-zA-Z0-9_]*$` of
`DatabaseManager.createDatabase`. -/
def isDbIdent (s : String) : Bool :=
  match s.data with
  | [] => false
  | c :: rest => isIdentStart c && rest.all (fun c => isIdentStart c || c.isDigit)

/-- `DatabaseManager.createDatabase` (persistence save is a no-op). -/
def Manager.createDatabase (m : Manager) (n : String) : Except String Manager :=
  if n == "" then .error "Database name must be a non-empty string"
  else if !isDbIdent n then
    .error ("Invalid database name " ++ n ++
      ". Must start with a letter or underscore, and contain only letters, numbers, and underscores")
  else if (assocFind? m.databases n).isSome then
    .error ("Database " ++ n ++ " already exists")
  else .ok { m with databases := assocSet m.databases n ⟨n, []⟩ }

/-- `DatabaseManager.dropDatabase`. -/
def Manager.dropDatabase (m : Manager) (n : String) : Except String Manager :=
  if (assocFind? m.databases n).isNone then .error ("Database " ++ n ++ " does not exist")
  else
    .ok { databases := assocErase m.databases n,
          currentDatabaseName :=
            if m.currentDatabaseName == some n then none else m.currentDatabaseName }

/-- `DatabaseManager.use`. -/
def Manager.use (m : Manager) (n : String) : Except String Manager :=
  if (assocFind? m.databases n).isNone then .error ("Database " ++ n ++ " does not exist")
  else .ok { m with currentDatabaseName := some n }

/-- The engine state: the manager plus the name aliased by the cached
`this.database` reference. -/
structure Engine where
  manager : Manager
  database : Option String
deriving DecidableEq

/-- A join-projection cell: the looked-up scalar, or — via the fallback
branch `: row` of `_executeSelectWithJoin` — the entire joined row. -/
inductive Cell where
  | val (v : Value)
  | obj (r : Row)
deriving DecidableEq

/-- The data slot of a result envelope. -/
inductive QueryData where
  | jnull
  | rows (rs : List Row)
  | oneRow (r : Row)
  | projRows (rs : List (List (String × Cell)))
deriving DecidableEq

/-- The result envelope (`{success, data, rowsAffected, message|error}`). -/
structure Envelope where
  success : Bool
  data : QueryData
  rowsAffected : Nat
  message : Option String
  error : Option String
deriving DecidableEq

/-- The failed envelope produced by the catch blocks of `execute` /
`executeAST`. -/
def failEnvelope (msg : String) : Envelope :=
  ⟨false, .jnull, 0, none, some msg⟩

/-- A successful envelope. -/
def okEnvelope (data : QueryData) (n : Nat) (msg : String) : Envelope :=
  ⟨true, data, n, some msg, none⟩

/-- `_requireDatabase` plus the dereference of `this.database` (the
`getD` default is unreachable: the alias invariant keeps the name
present). -/
def Engine.currentDb (e : Engine) : Except String Db :=
  match e.database with
  | none =>
    .error "No database selected. Use CREATE DATABASE db_name and USE db_name first."
  | some d => .ok ((assocFind? e.manager.databases d).getD ⟨d, []⟩)

/-- Writing the (in JS, in-place mutated) current database back into the
manager. -/
def Engine.putCurrentDb (e : Engine) (db : Db) : Engine :=
  match e.database with
  | none => e
  | some d => { e with manager := { e.manager with databases := assocSet e.manager.databases d db } }

/-- `QueryEngine._evaluateCondition`: like `_rowMatchesWhere` but an
unknown operator yields `false` instead of throwing. -/
def evaluateCondition (value : Value) (op : String) (compareValue : Value) :
    Except String Bool :=
  if op == "=" || op == "==" then .ok (jsStrictEq value compareValue)
  else if op == "!=" || op == "<>" then .ok (!jsStrictEq value compareValue)
  else if op == ">" then .ok (jsGt value compareValue)
  else if op == "<" then .ok (jsLt value compareValue)
  else if op == ">=" then .ok (jsGe value compareValue)
  else if op == "<=" then .ok (jsLe value compareValue)
  else if op == "LIKE" then
    match value with
    | .str s =>
      match compareValue with
      | .str pat => .ok (likeMatch s pat)
      | _ => .error "TypeError: value.replace is not a function"
    | _ => .ok false
  else .ok false

end MiniRDBMS

namespace MiniRDBMS

/-! ### QueryEngine statement handlers -/

/-- Split a character list at dots (JS `"a.b".split(".")` semantics,
including the empty-segment cases). -/
def splitDotAux : List Char → List (List Char)
  | [] => [[]]
  | ch :: rest =>
    let gs := splitDotAux rest
    if ch = '.' then [] :: gs
    else
      match gs with
      | g :: gs' => (ch :: g) :: gs'
      | [] => [[ch]]

/-- JS `s.split(".")`. -/
def jsSplitDot (s : String) : List String := (splitDotAux s.data).map String.mk

/-- `_executeSelectWithJoin` (read-only): resolve the ON sides against
the FROM table, run `Database.join`, apply the optional WHERE by
re-resolving the filtered column under unqualified/qualified names, then
project. -/
def execSelectJoin (db : Db) (columns : List String) (table : String)
    (wc : Option WhereClause) (j : JoinSpec) : Except String Envelope := do
  match j.onCond with
  | none => throw "TypeError: Cannot read properties of null (reading left)"
  | some oc =>
    match oc.right with
    | none => throw "TypeError: Cannot read properties of undefined (reading split)"
    | some right => do
      let leftParts := jsSplitDot oc.left
      let rightParts := jsSplitDot right
      let p0 := fun (l : List String) => (l.get? 0).getD "undefined"
      let p1 := fun (l : List String) => (l.get? 1).getD "undefined"
      let q :=
        if p0 leftParts == table then (p0 leftParts, p1 leftParts, p0 rightParts, p1 rightParts)
        else (p0 rightParts, p1 rightParts, p0 leftParts, p1 leftParts)
      let rows0 ← db.join q.1 q.2.2.1 q.2.1 q.2.2.2
      let rows1 ←
        match wc with
        | some w =>
          rows0.foldlM
            (fun acc row => do
              let v0 := rowGet row w.column
              let value :=
                if v0 != Value.undef then v0
                else
                  let v2 := rowGet row (table ++ "." ++ w.column)
                  if v2.isNullish then
                    rowGet row ((j.table.getD "undefined") ++ "." ++ w.column)
                  else v2
              let b ← evaluateCondition value w.operator w.value
              pure (if b then acc ++ [row] else acc))
            []
        | none => pure rows0
      let data :=
        if columns.contains "*" then QueryData.rows rows1
        else
          QueryData.projRows (rows1.map (fun row =>
            columns.foldl
              (fun acc col =>
                assocSet acc col
                  (if rowGet row col != Value.undef then Cell.val (rowGet row col)
                   else Cell.obj row))
              []))
      pure (okEnvelope data rows1.length
        ("Selected " ++ toString rows1.length ++ " row(s) with join"))

/-- `_executeSelect`. -/
def Engine.execSelect (e : Engine) (columns : List String) (table : String)
    (wc : Option WhereClause) (j : Option JoinSpec) : Engine × Except String Envelope :=
  match e.currentDb with
  | .error m => (e, .error m)
  | .ok db =>
    match j with
    | some js => (e, execSelectJoin db columns table wc js)
    | none =>
      (e, do
        let t ← db.getTable table
        let rows ← t.select columns wc
        pure (okEnvelope (.rows rows) rows.length
          ("Selected " ++ toString rows.length ++ " row(s)")))

/-- Assembling the row-data object of `_executeInsert` (explicit column
list, or positional assignment against the schema), with the two arity
checks. -/
def buildInsertRowData (t : Table) (columns : List String) (values : List Value) :
    Except String Row :=
  if columns.length > 0 then
    if columns.length ≠ values.length then
      .error ("Column count (" ++ toString columns.length ++ ") does not match value count (" ++
        toString values.length ++ ")")
    else .ok ((columns.zip values).foldl (fun acc kv => assocSet acc kv.1 kv.2) [])
  else
    let names := t.columns.map (fun c => c.name)
    if names.length ≠ values.length then
      .error ("Value count (" ++ toString values.length ++ ") does not match column count (" ++
        toString names.length ++ ")")
    else .ok ((names.zip values).foldl (fun acc kv => assocSet acc kv.1 kv.2) [])

/-- `_executeInsert`. -/
def Engine.execInsert (e : Engine) (table : String) (columns : List String)
    (values : List Value) : Engine × Except String Envelope :=
  match e.currentDb with
  | .error m => (e, .error m)
  | .ok db =>
    match db.getTable table with
    | .error m => (e, .error m)
    | .ok t =>
      match buildInsertRowData t columns values with
      | .error m => (e, .error m)
      | .ok rd =>
        match t.insert rd with
        | (t', res) =>
          let e' := e.putCurrentDb (db.putTable table t')
          match res with
          | .error m => (e', .error m)
          | .ok row => (e', .ok (okEnvelope (.oneRow row) 1 "Inserted 1 row"))

/-- `_executeUpdate`: table lookup first, then the mandatory-WHERE check,
then `Table.update` (whose in-place mutations survive a mid-way throw). -/
def Engine.execUpdate (e : Engine) (table : String) (set : List (String × Value))
    (wc : Option WhereClause) : Engine × Except String Envelope :=
  match e.currentDb with
  | .error m => (e, .error m)
  | .ok db =>
    match db.getTable table with
    | .error m => (e, .error m)
    | .ok t =>
      match wc with
      | none => (e, .error "UPDATE without WHERE clause is not allowed for safety")
      | some w =>
        match t.update set (some w) with
        | (t', res) =>
          let e' := e.putCurrentDb (db.putTable table t')
          match res with
          | .error m => (e', .error m)
          | .ok n =>
            (e', .ok (okEnvelope .jnull n ("Updated " ++ toString n ++ " row(s)")))

/-- `_executeDelete`. -/
def Engine.execDelete (e : Engine) (table : String) (wc : Option WhereClause) :
    Engine × Except String Envelope :=
  match e.currentDb with
  | .error m => (e, .error m)
  | .ok db =>
    match db.getTable table with
    | .error m => (e, .error m)
    | .ok t =>
      match wc with
      | none => (e, .error "DELETE without WHERE clause is not allowed for safety")
      | some w =>
        match t.delete (some w) with
        | (t', res) =>
          let e' := e.putCurrentDb (db.putTable table t')
          match res with
          | .error m => (e', .error m)
          | .ok n =>
            (e', .ok (okEnvelope .jnull n ("Deleted " ++ toString n ++ " row(s)")))

/-- `_executeCreateTable`. -/
def Engine.execCreateTable (e : Engine) (table : String) (colDefs : List ColumnDef) :
    Engine × Except String Envelope :=
  match e.currentDb with
  | .error m => (e, .error m)
  | .ok db =>
    match colDefs.mapM (fun cd => Column.make cd.name cd.type cd.primaryKey cd.notNull cd.unique) with
    | .error m => (e, .error m)
    | .ok columns =>
      match Table.mkNew table columns with
      | .error m => (e, .error m)
      | .ok t =>
        match db.createTable table t with
        | .error m => (e, .error m)
        | .ok db' =>
          (e.putCurrentDb db',
           .ok (okEnvelope .jnull 0 ("Table " ++ table ++ " created successfully")))

/-- `_executeDropTable`. -/
def Engine.execDropTable (e : Engine) (table : String) : Engine × Except String Envelope :=
  match e.currentDb with
  | .error m => (e, .error m)
  | .ok db =>
    match db.dropTable table with
    | .error m => (e, .error m)
    | .ok db' =>
      (e.putCurrentDb db',
       .ok (okEnvelope .jnull 0 ("Table " ++ table ++ " dropped successfully")))

/-- `_executeCreateDatabase` (the engine always holds a manager in this
model, so `_requireManager` passes). -/
def Engine.execCreateDatabase (e : Engine) (n : String) (ifNotExists : Bool) :
    Engine × Except String Envelope :=
  if ifNotExists && (assocFind? e.manager.databases n).isSome then
    (e, .ok (okEnvelope .jnull 0 ("Database " ++ n ++ " already exists")))
  else
    match e.manager.createDatabase n with
    | .error m => (e, .error m)
    | .ok m' =>
      ({ e with manager := m' },
       .ok (okEnvelope .jnull 0 ("Database " ++ n ++ " created successfully")))

/-- `_executeDropDatabase`: clears the cached current-database reference
when it pointed at the dropped database. -/
def Engine.execDropDatabase (e : Engine) (n : String) (ifExists : Bool) :
    Engine × Except String Envelope :=
  if ifExists && (assocFind? e.manager.databases n).isNone then
    (e, .ok (okEnvelope .jnull 0 ("Database " ++ n ++ " does not exist")))
  else
    match e.manager.dropDatabase n with
    | .error m => (e, .error m)
    | .ok m' =>
      ({ manager := m',
         database := if e.database == some n then none else e.database },
       .ok (okEnvelope .jnull 0 ("Database " ++ n ++ " dropped successfully")))

/-- `_executeUse`: switches the manager's current database and refreshes
the engine's cached reference. -/
def Engine.execUse (e : Engine) (n : String) : Engine × Except String Envelope :=
  match e.manager.use n with
  | .error m => (e, .error m)
  | .ok m' =>
    ({ manager := m', database := m'.currentDatabaseName },
     .ok (okEnvelope .jnull 0 ("Database changed to " ++ n)))

/-- `_executeShow`. -/
def Engine.execShow (e : Engine) (target : String) : Engine × Except String Envelope :=
  if target == "DATABASES" then
    let names := e.manager.databases.map (fun p => p.1)
    (e, .ok (okEnvelope (.rows (names.map (fun n => [("Database", Value.str n)])))
      names.length ("Found " ++ toString names.length ++ " database(s)")))
  else if target == "TABLES" then
    match e.currentDb with
    | .error m => (e, .error m)
    | .ok db =>
      let names := db.tables.map (fun p => p.1)
      (e, .ok (okEnvelope (.rows (names.map (fun n => [("Table", Value.str n)])))
        names.length
        ("Found " ++ toString names.length ++ " table(s) in " ++ db.name)))
  else (e, .error ("Unknown SHOW target: " ++ target))

/-- The dispatch switch of `executeAST`, before its catch block. -/
def Engine.execAst (e : Engine) : Ast → Engine × Except String Envelope
  | .selectStmt columns table wc j => e.execSelect columns table wc j
  | .insertStmt table columns values => e.execInsert table columns values
  | .updateStmt table set wc => e.execUpdate table set wc
  | .deleteStmt table wc => e.execDelete table wc
  | .createTableStmt table cols => e.execCreateTable table cols
  | .dropTableStmt table => e.execDropTable table
  | .createDatabaseStmt n ine => e.execCreateDatabase n ine
  | .dropDatabaseStmt n ie => e.execDropDatabase n ie
  | .useStmt n => e.execUse n
  | .showStmt t => e.execShow t

/-- `QueryEngine.executeAST`: every handler failure is converted into the
failed envelope; state mutations made before the throw survive. -/
def Engine.executeAST (e : Engine) (ast : Ast) : Engine × Envelope :=
  match e.execAst ast with
  | (e', .ok env) => (e', env)
  | (e', .error m) => (e', failEnvelope m)

/-- `QueryEngine.execute`: parse, then execute; parser failures are
converted into the failed envelope by the surrounding catch. -/
def Engine.execute (e : Engine) (sql : String) : Engine × Envelope :=
  match parse sql with
  | .error m => (e, failEnvelope m)
  | .ok ast => e.executeAST ast

end MiniRDBMS


namespace MiniRDBMS

/-- Little-endian digit-list value. -/
def digitsRevVal (ds : List Char) : Nat :=
  ds.foldr (fun c acc => acc * 10 + (c.toNat - 48)) 0

/-- A token begins with a digit or `-` — per the tokenizer's rule order,
exactly the tokens emitted by the numeric-literal rule. -/
def headDigitOrMinus (cs : List Char) : Bool :=
  match cs with
  | c :: _ => c.isDigit || c == '-'
  | [] => false

/-- The shape the spec claims for numeric tokens:
`-?` then one or more digits, optionally `.` and one or more digits —
i.e. the union of the two numeric regexes of `_parseValue`. -/
def claimedNumShape (cs : List Char) : Bool :=
  intTokenChars cs || decTokenChars cs

/-- What the numeric rule actually guarantees: after an optional leading
`-`, every remaining character is a digit or a dot (in any arrangement,
possibly none). -/
def numRuleShape (cs : List Char) : Bool :=
  match cs with
  | c :: rest => (c.isDigit || c == '-') && rest.all isNumChar
  | [] => false

/-- A concrete `users(id INT PRIMARY KEY, name TEXT NOT NULL)` table. -/
def witnessTable : Table :=
  match Table.mkNew "users" [⟨"id", .int, true, true, true⟩, ⟨"name", .text, false, true, false⟩] with
  | .ok t => t
  | .error _ => ⟨"users", [], [], [], []⟩

/-- `witnessTable` with one row `{id: 1, name: "Alice"}`. -/
def witnessTable1 : Table :=
  (witnessTable.insert [("id", .num 1), ("name", .str "Alice")]).1

/-- An engine whose current database `db1` holds `witnessTable1` as
`users`. -/
def witnessEngine : Engine :=
  ⟨⟨[("db1", ⟨"db1", [("users", witnessTable1)]⟩)], some "db1"⟩, some "db1"⟩

/-- The first failing column of an insert candidate, in schema order,
with the error its check raises. -/
def firstFailingCol (t : Table) (rowData : Row) : Option (Column × String) :=
  t.columns.findSome? (fun col =>
    match insertCheckCol t rowData col with
    | .error e => some (col, e)
    | .ok _ => none)

/-- An `orders(id INT PRIMARY KEY, user_id INT)` table with one row
`{id: 1, user_id: 1}`. -/
def ordersTable : Table :=
  match Table.mkNew "orders" [⟨"id", .int, true, true, true⟩,
      ⟨"user_id", .int, false, false, false⟩] with
  | .ok t => (t.insert [("id", .num 1), ("user_id", .num 1)]).1
  | .error _ => ⟨"orders", [], [], [], []⟩

/-- An engine whose current database holds `users` (one row, Alice) and
`orders` (one row). -/
def joinEngine : Engine :=
  ⟨⟨[("db1", ⟨"db1", [("users", witnessTable1), ("orders", ordersTable)]⟩)], some "db1"⟩,
    some "db1"⟩

/-- `witnessTable1` with a second row `{id: 2, name: "Bob"}`. -/
def witnessTable2 : Table :=
  (witnessTable1.insert [("id", .num 2), ("name", .str "Bob")]).1

/-- The state of `witnessTable2` after the first matching row of
`UPDATE users SET id = 3 WHERE id >= 1` has been validated and applied. -/
def updTj : Table :=
  (updPrefix [("id", Value.num 3)] witnessTable2 [0]).getD witnessTable2

/-- The bucket of key `k` in one column index (absent key = empty). -/
def bucketOf (idx : HashIdx) (k : String) : List Nat := (assocFind? idx k).getD []

/-- Exactness of one unique-tracking set: if the column has an entry, the
set holds (without duplicates) exactly the non-nullish values stored in
the column; if the entry is missing (second and later PRIMARY KEY columns
of a degenerate schema), every stored value of the column is nullish. -/
def UniqueSetInv (t : Table) (c : String) : Prop :=
  match assocFind? t.uniqueMap c with
  | some s => s.Nodup ∧ ∀ v : Value,
      v ∈ s ↔ v.isNullish = false ∧
        ∃ q : Nat, ∃ h : q < t.rows.length, rowGet (t.rows.get ⟨q, h⟩) c = v
  | none => ∀ q : Nat, ∀ h : q < t.rows.length,
      (rowGet (t.rows.get ⟨q, h⟩) c).isNullish = true

/-- Distinctness of the non-nullish values of a unique/primary-key
column: two row positions holding the same non-nullish value coincide. -/
def DistinctColInv (t : Table) (c : String) : Prop :=
  ∀ p q : Nat, ∀ hp : p < t.rows.length, ∀ hq : q < t.rows.length,
    (rowGet (t.rows.get ⟨p, hp⟩) c).isNullish = false →
    rowGet (t.rows.get ⟨p, hp⟩) c = rowGet (t.rows.get ⟨q, hq⟩) c → p = q

/-- Every stored value fits its column's declared type (nullish values
pass). -/
def TypedInv (t : Table) : Prop :=
  ∀ row ∈ t.rows, ∀ col ∈ t.columns, col.isValidType (rowGet row col.name) = true

/-- The row/unique-set part of the store invariant. -/
def CoreInv (t : Table) : Prop :=
  (t.columns.map Column.name).Nodup ∧
  TypedInv t ∧
  ∀ col ∈ t.columns, (col.unique || col.primaryKey) = true →
    UniqueSetInv t col.name ∧ DistinctColInv t col.name

/-- Exactness of one column index over a row list: the bucket of key `k`
holds (without duplicates) exactly the positions of the rows whose
column value is non-nullish and coerces to the property key `k`. -/
def IdxGood (rows : List Row) (c : String) (idx : HashIdx) : Prop :=
  (idx.map Prod.fst).Nodup ∧
  (∀ k : String, (bucketOf idx k).Nodup) ∧
  ∀ (k : String) (q : Nat), q ∈ bucketOf idx k ↔
    ∃ h : q < rows.length, (rowGet (rows.get ⟨q, h⟩) c).isNullish = false ∧
      (rowGet (rows.get ⟨q, h⟩) c).toKeyString = k

/-- The index part of the store invariant. -/
def IdxInv (t : Table) : Prop :=
  (t.indexes.map Prod.fst).Nodup ∧
  ∀ c idx, assocFind? t.indexes c = some idx → IdxGood t.rows c idx

/-- The full row-store consistency invariant. -/
def Inv (t : Table) : Prop := CoreInv t ∧ IdxInv t

/-- One row-store operation, as issued through the `Table` API. -/
inductive Op where
  | ins (rowData : Row)
  | upd (set : List (String × Value)) (w : Option WhereClause)
  | del (w : Option WhereClause)
  | cidx (c : String)
  | didx (c : String)

/-- Well-formed operation: an UPDATE's SET clause, being a JS object in
the source, binds each column at most once. -/
def Op.wfb : Op → Bool
  | .upd set _ => decide (set.map Prod.fst).Nodup
  | _ => true

/-- Running one operation against a table: the table state afterwards,
whether the operation succeeded or threw. -/
def applyOp (t : Table) : Op → Table
  | .ins rowData => (t.insert rowData).1
  | .upd set w => (t.update set w).1
  | .del w => (t.delete w).1
  | .cidx c => match t.createIndex c with | .ok t1 => t1 | .error _ => t
  | .didx c => t.dropIndex c

/-- One step of the index population scan. -/
def idxStep (c : String) (idx : HashIdx) (p : Nat × Row) : HashIdx :=
  let v := rowGet p.2 c
  if v.isNullish then idx else bucketAdd idx v.toKeyString p.1

/-- The unique-set transformation of one applied SET entry (the inline
delete-old/add-new of `_updateRow`). -/
def updSetFn (u v : Value) (s : List Value) : List Value :=
  let s1 := if u.isNullish then s else jsSetDelete s u
  if v.isNullish then s1 else jsSetAdd s1 v

/-- The index transformation of one applied SET entry
(`_updateIndexOnUpdate`). -/
def updIdxFn (u v : Value) (p : Nat) (idx : HashIdx) : HashIdx :=
  let idx1 := if u.isNullish then idx else bucketRemove idx u.toKeyString p
  if v.isNullish then idx1 else bucketAdd idx1 v.toKeyString p

/-- The operation sequence of the C1 counterexample: two inserts, an index
on `name`, then an UPDATE that moves row 0 into the bucket of row 1. -/
def c1Ops : List Op :=
  [.ins [("id", .num 1), ("name", .str "A")],
   .ins [("id", .num 2), ("name", .str "B")],
   .cidx "name",
   .upd [("name", .str "B")] (some ⟨"id", "=", .num 1⟩)]

/-- The table state after running `c1Ops` against the fresh `users` table. -/
def c1Table : Table := c1Ops.foldl applyOp witnessTable

/-- The `items(id INT PRIMARY KEY, code TEXT)` table of the C3
counterexample. -/
def c3Base : Table :=
  match Table.mkNew "items" [⟨"id", .int, true, true, true⟩,
      ⟨"code", .text, false, false, false⟩] with
  | .ok t => t
  | .error _ => ⟨"items", [], [], [], []⟩

/-- Insert `{id: 1, code: "1"}`, then index `code`. -/
def c3Ops : List Op := [.ins [("id", .num 1), ("code", .str "1")], .cidx "code"]

/-- The table state of the C3 counterexample. -/
def c3Table : Table := c3Ops.foldl applyOp c3Base

end MiniRDBMS

namespace MiniRDBMS

/-! ## Helper lemmas: association lists -/

theorem assocFind?_cons {α : Type} (pk : String) (pv : α) (rest : List (String × α))
    (k : String) :
    assocFind? ((pk, pv) :: rest) k = if pk = k then some pv else assocFind? rest k := by
  by_cases h : pk = k
  · simp [assocFind?, List.find?_cons_of_pos, h]
  · simp only [assocFind?, if_neg h]
    rw [List.find?_cons_of_neg]
    simpa using h

theorem assocSet_cons_eq {α : Type} {pk k : String} (pv : α) (rest : List (String × α))
    (v : α) (h : pk = k) : assocSet ((pk, pv) :: rest) k v = (k, v) :: rest := by
  simp [assocSet, h]

theorem assocSet_cons_ne {α : Type} {pk k : String} (pv : α) (rest : List (String × α))
    (v : α) (h : pk ≠ k) : assocSet ((pk, pv) :: rest) k v = (pk, pv) :: assocSet rest k v := by
  simp [assocSet, h]

theorem assocFind?_assocSet_self {α : Type} (l : List (String × α)) (k : String) (v : α) :
    assocFind? (assocSet l k v) k = some v := by
  induction l with
  | nil => simp [assocSet, assocFind?_cons]
  | cons p rest ih =>
    rcases p with ⟨pk, pv⟩
    by_cases h : pk = k
    · rw [assocSet_cons_eq pv rest v h, assocFind?_cons, if_pos rfl]
    · rw [assocSet_cons_ne pv rest v h, assocFind?_cons, if_neg h]
      exact ih

theorem assocFind?_assocSet_ne {α : Type} (l : List (String × α)) (k k' : String) (v : α)
    (h : k' ≠ k) : assocFind? (assocSet l k v) k' = assocFind? l k' := by
  induction l with
  | nil =>
    show assocFind? [(k, v)] k' = assocFind? [] k'
    rw [assocFind?_cons, if_neg (Ne.symm h)]
  | cons p rest ih =>
    rcases p with ⟨pk, pv⟩
    by_cases hp : pk = k
    · rw [assocSet_cons_eq pv rest v hp, assocFind?_cons, assocFind?_cons,
        if_neg (fun e => h (Eq.symm (hp ▸ e))), if_neg (fun e => h (Eq.symm e))]
    · rw [assocSet_cons_ne pv rest v hp]
      by_cases hk' : pk = k'
      · rw [assocFind?_cons, assocFind?_cons, if_pos hk', if_pos hk']
      · rw [assocFind?_cons, assocFind?_cons, if_neg hk', if_neg hk']
        exact ih

theorem assocFind?_mapVal {α β : Type} (l : List (String × α)) (g : String → α → β)
    (k : String) :
    assocFind? (l.map (fun p => (p.1, g p.1 p.2))) k = (assocFind? l k).map (g k) := by
  induction l with
  | nil => simp [assocFind?, List.find?]
  | cons p rest ih =>
    rcases p with ⟨pk, pv⟩
    by_cases h : pk = k
    · subst h
      simp [assocFind?_cons]
    · simpa [assocFind?_cons, h] using ih

theorem rowGet_assocSet_self (r : Row) (c : String) (v : Value) :
    rowGet (assocSet r c v) c = v := by
  simp [rowGet, assocFind?_assocSet_self]

theorem rowGet_assocSet_ne (r : Row) (c c' : String) (v : Value) (h : c' ≠ c) :
    rowGet (assocSet r c v) c' = rowGet r c' := by
  simp [rowGet, assocFind?_assocSet_ne _ _ _ _ h]

/-! ## Helper lemmas: decimal rendering is injective -/

theorem digitChar_toNat {k : Nat} (h : k < 10) : (Nat.digitChar k).toNat = 48 + k := by
  interval_cases k <;> rfl

theorem digitChar_isDigit {k : Nat} (h : k < 10) : (Nat.digitChar k).isDigit = true := by
  interval_cases k <;> rfl

theorem natDigitsRev_val : ∀ fuel n, n < fuel → digitsRevVal (natDigitsRev fuel n) = n := by
  intro fuel
  induction fuel with
  | zero => omega
  | succ f ih =>
    intro n hn
    by_cases h : n < 10
    · simp only [natDigitsRev, if_pos h, digitsRevVal, List.foldr]
      rw [digitChar_toNat h]
      omega
    · simp only [natDigitsRev, if_neg h]
      have hdiv : n / 10 < f := by
        have h1 : n / 10 < n := Nat.div_lt_self (by omega) (by omega)
        omega
      have := ih (n / 10) hdiv
      simp only [digitsRevVal, List.foldr] at this ⊢
      rw [this, digitChar_toNat (Nat.mod_lt n (by omega))]
      omega

theorem natDigitsRev_digits : ∀ fuel n c, c ∈ natDigitsRev fuel n → c.isDigit = true := by
  intro fuel
  induction fuel with
  | zero => intro n c hc; simp [natDigitsRev] at hc
  | succ f ih =>
    intro n c hc
    by_cases h : n < 10
    · simp only [natDigitsRev, if_pos h, List.mem_singleton] at hc
      subst hc
      exact digitChar_isDigit h
    · simp only [natDigitsRev, if_neg h, List.mem_cons] at hc
      rcases hc with hc | hc
      · subst hc
        exact digitChar_isDigit (Nat.mod_lt n (by omega))
      · exact ih _ _ hc

theorem natDigitsRev_ne_nil (n : Nat) : natDigitsRev (n + 1) n ≠ [] := by
  by_cases h : n < 10 <;> simp [natDigitsRev, h]

theorem natToString_data_inj {m n : Nat}
    (h : (natToString m).data = (natToString n).data) : m = n := by
  have hd : (natDigitsRev (m + 1) m).reverse = (natDigitsRev (n + 1) n).reverse := by
    simpa [natToString] using h
  have hd2 : natDigitsRev (m + 1) m = natDigitsRev (n + 1) n := by
    have := congrArg List.reverse hd
    simpa using this
  have hm := natDigitsRev_val (m + 1) m (by omega)
  have hn := natDigitsRev_val (n + 1) n (by omega)
  rw [hd2] at hm
  omega

theorem natToString_inj {m n : Nat} (h : natToString m = natToString n) : m = n :=
  natToString_data_inj (congrArg String.data h)

theorem natToString_data_digits (n : Nat) (c : Char) (hc : c ∈ (natToString n).data) :
    c.isDigit = true := by
  simp only [natToString] at hc
  exact natDigitsRev_digits _ _ _ (List.mem_reverse.mp hc)

/-- `"-" ++ s` at the character level. -/
theorem dash_append_data (s : String) : ("-" ++ s).data = '-' :: s.data := by
  cases s
  rfl

theorem intToString_inj : ∀ {a b : Int}, intToString a = intToString b → a = b := by
  intro a b h
  match a, b with
  | .ofNat m, .ofNat n =>
    simp only [intToString] at h
    exact congrArg Int.ofNat (natToString_inj h)
  | .negSucc m, .negSucc n =>
    simp only [intToString] at h
    have hdata := congrArg String.data h
    rw [dash_append_data, dash_append_data] at hdata
    have h2 : (natToString (m + 1)).data = (natToString (n + 1)).data := by
      simpa using hdata
    have := natToString_data_inj h2
    have hmn2 : m = n := by omega
    rw [hmn2]
  | .ofNat m, .negSucc n =>
    exfalso
    simp only [intToString] at h
    have hdata : (natToString m).data = '-' :: (natToString (n + 1)).data := by
      have := congrArg String.data h
      rwa [dash_append_data] at this
    have hdig := natToString_data_digits m '-' (by rw [hdata]; exact List.mem_cons_self _ _)
    exact absurd hdig (by decide)
  | .negSucc m, .ofNat n =>
    exfalso
    simp only [intToString] at h
    have hdata : (natToString n).data = '-' :: (natToString (m + 1)).data := by
      have := congrArg String.data h.symm
      rwa [dash_append_data] at this
    have hdig := natToString_data_digits n '-' (by rw [hdata]; exact List.mem_cons_self _ _)
    exact absurd hdig (by decide)

theorem valid_shape_int {col : Column} {v : Value} (ht : col.type = .int)
    (hv : col.isValidType v = true) (hn : v.isNullish = false) :
    ∃ q : ℚ, v = .num q ∧ q.den = 1 := by
  cases v <;> simp_all [Column.isValidType, Value.isNullish]

theorem valid_shape_text {col : Column} {v : Value} (ht : col.type = .text)
    (hv : col.isValidType v = true) (hn : v.isNullish = false) :
    ∃ s : String, v = .str s := by
  cases v <;> simp_all [Column.isValidType, Value.isNullish]

theorem valid_shape_bool {col : Column} {v : Value} (ht : col.type = .bool)
    (hv : col.isValidType v = true) (hn : v.isNullish = false) :
    ∃ b : Bool, v = .bool b := by
  cases v <;> simp_all [Column.isValidType, Value.isNullish]

/-- On non-nullish values that fit one declared column type, the JS
property-key coercion is injective: within a typed column, distinct
stored values occupy distinct index buckets. -/
theorem toKeyString_inj_typed (col : Column) {v w : Value}
    (hv : col.isValidType v = true) (hw : col.isValidType w = true)
    (hv' : v.isNullish = false) (hw' : w.isNullish = false)
    (h : v.toKeyString = w.toKeyString) : v = w := by
  cases ct : col.type
  · obtain ⟨q, rfl, hq⟩ := valid_shape_int ct hv hv'
    obtain ⟨r, rfl, hr⟩ := valid_shape_int ct hw hw'
    simp only [Value.toKeyString, if_pos hq, if_pos hr] at h
    have := intToString_inj h
    exact congrArg Value.num (Rat.ext this (by rw [hq, hr]))
  · obtain ⟨s, rfl⟩ := valid_shape_text ct hv hv'
    obtain ⟨s2, rfl⟩ := valid_shape_text ct hw hw'
    simp only [Value.toKeyString] at h
    rw [h]
  · obtain ⟨b, rfl⟩ := valid_shape_bool ct hv hv'
    obtain ⟨b2, rfl⟩ := valid_shape_bool ct hw hw'
    cases b <;> cases b2 <;> simp_all [Value.toKeyString]

end MiniRDBMS

namespace MiniRDBMS

/-! ## Claim C8: the shape of numeric-rule tokens -/

theorem exceptMap_ok {ε α β : Type} (f : α → β) (x : Except ε α) (y : β)
    (h : Except.map f x = .ok y) : ∃ z, x = .ok z ∧ y = f z := by
  cases x with
  | error e => simp [Except.map] at h
  | ok z => exact ⟨z, rfl, by simpa [Except.map] using h.symm⟩

theorem mem_takeWhile_sat {α : Type} (p : α → Bool) :
    ∀ (l : List α) (a : α), a ∈ l.takeWhile p → p a = true := by
  intro l
  induction l with
  | nil => intro a ha; simp [List.takeWhile] at ha
  | cons x xs ih =>
    intro a ha
    by_cases hx : p x
    · rw [List.takeWhile_cons_of_pos hx] at ha
      rcases List.mem_cons.mp ha with rfl | ha
      · exact hx
      · exact ih a ha
    · rw [List.takeWhile_cons_of_neg hx] at ha
      simp at ha

theorem identStart_not_num {c : Char} (h : isIdentStart c = true) :
    (c.isDigit || c == '-') = false := by
  simp only [isIdentStart, Bool.or_eq_true, Bool.and_eq_true, decide_eq_true_eq,
    beq_iff_eq] at h
  rw [Bool.or_eq_false_iff]
  constructor
  · rw [Bool.eq_false_iff]
    intro hd
    have hr : 48 ≤ c.toNat ∧ c.toNat ≤ 57 := by
      simp only [Char.isDigit, Bool.and_eq_true, decide_eq_true_eq] at hd
      exact ⟨hd.1, hd.2⟩
    rcases h with (⟨h1, _⟩ | ⟨h1, _⟩) | rfl
    · have h1' : 97 ≤ c.toNat := h1
      omega
    · have h1' : 65 ≤ c.toNat := h1
      omega
    · exact absurd hd (by decide)
  · rw [Bool.eq_false_iff]
    intro he
    have hc : c = '-' := by simpa using he
    subst hc
    rcases h with (⟨h1, _⟩ | ⟨h1, _⟩) | h1
    · exact absurd (show (97 : Nat) ≤ 45 from h1) (by omega)
    · exact absurd (show (65 : Nat) ≤ 45 from h1) (by omega)
    · cases h1

theorem punct_not_num {c : Char} (h : isPunctChar c = true) :
    (c.isDigit || c == '-') = false := by
  simp only [isPunctChar, Bool.or_eq_true, beq_iff_eq] at h
  rcases h with ((((((((rfl | rfl) | rfl) | rfl) | rfl) | rfl) | rfl) | rfl) | rfl) <;> rfl

theorem twoCharOp_not_num {c : Char} {cs : List Char} {two : String} {rest : List Char}
    (h : twoCharOpRest c cs = some (two, rest)) : headDigitOrMinus two.data = false := by
  match cs with
  | [] => cases h
  | c2 :: rest3 =>
    simp only [twoCharOpRest] at h
    by_cases hcond : (String.mk [c, c2] == ">=" || String.mk [c, c2] == "<=" ||
        String.mk [c, c2] == "!=" || String.mk [c, c2] == "<>") = true
    · rw [if_pos hcond] at h
      have h2 : two = String.mk [c, c2] := by
        cases h
        rfl
      subst h2
      simp only [Bool.or_eq_true, beq_iff_eq] at hcond
      rcases hcond with ((hc | hc) | hc) | hc <;> (rw [hc]; decide)
    · rw [if_neg hcond] at h
      cases h

/-- Induction core for the numeric-token shape claim. -/
theorem tokenizeAux_numShape :
    ∀ fuel cs ts, tokenizeAux fuel cs = .ok ts →
      ∀ t ∈ ts, headDigitOrMinus t.data = true → numRuleShape t.data = true := by
  intro fuel
  induction fuel with
  | zero => intro cs ts h; simp [tokenizeAux] at h
  | succ f ih =>
    intro cs ts h t ht hhead
    match cs with
    | [] =>
      simp only [tokenizeAux] at h
      cases h
      simp at ht
    | c :: rest =>
      simp only [tokenizeAux] at h
      by_cases hsp : jsIsSpace c
      · rw [if_pos hsp] at h
        exact ih rest ts h t ht hhead
      · rw [if_neg hsp] at h
        by_cases hq : c = quoteChar
        · rw [if_pos hq] at h
          match hcs : consumeStr rest with
          | none => rw [hcs] at h; cases h
          | some (content, rest2) =>
            rw [hcs] at h
            obtain ⟨ts', hts', rfl⟩ := exceptMap_ok _ _ _ h
            rcases List.mem_cons.mp ht with rfl | hmem
            · exfalso
              simp only [headDigitOrMinus] at hhead
              rw [show quoteChar.isDigit = false from by decide,
                show (quoteChar == '-') = false from by decide] at hhead
              cases hhead
            · exact ih _ _ hts' t hmem hhead
        · rw [if_neg hq] at h
          match htwo : twoCharOpRest c rest with
          | some (two, rest2) =>
            rw [htwo] at h
            obtain ⟨ts', hts', rfl⟩ := exceptMap_ok _ _ _ h
            rcases List.mem_cons.mp ht with rfl | hmem
            · rw [twoCharOp_not_num htwo] at hhead
              cases hhead
            · exact ih _ _ hts' t hmem hhead
          | none =>
            rw [htwo] at h
            by_cases hpunct : isPunctChar c
            · rw [if_pos hpunct] at h
              obtain ⟨ts', hts', rfl⟩ := exceptMap_ok _ _ _ h
              rcases List.mem_cons.mp ht with rfl | hmem
              · rw [show (String.mk [c]).data = [c] from rfl] at hhead
                simp only [headDigitOrMinus] at hhead
                rw [punct_not_num hpunct] at hhead
                cases hhead
              · exact ih _ _ hts' t hmem hhead
            · rw [if_neg hpunct] at h
              by_cases hident : isIdentStart c
              · rw [if_pos hident] at h
                obtain ⟨ts', hts', rfl⟩ := exceptMap_ok _ _ _ h
                rcases List.mem_cons.mp ht with rfl | hmem
                · rw [show (String.mk (c :: List.takeWhile isIdentChar rest)).data =
                      c :: List.takeWhile isIdentChar rest from rfl] at hhead
                  simp only [headDigitOrMinus] at hhead
                  rw [identStart_not_num hident] at hhead
                  cases hhead
                · exact ih _ _ hts' t hmem hhead
              · rw [if_neg hident] at h
                by_cases hnum : (c.isDigit || c == '-') = true
                · rw [if_pos hnum] at h
                  obtain ⟨ts', hts', rfl⟩ := exceptMap_ok _ _ _ h
                  rcases List.mem_cons.mp ht with rfl | hmem
                  · rw [show (String.mk (c :: List.takeWhile isNumChar rest)).data =
                      c :: List.takeWhile isNumChar rest from rfl]
                    simp only [numRuleShape]
                    rw [hnum, Bool.true_and, List.all_eq_true]
                    intro x hx
                    exact mem_takeWhile_sat isNumChar rest x hx
                  · exact ih _ _ hts' t hmem hhead
                · rw [if_neg hnum] at h
                  cases h
/-- C8 (corrected): for every input string the tokenizer scans
successfully, every emitted token that begins with a digit or `-` (the
numeric-literal rule's tokens) consists of that optional leading `-`
followed exclusively of digits and dots — but not necessarily in the
claimed `-?\d+(\.\d+)?` arrangement (see the counterexample). -/
theorem claim_C8_amended (s : String) (ts : List String)
    (h : tokenize s = .ok ts) (t : String) (ht : t ∈ ts)
    (hhead : headDigitOrMinus t.data = true) : numRuleShape t.data = true :=
  tokenizeAux_numShape _ _ _ h t ht hhead

/-- Witness for C8 (amended) at the concrete input "-12.5". -/
theorem claim_C8_amended_witness :
    tokenize "-12.5" = .ok ["-12.5"] ∧ numRuleShape ("-12.5" : String).data = true :=
  ⟨by rfl, claim_C8_amended "-12.5" ["-12.5"] (by rfl) "-12.5" (by simp) (by decide)⟩

/-- C8 counterexample: tokenizing the input "1." succeeds and emits the
numeric-rule token "1." (it begins with a digit), yet that token does not
match the claimed shape of optional `-`, digits, then optionally a dot
followed by at least one digit. -/
theorem claim_C8_counterexample :
    tokenize "1." = .ok ["1."] ∧ headDigitOrMinus ("1." : String).data = true ∧
      claimedNumShape ("1." : String).data = false :=
  ⟨by rfl, by decide, by decide⟩

end MiniRDBMS

namespace MiniRDBMS

/-! ## Witness fixtures -/

/-! ## Claim C5: WHERE-less UPDATE/DELETE parse fine, fail at execution -/

/-- C5: the parser accepts UPDATE (and DELETE) without a WHERE clause,
producing an AST whose where field is null; executing such an AST against
a selected database containing the target table always fails with the
missing-WHERE-clause error and returns the engine state unchanged (no row
mutated). -/
theorem claim_C5 :
    (parse "UPDATE t SET a = 1" = .ok (.updateStmt "t" [("a", .num 1)] none)) ∧
    (parse "DELETE FROM t" = .ok (.deleteStmt "t" none)) ∧
    (∀ (e : Engine) (tn : String) (set : List (String × Value)) (d : String) (db : Db),
      e.database = some d →
      assocFind? e.manager.databases d = some db →
      (assocFind? db.tables tn).isSome →
      e.executeAST (.updateStmt tn set none) =
        (e, failEnvelope "UPDATE without WHERE clause is not allowed for safety") ∧
      e.executeAST (.deleteStmt tn none) =
        (e, failEnvelope "DELETE without WHERE clause is not allowed for safety")) := by
  refine ⟨by rfl, by rfl, ?_⟩
  intro e tn set d db h1 h2 h3
  obtain ⟨t, ht⟩ := Option.isSome_iff_exists.mp h3
  constructor
  · simp [Engine.executeAST, Engine.execAst, Engine.execUpdate, Engine.currentDb, h1, h2,
      Db.getTable, ht]
  · simp [Engine.executeAST, Engine.execAst, Engine.execDelete, Engine.currentDb, h1, h2,
      Db.getTable, ht]

/-- Witness for C5's execution clause at a concrete engine state. -/
theorem claim_C5_witness :
    witnessEngine.executeAST (.updateStmt "users" [("name", .str "x")] none) =
      (witnessEngine, failEnvelope "UPDATE without WHERE clause is not allowed for safety") ∧
    witnessEngine.executeAST (.deleteStmt "users" none) =
      (witnessEngine, failEnvelope "DELETE without WHERE clause is not allowed for safety") :=
  claim_C5.2.2 witnessEngine "users" [("name", .str "x")] "db1"
    ⟨"db1", [("users", witnessTable1)]⟩ (by rfl) (by rfl) (by decide)

end MiniRDBMS

namespace MiniRDBMS

/-! ## Claim C4: the executor never raises across `execute` -/

theorem exceptBind_ok {ε α β : Type} {x : Except ε α} {f : α → Except ε β} {b : β}
    (h : Except.bind x f = .ok b) : ∃ a, x = .ok a ∧ f a = .ok b := by
  cases x with
  | error e => simp [Except.bind] at h
  | ok a => exact ⟨a, rfl, by simpa [Except.bind] using h⟩

theorem execSelectJoin_success (db : Db) (cols : List String) (table : String)
    (wc : Option WhereClause) (j : JoinSpec) (env : Envelope)
    (h : execSelectJoin db cols table wc j = .ok env) : env.success = true := by
  simp only [execSelectJoin] at h
  cases hoc : j.onCond with
  | none => rw [hoc] at h; dsimp only at h; simp [throw, throwThe, MonadExceptOf.throw] at h
  | some oc =>
    rw [hoc] at h
    dsimp only at h
    cases hr : oc.right with
    | none => rw [hr] at h; dsimp only at h; simp [throw, throwThe, MonadExceptOf.throw] at h
    | some right =>
      rw [hr] at h
      dsimp only at h
      simp only [bind, Bind.bind] at h
      obtain ⟨rows0, h1, h⟩ := exceptBind_ok h
      cases wc with
      | none =>
        dsimp only at h
        obtain ⟨rows1, h2, h⟩ := exceptBind_ok h
        simp only [pure, Except.pure] at h
        cases h
        rfl
      | some w =>
        dsimp only at h
        obtain ⟨rows1, h2, h⟩ := exceptBind_ok h
        simp only [pure, Except.pure] at h
        cases h
        rfl

theorem execSelect_success (e : Engine) (cols : List String) (table : String)
    (wc : Option WhereClause) (j : Option JoinSpec) {e' : Engine} {env : Envelope}
    (h : e.execSelect cols table wc j = (e', .ok env)) : env.success = true := by
  simp only [Engine.execSelect] at h
  cases hdb : e.currentDb with
  | error m => rw [hdb] at h; simp at h
  | ok db =>
    rw [hdb] at h
    cases j with
    | some js =>
      dsimp only at h
      have h2 := congrArg Prod.snd h
      dsimp only at h2
      exact execSelectJoin_success db cols table wc js env h2
    | none =>
      dsimp only at h
      have h2 := congrArg Prod.snd h
      dsimp only at h2
      simp only [bind, Bind.bind] at h2
      obtain ⟨t, h3, h2⟩ := exceptBind_ok h2
      obtain ⟨rows, h4, h2⟩ := exceptBind_ok h2
      simp only [pure, Except.pure] at h2
      cases h2
      rfl

theorem execInsert_success (e : Engine) (tb : String) (cols : List String)
    (vals : List Value) {e' : Engine} {env : Envelope}
    (h : e.execInsert tb cols vals = (e', .ok env)) : env.success = true := by
  simp only [Engine.execInsert] at h
  cases hdb : e.currentDb with
  | error m => rw [hdb] at h; simp at h
  | ok db =>
    rw [hdb] at h
    try dsimp only at h
    cases hgt : db.getTable tb with
    | error m => rw [hgt] at h; simp at h
    | ok t =>
      rw [hgt] at h
      try dsimp only at h
      cases hb : buildInsertRowData t cols vals with
      | error m => rw [hb] at h; simp at h
      | ok rd =>
        rw [hb] at h
        try dsimp only at h
        rcases hins : t.insert rd with ⟨t2, res⟩
        rw [hins] at h
        try dsimp only at h
        cases res with
        | error m => simp at h
        | ok row =>
          try dsimp only at h
          have h2 := congrArg Prod.snd h
          dsimp only at h2
          cases h2
          rfl

theorem execUpdate_success (e : Engine) (tb : String) (set : List (String × Value))
    (wc : Option WhereClause) {e' : Engine} {env : Envelope}
    (h : e.execUpdate tb set wc = (e', .ok env)) : env.success = true := by
  simp only [Engine.execUpdate] at h
  cases hdb : e.currentDb with
  | error m => rw [hdb] at h; simp at h
  | ok db =>
    rw [hdb] at h
    try dsimp only at h
    cases hgt : db.getTable tb with
    | error m => rw [hgt] at h; simp at h
    | ok t =>
      rw [hgt] at h
      try dsimp only at h
      cases wc with
      | none => simp at h
      | some w =>
        try dsimp only at h
        rcases hu : t.update set (some w) with ⟨t2, res⟩
        rw [hu] at h
        try dsimp only at h
        cases res with
        | error m => simp at h
        | ok n =>
          try dsimp only at h
          have h2 := congrArg Prod.snd h
          dsimp only at h2
          cases h2
          rfl

theorem execDelete_success (e : Engine) (tb : String) (wc : Option WhereClause)
    {e' : Engine} {env : Envelope}
    (h : e.execDelete tb wc = (e', .ok env)) : env.success = true := by
  simp only [Engine.execDelete] at h
  cases hdb : e.currentDb with
  | error m => rw [hdb] at h; simp at h
  | ok db =>
    rw [hdb] at h
    try dsimp only at h
    cases hgt : db.getTable tb with
    | error m => rw [hgt] at h; simp at h
    | ok t =>
      rw [hgt] at h
      try dsimp only at h
      cases wc with
      | none => simp at h
      | some w =>
        try dsimp only at h
        rcases hu : t.delete (some w) with ⟨t2, res⟩
        rw [hu] at h
        try dsimp only at h
        cases res with
        | error m => simp at h
        | ok n =>
          try dsimp only at h
          have h2 := congrArg Prod.snd h
          dsimp only at h2
          cases h2
          rfl

theorem execCreateTable_success (e : Engine) (tb : String) (cds : List ColumnDef)
    {e' : Engine} {env : Envelope}
    (h : e.execCreateTable tb cds = (e', .ok env)) : env.success = true := by
  simp only [Engine.execCreateTable] at h
  cases hdb : e.currentDb with
  | error m => rw [hdb] at h; simp at h
  | ok db =>
    rw [hdb] at h
    try dsimp only at h
    cases hm : cds.mapM (fun cd => Column.make cd.name cd.type cd.primaryKey cd.notNull cd.unique) with
    | error m => rw [hm] at h; simp at h
    | ok columns =>
      rw [hm] at h
      try dsimp only at h
      cases hmk : Table.mkNew tb columns with
      | error m => rw [hmk] at h; simp at h
      | ok t =>
        rw [hmk] at h
        try dsimp only at h
        cases hct : db.createTable tb t with
        | error m => rw [hct] at h; simp at h
        | ok db' =>
          rw [hct] at h
          try dsimp only at h
          have h2 := congrArg Prod.snd h
          dsimp only at h2
          cases h2
          rfl

theorem execDropTable_success (e : Engine) (tb : String) {e' : Engine} {env : Envelope}
    (h : e.execDropTable tb = (e', .ok env)) : env.success = true := by
  simp only [Engine.execDropTable] at h
  cases hdb : e.currentDb with
  | error m => rw [hdb] at h; simp at h
  | ok db =>
    rw [hdb] at h
    try dsimp only at h
    cases hdt : db.dropTable tb with
    | error m => rw [hdt] at h; simp at h
    | ok db' =>
      rw [hdt] at h
      try dsimp only at h
      have h2 := congrArg Prod.snd h
      dsimp only at h2
      cases h2
      rfl

theorem execCreateDatabase_success (e : Engine) (n : String) (ine : Bool)
    {e' : Engine} {env : Envelope}
    (h : e.execCreateDatabase n ine = (e', .ok env)) : env.success = true := by
  simp only [Engine.execCreateDatabase] at h
  by_cases hc : (ine && (assocFind? e.manager.databases n).isSome) = true
  · rw [if_pos hc] at h
    have h2 := congrArg Prod.snd h
    dsimp only at h2
    cases h2
    rfl
  · rw [if_neg hc] at h
    cases hcd : e.manager.createDatabase n with
    | error m => rw [hcd] at h; simp at h
    | ok m' =>
      rw [hcd] at h
      try dsimp only at h
      have h2 := congrArg Prod.snd h
      dsimp only at h2
      cases h2
      rfl

theorem execDropDatabase_success (e : Engine) (n : String) (ie : Bool)
    {e' : Engine} {env : Envelope}
    (h : e.execDropDatabase n ie = (e', .ok env)) : env.success = true := by
  simp only [Engine.execDropDatabase] at h
  by_cases hc : (ie && (assocFind? e.manager.databases n).isNone) = true
  · rw [if_pos hc] at h
    have h2 := congrArg Prod.snd h
    dsimp only at h2
    cases h2
    rfl
  · rw [if_neg hc] at h
    cases hdd : e.manager.dropDatabase n with
    | error m => rw [hdd] at h; simp at h
    | ok m' =>
      rw [hdd] at h
      try dsimp only at h
      have h2 := congrArg Prod.snd h
      dsimp only at h2
      cases h2
      rfl

theorem execUse_success (e : Engine) (n : String) {e' : Engine} {env : Envelope}
    (h : e.execUse n = (e', .ok env)) : env.success = true := by
  simp only [Engine.execUse] at h
  cases hu : e.manager.use n with
  | error m => rw [hu] at h; simp at h
  | ok m' =>
    rw [hu] at h
    try dsimp only at h
    have h2 := congrArg Prod.snd h
    dsimp only at h2
    cases h2
    rfl

theorem execShow_success (e : Engine) (tg : String) {e' : Engine} {env : Envelope}
    (h : e.execShow tg = (e', .ok env)) : env.success = true := by
  simp only [Engine.execShow] at h
  by_cases h1 : (tg == "DATABASES") = true
  · rw [if_pos h1] at h
    have h2 := congrArg Prod.snd h
    dsimp only at h2
    cases h2
    rfl
  · rw [if_neg h1] at h
    by_cases h2 : (tg == "TABLES") = true
    · rw [if_pos h2] at h
      cases hdb : e.currentDb with
      | error m => rw [hdb] at h; simp at h
      | ok db =>
        rw [hdb] at h
        try dsimp only at h
        have h3 := congrArg Prod.snd h
        dsimp only at h3
        cases h3
        rfl
    · rw [if_neg h2] at h
      simp at h

theorem execAst_ok_success (e : Engine) (ast : Ast) {e' : Engine} {env : Envelope}
    (h : e.execAst ast = (e', .ok env)) : env.success = true := by
  cases ast with
  | selectStmt cols table wc j => exact execSelect_success e cols table wc j h
  | insertStmt tb cols vals => exact execInsert_success e tb cols vals h
  | updateStmt tb set wc => exact execUpdate_success e tb set wc h
  | deleteStmt tb wc => exact execDelete_success e tb wc h
  | createTableStmt tb cds => exact execCreateTable_success e tb cds h
  | dropTableStmt tb => exact execDropTable_success e tb h
  | createDatabaseStmt n ine => exact execCreateDatabase_success e n ine h
  | dropDatabaseStmt n ie => exact execDropDatabase_success e n ie h
  | useStmt n => exact execUse_success e n h
  | showStmt tg => exact execShow_success e tg h

/-- C4: for every engine state and every input query string — malformed,
unscannable, unknown-table or constraint-violating included — `execute`
returns a result envelope (it is a total function of the embedding, so no
exception crosses the boundary), and that envelope is either a success
envelope or exactly the failed-envelope shape
`{success: false, error: msg, data: null, rowsAffected: 0}`. -/
theorem claim_C4 (e : Engine) (sql : String) :
    (e.execute sql).2.success = true ∨
      ∃ msg : String, (e.execute sql).2 = failEnvelope msg := by
  unfold Engine.execute
  cases hp : parse sql with
  | error m => exact Or.inr ⟨m, rfl⟩
  | ok ast =>
    dsimp only
    unfold Engine.executeAST
    rcases ha : e.execAst ast with ⟨e2, res⟩
    cases res with
    | ok env => exact Or.inl (execAst_ok_success e ast ha)
    | error m => exact Or.inr ⟨m, rfl⟩

end MiniRDBMS

namespace MiniRDBMS

/-! ## Claim C2: atomicity of rejected inserts -/

theorem insertValidate_go_error (t : Table) (rowData : Row) (col : Column) (e : String) :
    ∀ (cols : List Column) (acc : Row),
      cols.findSome? (fun col =>
        match insertCheckCol t rowData col with
        | .error e => some (col, e)
        | .ok _ => none) = some (col, e) →
      cols.foldlM
        (fun row col => do
          insertCheckCol t rowData col
          pure (assocSet row col.name (rowGet rowData col.name)))
        acc = (.error e : Except String Row) := by
  intro cols
  induction cols with
  | nil => intro acc h; simp [List.findSome?] at h
  | cons c cs ih =>
    intro acc h
    rw [List.findSome?_cons] at h
    cases hc : insertCheckCol t rowData c with
    | error e0 =>
      rw [hc] at h
      dsimp only at h
      have hpair : c = col ∧ e0 = e := by simpa using h
      rw [List.foldlM_cons]
      simp only [bind, Bind.bind]
      rw [hc]
      simp only [Except.bind]
      rw [hpair.2]
    | ok u =>
      rw [hc] at h
      dsimp only at h
      rw [List.foldlM_cons]
      simp only [bind, Bind.bind]
      rw [hc]
      simp only [Except.bind, pure, Except.pure]
      exact ih _ h

/-- C2: whenever some column's value in the candidate row violates a
NOT NULL, type, or UNIQUE/PRIMARY KEY check (that is, the first failing
column in schema order exists and raises error `e`), `insert` fails with
exactly that error, and the table — rows, unique-tracking sets, indexes —
is returned completely unchanged. -/
theorem claim_C2 (t : Table) (rowData : Row) (col : Column) (e : String)
    (h : firstFailingCol t rowData = some (col, e)) :
    t.insert rowData = (t, .error e) ∧
      (t.insert rowData).1.rows = t.rows ∧
      (t.insert rowData).1.uniqueMap = t.uniqueMap ∧
      (t.insert rowData).1.indexes = t.indexes := by
  have hv : t.insertValidate rowData = .error e :=
    insertValidate_go_error t rowData col e t.columns [] h
  have : t.insert rowData = (t, .error e) := by
    unfold Table.insert
    rw [hv]
  exact ⟨this, by rw [this], by rw [this], by rw [this]⟩

/-- Witness for C2: inserting a duplicate primary key (id 1 again) into
the one-row users table fails with the uniqueness error and leaves the
table untouched. -/
theorem claim_C2_witness :
    witnessTable1.insert [("id", .num 1), ("name", .str "Bob")] =
      (witnessTable1, .error "UNIQUE constraint violation: Value 1 already exists in column id") :=
  (claim_C2 witnessTable1 [("id", .num 1), ("name", .str "Bob")]
    ⟨"id", .int, true, true, true⟩
    "UNIQUE constraint violation: Value 1 already exists in column id" (by rfl)).1

end MiniRDBMS

namespace MiniRDBMS

/-! ## Claim C9: WHERE on a column absent from the schema -/

theorem rowMatches_undef_eqlike (row : Row) (w : String) (v : Value)
    (hrow : rowGet row w = .undef) (hv : v ≠ .undef) :
    ∀ op ∈ (["=", ">", "<", ">=", "<=", "LIKE"] : List String),
      rowMatchesWhere row ⟨w, op, v⟩ = .ok false := by
  intro op hop
  simp only [List.mem_cons, List.mem_singleton] at hop
  rcases hop with rfl | rfl | rfl | rfl | rfl | rfl | h
  · simp [rowMatchesWhere, hrow, jsStrictEq, Ne.symm hv]
  · simp only [rowMatchesWhere, hrow]
    norm_num [jsGt, jsLt]
    cases v <;> simp [Value.toNumber]
  · simp only [rowMatchesWhere, hrow]
    norm_num [jsLt]
    cases v <;> simp [Value.toNumber]
  · simp only [rowMatchesWhere, hrow]
    norm_num [jsGe]
    cases v <;> simp [Value.toNumber]
  · simp only [rowMatchesWhere, hrow]
    norm_num [jsLe, jsGe]
    cases v <;> simp [Value.toNumber]
  · simp only [rowMatchesWhere, hrow]
    simp
  · cases h

theorem rowMatches_undef_ne (row : Row) (w : String) (v : Value)
    (hrow : rowGet row w = .undef) (hv : v ≠ .undef) (op : String)
    (hop : op = "!=" ∨ op = "<>") :
    rowMatchesWhere row ⟨w, op, v⟩ = .ok true := by
  rcases hop with rfl | rfl <;>
    · simp [rowMatchesWhere, hrow, jsStrictEq, Ne.symm hv]

theorem scanFold_const (wc : WhereClause) (b : Bool) :
    ∀ (rows : List Row), (∀ row ∈ rows, rowMatchesWhere row wc = .ok b) →
      ∀ acc, rows.foldlM
        (fun acc row => do
          let r ← rowMatchesWhere row wc
          pure (if r then acc ++ [row] else acc)) acc =
        .ok (if b then acc ++ rows else acc) := by
  intro rows
  induction rows with
  | nil => intro h acc; cases b <;> simp [List.foldlM, pure, Except.pure]
  | cons r rs ih =>
    intro h acc
    rw [List.foldlM_cons]
    simp only [bind, Bind.bind]
    rw [h r (List.mem_cons_self r rs)]
    simp only [Except.bind, pure, Except.pure]
    cases b with
    | false => simpa using ih (fun row hr => h row (List.mem_cons_of_mem _ hr)) acc
    | true => simpa using ih (fun row hr => h row (List.mem_cons_of_mem _ hr)) (acc ++ [r])

theorem posFold_const_false (wc : WhereClause) :
    ∀ (l : List (Nat × Row)), (∀ p ∈ l, rowMatchesWhere p.2 wc = .ok false) →
      ∀ acc, l.foldlM
        (fun acc p => do
          let b ← rowMatchesWhere p.2 wc
          pure (if b then acc ++ [p.1] else acc)) acc = .ok acc := by
  intro l
  induction l with
  | nil => intro h acc; simp [List.foldlM, pure, Except.pure]
  | cons p ps ih =>
    intro h acc
    rw [List.foldlM_cons]
    simp only [bind, Bind.bind]
    rw [h p (List.mem_cons_self p ps)]
    simp only [Except.bind, pure, Except.pure]
    simpa using ih (fun q hq => h q (List.mem_cons_of_mem _ hq)) acc

theorem mem_enum_snd {l : List Row} {p : Nat × Row} (h : p ∈ l.enum) : p.2 ∈ l := by
  have : p.2 ∈ l.enum.map Prod.snd := List.mem_map_of_mem Prod.snd h
  rwa [List.enum_map_snd] at this

theorem schema_names_valid (t : Table) :
    (t.columns.map (fun c => c.name)).find? (fun c => (t.findColumn c).isNone) = none := by
  rw [List.find?_eq_none]
  intro x hx
  simp only [List.mem_map] at hx
  obtain ⟨col, hcol, rfl⟩ := hx
  have hs : (t.findColumn col.name).isSome = true := by
    unfold Table.findColumn
    rw [List.find?_isSome]
    exact ⟨col, hcol, by simp⟩
  intro hN
  rw [Option.isNone_iff_eq_none] at hN
  rw [hN] at hs
  cases hs

theorem select_star_filter (t : Table) (wc : WhereClause) (rows : List Row)
    (hfr : t.filterRows wc = .ok rows) :
    t.select ["*"] (some wc) = .ok (rows.map (projectRow (t.columns.map (fun c => c.name)))) := by
  unfold Table.select
  rw [if_pos (show ((["*"] : List String).contains "*" ||
    (["*"] : List String).isEmpty) = true from by decide)]
  simp only [schema_names_valid t]
  rw [hfr]
  simp [bind, Bind.bind, Except.bind, pure, Except.pure]

/-- C9: a WHERE clause naming a column `w` absent from the table's schema
(and thus absent from every row and from the indexes) is never rejected
as an unknown column: with `=`, `>`, `<`, `>=`, `<=`, or `LIKE` no row
matches — select returns the empty list and update/delete report zero
rows affected (rows unchanged) — while with `!=`/`<>` every row matches,
because the comparison evaluates against the undefined value. -/
theorem claim_C9 (t : Table) (w : String) (v : Value)
    (hidx : assocFind? t.indexes w = none)
    (hrows : ∀ row ∈ t.rows, rowGet row w = .undef)
    (hv : v ≠ .undef) :
    (∀ op ∈ (["=", ">", "<", ">=", "<=", "LIKE"] : List String),
      t.select ["*"] (some ⟨w, op, v⟩) = .ok []) ∧
    (∀ op, (op = "!=" ∨ op = "<>") →
      t.select ["*"] (some ⟨w, op, v⟩) =
        .ok (t.rows.map (projectRow (t.columns.map (fun c => c.name))))) ∧
    (∀ (set : List (String × Value)),
      set.find? (fun kv => (t.findColumn kv.1).isNone) = none →
      t.update set (some ⟨w, "=", v⟩) = (t, .ok 0)) ∧
    ((t.delete (some ⟨w, "=", v⟩)).2 = .ok 0 ∧
      (t.delete (some ⟨w, "=", v⟩)).1.rows = t.rows) := by
  have hmatchF : ∀ op ∈ (["=", ">", "<", ">=", "<=", "LIKE"] : List String),
      ∀ row ∈ t.rows, rowMatchesWhere row ⟨w, op, v⟩ = .ok false := by
    intro op hop row hrow
    exact rowMatches_undef_eqlike row w v (hrows row hrow) hv op hop
  have hfrF : ∀ op ∈ (["=", ">", "<", ">=", "<=", "LIKE"] : List String),
      t.filterRows ⟨w, op, v⟩ = .ok [] := by
    intro op hop
    unfold Table.filterRows
    rw [show ((⟨w, op, v⟩ : WhereClause).operator == "=" &&
        (assocFind? t.indexes (⟨w, op, v⟩ : WhereClause).column).isSome) = false from by
      dsimp only
      rw [hidx]
      simp]
    simp only [Bool.false_eq_true, if_false]
    exact scanFold_const ⟨w, op, v⟩ false t.rows (hmatchF op hop) []
  have hmp : matchPositionsAsc t ⟨w, "=", v⟩ = .ok [] := by
    unfold matchPositionsAsc
    exact posFold_const_false _ t.rows.enum
      (fun p hp => rowMatches_undef_eqlike p.2 w v (hrows p.2 (mem_enum_snd hp)) hv "="
        (by simp)) []
  have hmpD : matchPositionsDesc t ⟨w, "=", v⟩ = .ok [] := by
    unfold matchPositionsDesc
    exact posFold_const_false _ t.rows.enum.reverse
      (fun p hp => rowMatches_undef_eqlike p.2 w v
        (hrows p.2 (mem_enum_snd (List.mem_reverse.mp hp))) hv "=" (by simp)) []
  refine ⟨?_, ?_, ?_, ?_⟩
  · intro op hop
    have := select_star_filter t ⟨w, op, v⟩ [] (hfrF op hop)
    simpa using this
  · intro op hop
    have hfr : t.filterRows ⟨w, op, v⟩ = .ok t.rows := by
      unfold Table.filterRows
      rw [show ((⟨w, op, v⟩ : WhereClause).operator == "=" &&
          (assocFind? t.indexes (⟨w, op, v⟩ : WhereClause).column).isSome) = false from by
        dsimp only
        rw [hidx]
        rcases hop with rfl | rfl <;> simp]
      simp only [Bool.false_eq_true, if_false]
      have := scanFold_const ⟨w, op, v⟩ true t.rows
        (fun row hrow => rowMatches_undef_ne row w v (hrows row hrow) hv op hop) []
      simpa using this
    exact select_star_filter t ⟨w, op, v⟩ t.rows hfr
  · intro set hset
    unfold Table.update
    rw [hset]
    dsimp only
    rw [hmp]
    rfl
  · constructor
    · unfold Table.delete
      dsimp only
      rw [hmpD]
      rfl
    · unfold Table.delete
      dsimp only
      rw [hmpD]
      rfl

/-- Witness for C9 at the one-row users table and the absent column
"age". -/
theorem claim_C9_witness :
    witnessTable1.select ["*"] (some ⟨"age", "=", .num 30⟩) = .ok [] ∧
    witnessTable1.select ["*"] (some ⟨"age", "!=", .num 30⟩) =
      .ok (witnessTable1.rows.map (projectRow (witnessTable1.columns.map (fun c => c.name)))) ∧
    (witnessTable1.delete (some ⟨"age", "=", .num 30⟩)).2 = .ok 0 := by
  have h := claim_C9 witnessTable1 "age" (.num 30) (by rfl)
    (by intro row hrow
        have : witnessTable1.rows = [[("id", .num 1), ("name", .str "Alice")]] := by rfl
        rw [this] at hrow
        simp only [List.mem_singleton] at hrow
        rw [hrow]
        rfl)
    (by simp)
  exact ⟨h.1 "=" (by simp), h.2.1 "!=" (Or.inl rfl), h.2.2.2.1⟩

end MiniRDBMS

namespace MiniRDBMS

/-! ## Claim C10: join pairing is string-key coercion, not strict equality -/

theorem joinIndex_fold (c2 key : String) :
    ∀ (rows2 : List Row) (m : List (String × List Row)),
      (assocFind? (rows2.foldl
        (fun m r2 =>
          let k := (rowGet r2 c2).toKeyString
          match assocFind? m k with
          | some b => assocSet m k (b ++ [r2])
          | none => assocSet m k [r2]) m) key).getD [] =
      (assocFind? m key).getD [] ++
        rows2.filter (fun r2 => (rowGet r2 c2).toKeyString == key) := by
  intro rows2
  induction rows2 with
  | nil => intro m; simp
  | cons r rs ih =>
    intro m
    rw [List.foldl_cons, ih]
    by_cases hk : (rowGet r c2).toKeyString = key
    · rw [List.filter_cons_of_pos (by simpa using hk)]
      dsimp only
      rw [hk]
      split
      next b hm => rw [assocFind?_assocSet_self, hm]; simp
      next hm => rw [assocFind?_assocSet_self, hm]; simp
    · rw [List.filter_cons_of_neg (by simpa using hk)]
      dsimp only
      split
      next b hm => rw [assocFind?_assocSet_ne _ _ _ _ (fun e => hk (Eq.symm e))]
      next hm => rw [assocFind?_assocSet_ne _ _ _ _ (fun e => hk (Eq.symm e))]

theorem joinIndex_bucket (rows2 : List Row) (c2 key : String) :
    (assocFind? (joinIndex rows2 c2) key).getD [] =
      rows2.filter (fun r2 => (rowGet r2 c2).toKeyString == key) := by
  unfold joinIndex
  rw [joinIndex_fold]
  simp [assocFind?, List.find?]

/-- C10: the inner join pairs a left row `r1` with a right row `r2`
exactly when the JS string coercions of their join-column values coincide
(the bucket map is keyed by object-property string coercion), not when
the values are strictly equal: two null (or two absent) join values pair
with each other, and the integer 1 pairs with the string "1" (see the
witness). -/
theorem claim_C10 (db : Db) (t1n t2n c1 c2 : String) (t1 t2 : Table)
    (h1 : assocFind? db.tables t1n = some t1)
    (h2 : assocFind? db.tables t2n = some t2)
    (hc1 : (t1.findColumn c1).isSome = true)
    (hc2 : (t2.findColumn c2).isSome = true) :
    db.join t1n t2n c1 c2 = .ok (t1.rows.flatMap (fun r1 =>
      (t2.rows.filter (fun r2 =>
        (rowGet r2 c2).toKeyString == (rowGet r1 c1).toKeyString)).map
        (fun r2 => qualifyInto (qualifyInto [] t1n r1) t2n r2))) := by
  have hn1 : (t1.findColumn c1).isNone = false := by
    rw [Option.isNone_eq_false_iff]
    exact hc1
  have hn2 : (t2.findColumn c2).isNone = false := by
    rw [Option.isNone_eq_false_iff]
    exact hc2
  unfold Db.join Db.getTable
  rw [h1, h2]
  simp only [bind, Bind.bind, Except.bind, hn1, hn2, Bool.false_eq_true, if_false,
    pure, Except.pure]
  simp only [joinIndex_bucket]

/-- Witness for C10: joining `L(a)` with rows `{a:1}, {a:null}` against
`R(b)` with rows `{b:"1"}, {b:null}` on `a = b` pairs the integer 1 with
the string "1" and the null with the null — neither pair is strictly
equal. -/
theorem claim_C10_witness :
    (Db.mk "d" [("L", ⟨"L", [⟨"a", .int, false, false, false⟩],
        [[("a", .num 1)], [("a", .null)]], [], []⟩),
      ("R", ⟨"R", [⟨"b", .text, false, false, false⟩],
        [[("b", .str "1")], [("b", .null)]], [], []⟩)]).join "L" "R" "a" "b" =
      .ok [[("L.a", .num 1), ("R.b", .str "1")],
           [("L.a", .null), ("R.b", .null)]] ∧
    jsStrictEq (.num 1) (.str "1") = false ∧ jsStrictEq .null .undef = false := by
  refine ⟨?_, by decide, by decide⟩
  rw [claim_C10 _ "L" "R" "a" "b"
    ⟨"L", [⟨"a", .int, false, false, false⟩], [[("a", .num 1)], [("a", .null)]], [], []⟩
    ⟨"R", [⟨"b", .text, false, false, false⟩], [[("b", .str "1")], [("b", .null)]], [], []⟩
    (by rfl) (by rfl) (by decide) (by decide)]
  rfl

end MiniRDBMS

namespace MiniRDBMS

/-! ## Claim C7: JOIN output naming and projection resolution -/

/-- C7 (evaluating the code at the failing input): a SELECT-with-JOIN does
emit both sides' columns under qualified `table.column` names, and `*` and
explicitly qualified projections behave as claimed — but an explicit
*unqualified* projection (`SELECT name ...`) is not resolved against the
qualified names: the emitted cell holds the entire joined row object
instead of the scalar, because `_executeSelectWithJoin` falls back to
`: row` when `row[col]` is undefined. -/
theorem claim_C7_bug :
    (joinEngine.execute
        "SELECT * FROM users JOIN orders ON users.id = orders.user_id").2 =
      okEnvelope (.rows [[("users.id", .num 1), ("users.name", .str "Alice"),
        ("orders.id", .num 1), ("orders.user_id", .num 1)]]) 1
        "Selected 1 row(s) with join" ∧
    (joinEngine.execute
        "SELECT users.name FROM users JOIN orders ON users.id = orders.user_id").2 =
      okEnvelope (.projRows [[("users.name", .val (.str "Alice"))]]) 1
        "Selected 1 row(s) with join" ∧
    (joinEngine.execute
        "SELECT name FROM users JOIN orders ON users.id = orders.user_id").2 =
      okEnvelope (.projRows [[("name", .obj [("users.id", .num 1),
        ("users.name", .str "Alice"), ("orders.id", .num 1),
        ("orders.user_id", .num 1)])]]) 1
        "Selected 1 row(s) with join" :=
  ⟨by rfl, by rfl, by rfl⟩

end MiniRDBMS

namespace MiniRDBMS

/-! ## Claim C6: row-at-a-time UPDATE semantics -/

theorem posFold_sublist (w : WhereClause) :
    ∀ (l : List (Nat × Row)) (acc res : List Nat),
      l.foldlM
        (fun acc p => do
          let b ← rowMatchesWhere p.2 w
          pure (if b then acc ++ [p.1] else acc)) acc = .ok res →
      ∃ qs, res = acc ++ qs ∧ qs.Sublist (l.map Prod.fst) := by
  intro l
  induction l with
  | nil =>
    intro acc res h
    simp only [List.foldlM, pure, Except.pure, Except.ok.injEq] at h
    exact ⟨[], by simp [h], List.Sublist.refl []⟩
  | cons p l ih =>
    intro acc res h
    rw [List.foldlM_cons] at h
    simp only [bind, Bind.bind] at h
    cases hb : rowMatchesWhere p.2 w with
    | error e => rw [hb] at h; simp [Except.bind] at h
    | ok b =>
      rw [hb] at h
      simp only [Except.bind, pure, Except.pure] at h
      cases b with
      | true =>
        rw [if_pos rfl] at h
        obtain ⟨qs, hres, hsub⟩ := ih (acc ++ [p.1]) res h
        exact ⟨p.1 :: qs, by rw [hres, List.append_assoc]; rfl,
          List.Sublist.cons₂ p.1 hsub⟩
      | false =>
        rw [if_neg Bool.false_ne_true] at h
        obtain ⟨qs, hres, hsub⟩ := ih acc res h
        exact ⟨qs, hres, List.Sublist.cons p.1 hsub⟩

theorem matchPositionsAsc_pairwise (t : Table) (w : WhereClause) (ps : List Nat)
    (h : matchPositionsAsc t w = .ok ps) : ps.Pairwise (fun a b => a < b) := by
  obtain ⟨qs, hres, hsub⟩ := posFold_sublist w t.rows.enum [] ps h
  have hsub2 : qs.Sublist (List.range t.rows.length) := by
    rw [← List.enum_map_fst t.rows]; exact hsub
  rw [hres, List.nil_append]
  exact (List.pairwise_lt_range t.rows.length).sublist hsub2

theorem get_not_mem_take_of_pairwise (ps : List Nat) (j : Nat) (hj : j < ps.length)
    (hp : ps.Pairwise (fun a b => a < b)) : ps.get ⟨j, hj⟩ ∉ List.take j ps := by
  intro hmem
  have hpw : (List.take j ps ++ List.drop j ps).Pairwise (fun a b => a < b) := by
    rw [List.take_append_drop]; exact hp
  have hlt := (List.pairwise_append.mp hpw).2.2
  have hdrop : ps.get ⟨j, hj⟩ ∈ List.drop j ps := by
    rw [List.drop_eq_getElem_cons hj]
    exact List.mem_cons_self _ _
  exact absurd (hlt _ hmem _ hdrop) (lt_irrefl _)

theorem applySetEntry_get_ne (oldValues : Row) (p : Nat) (t : Table) (c : String)
    (v : Value) (q : Nat) (hq : q ≠ p) :
    ((applySetEntry oldValues p t c v).1).rows.get? q = t.rows.get? q := by
  unfold applySetEntry
  dsimp only
  split
  next t1 e heq =>
    split at heq
    · split at heq
      · simp at heq
      · split at heq
        · simp at heq
        · injection heq with h1 h2
          subst h1
          rfl
    · simp at heq
  next t1 heq =>
    have hrows : t1.rows = t.rows := by
      split at heq
      · split at heq
        · injection heq with h1 h2; subst h1; rfl
        · split at heq
          · injection heq with h1 h2; subst h1; rfl
          · simp at heq
      · injection heq with h1 h2; subst h1; rfl
    dsimp only
    simp only [List.get?_eq_getElem?]
    rw [List.getElem?_set_ne (Ne.symm hq)]
    split
    · rw [hrows]
    · rw [hrows]

theorem applySetEntries_get_ne (oldValues : Row) (p q : Nat) (hq : q ≠ p) :
    ∀ (set : List (String × Value)) (t : Table),
      ((applySetEntries oldValues p t set).1).rows.get? q = t.rows.get? q := by
  intro set
  induction set with
  | nil => intro t; rfl
  | cons kv rest ih =>
    intro t
    obtain ⟨c, v⟩ := kv
    have hbase := applySetEntry_get_ne oldValues p t c v q hq
    unfold applySetEntries
    cases hA : applySetEntry oldValues p t c v with
    | mk t1 r =>
      rw [hA] at hbase
      cases r with
      | error e => exact hbase
      | ok u =>
        cases u
        dsimp only
        exact (ih t1).trans hbase

theorem updateRowApply_get_ne (t : Table) (set : List (String × Value)) (p q : Nat)
    (hq : q ≠ p) :
    ((t.updateRowApply set p).1).rows.get? q = t.rows.get? q :=
  applySetEntries_get_ne _ p q hq set t

theorem updPrefix_get_ne (set : List (String × Value)) (q : Nat) :
    ∀ (ps : List Nat) (t tj : Table), updPrefix set t ps = some tj → q ∉ ps →
      tj.rows.get? q = t.rows.get? q := by
  intro ps
  induction ps with
  | nil =>
    intro t tj h _
    injection h with h1
    subst h1
    rfl
  | cons p rest ih =>
    intro t tj h hq
    have hqp : q ≠ p := fun e => hq (e ▸ List.mem_cons_self p rest)
    have hqr : q ∉ rest := fun m => hq (List.mem_cons_of_mem p m)
    unfold updPrefix at h
    cases hv : t.updateRowValidate set p with
    | error e => rw [hv] at h; simp at h
    | ok u =>
      cases u
      rw [hv] at h
      dsimp only at h
      cases hA : t.updateRowApply set p with
      | mk t1 r =>
        rw [hA] at h
        cases r with
        | error e => simp at h
        | ok u =>
          cases u
          dsimp only at h
          have h2 := updateRowApply_get_ne t set p q hqp
          rw [hA] at h2
          exact (ih t1 tj h hqr).trans h2

theorem updateGo_of_prefix_fail (set : List (String × Value)) (e : String) :
    ∀ (j : Nat) (ps : List Nat) (t tj : Table) (count : Nat) (hj : j < ps.length),
      updPrefix set t (List.take j ps) = some tj →
      tj.updateRowValidate set (ps.get ⟨j, hj⟩) = .error e →
      updateGo set t ps count = (tj, .error e) := by
  intro j
  induction j with
  | zero =>
    intro ps t tj count hj hpre hfail
    cases ps with
    | nil => simp at hj
    | cons p rest =>
      have ht : t = tj := by
        injection hpre
      subst ht
      have hf : t.updateRowValidate set p = .error e := hfail
      show updateGo set t (p :: rest) count = (t, .error e)
      unfold updateGo
      rw [hf]
  | succ j ihj =>
    intro ps t tj count hj hpre hfail
    cases ps with
    | nil => simp at hj
    | cons p rest =>
      rw [List.take_succ_cons] at hpre
      unfold updPrefix at hpre
      cases hv : t.updateRowValidate set p with
      | error e1 => rw [hv] at hpre; simp at hpre
      | ok u =>
        cases u
        rw [hv] at hpre
        dsimp only at hpre
        cases hA : t.updateRowApply set p with
        | mk t1 r =>
          rw [hA] at hpre
          cases r with
          | error e1 => simp at hpre
          | ok u =>
            cases u
            dsimp only at hpre
            have hj1 : j < rest.length := Nat.lt_of_succ_lt_succ hj
            have hf : tj.updateRowValidate set (rest.get ⟨j, hj1⟩) = .error e := hfail
            show updateGo set t (p :: rest) count = (tj, .error e)
            unfold updateGo
            rw [hv]
            dsimp only
            rw [hA]
            exact ihj rest t1 tj (count + 1) hj1 hpre hf

/-- C6: row-at-a-time UPDATE semantics.  When the SET columns all exist,
the WHERE scan matches the rows at positions `ps` (necessarily in strictly
ascending order), the first `j` matching rows validate and apply cleanly
yielding state `tj`, and per-row validation of the `(j+1)`-st matching row
fails with error `e`, then the whole UPDATE throws `e` with the table left
exactly in state `tj`: the first `j` matching rows are fully updated
(rows, unique sets and indexes alike, since `tj` is the complete table
state), while every other row position — including the failing row itself,
whose position is not among the first `j` — still holds its original row. -/
theorem claim_C6 (t : Table) (set : List (String × Value)) (wc : WhereClause)
    (ps : List Nat) (j : Nat) (tj : Table) (e : String)
    (hcols : set.find? (fun kv => (Table.findColumn t kv.1).isNone) = none)
    (hps : matchPositionsAsc t wc = .ok ps)
    (hj : j < ps.length)
    (hpre : updPrefix set t (List.take j ps) = some tj)
    (hfail : tj.updateRowValidate set (ps.get ⟨j, hj⟩) = .error e) :
    ps.Pairwise (fun a b => a < b) ∧
    ps.get ⟨j, hj⟩ ∉ List.take j ps ∧
    t.update set (some wc) = (tj, .error e) ∧
    ∀ q : Nat, q ∉ List.take j ps → tj.rows.get? q = t.rows.get? q := by
  have hpw := matchPositionsAsc_pairwise t wc ps hps
  refine ⟨hpw, get_not_mem_take_of_pairwise ps j hj hpw, ?_, ?_⟩
  · show Table.update t set (some wc) = (tj, .error e)
    unfold Table.update
    dsimp only
    rw [hcols]
    dsimp only
    rw [hps]
    exact updateGo_of_prefix_fail set e j ps t tj 0 hj hpre hfail
  · intro q hq
    exact updPrefix_get_ne set q (List.take j ps) t tj hpre hq

/-- C6 witness: `UPDATE users SET id = 3 WHERE id >= 1` on a two-row table
(ids 1 and 2, id is the primary key) matches rows 0 and 1, fully updates
row 0 (its id becomes 3), then throws a UNIQUE violation while validating
row 1 (3 now exists), leaving row 1 unchanged. -/
theorem claim_C6_witness :
    List.Pairwise (fun a b : Nat => a < b) [0, 1] ∧
    List.get [0, 1] ⟨1, by decide⟩ ∉ List.take 1 [0, 1] ∧
    Table.update witnessTable2 [("id", Value.num 3)] (some ⟨"id", ">=", Value.num 1⟩) =
      (updTj, .error (uniqueViolationMsg (.num 3) "id")) ∧
    ∀ q : Nat, q ∉ List.take 1 [0, 1] → updTj.rows.get? q = witnessTable2.rows.get? q :=
  claim_C6 witnessTable2 [("id", Value.num 3)] ⟨"id", ">=", Value.num 1⟩
    [0, 1] 1 updTj (uniqueViolationMsg (.num 3) "id")
    (by rfl) (by rfl) (by decide) (by rfl) (by rfl)

end MiniRDBMS

namespace MiniRDBMS

/-! ## Claims C1/C3: the row-store consistency invariant -/

end MiniRDBMS

namespace MiniRDBMS

/-! ### Association-list and JS-set helper lemmas -/

theorem assocFind?_mem {α : Type} {l : List (String × α)} {k : String} {v : α}
    (h : assocFind? l k = some v) : (k, v) ∈ l := by
  unfold assocFind? at h
  cases hf : l.find? (fun p => p.1 == k) with
  | none => rw [hf] at h; simp at h
  | some p =>
    rw [hf] at h
    have hmem := List.mem_of_find?_eq_some hf
    have hp := List.find?_some hf
    simp at h hp
    rcases p with ⟨pk, pv⟩
    simp at hp h
    subst hp
    subst h
    exact hmem

theorem assocSet_keys_mem {α : Type} (l : List (String × α)) (k : String) (v : α) :
    ∀ x, x ∈ (assocSet l k v).map Prod.fst → x ∈ l.map Prod.fst ∨ x = k := by
  induction l with
  | nil => intro x hx; simp [assocSet] at hx; right; exact hx
  | cons p rest ih =>
    rcases p with ⟨pk, pv⟩
    intro x hx
    by_cases h : pk = k
    · rw [assocSet_cons_eq pv rest v h] at hx
      simp at hx
      rcases hx with rfl | hx
      · right; rfl
      · left; simp [hx]
    · rw [assocSet_cons_ne pv rest v h] at hx
      simp at hx
      rcases hx with rfl | hx
      · left; simp
      · rcases ih x (by simpa using hx) with h1 | h1
        · left; simp [List.mem_map] at h1 ⊢; tauto
        · right; exact h1

theorem assocSet_keys_nodup {α : Type} (l : List (String × α)) (k : String) (v : α)
    (h : (l.map Prod.fst).Nodup) : ((assocSet l k v).map Prod.fst).Nodup := by
  induction l with
  | nil => simp [assocSet]
  | cons p rest ih =>
    rcases p with ⟨pk, pv⟩
    rw [List.map_cons, List.nodup_cons] at h
    by_cases hk : pk = k
    · rw [assocSet_cons_eq pv rest v hk, List.map_cons, List.nodup_cons]
      exact ⟨by rw [← hk]; exact h.1, h.2⟩
    · rw [assocSet_cons_ne pv rest v hk, List.map_cons, List.nodup_cons]
      refine ⟨?_, ih h.2⟩
      intro hx
      rcases assocSet_keys_mem rest k v pk hx with h1 | h1
      · exact h.1 h1
      · exact hk h1

theorem assocErase_keys_sublist {α : Type} (l : List (String × α)) (k : String) :
    ((assocErase l k).map Prod.fst).Sublist (l.map Prod.fst) :=
  List.Sublist.map Prod.fst (List.eraseP_sublist l)

theorem assocFind?_assocErase_self {α : Type} (l : List (String × α)) (k : String)
    (h : (l.map Prod.fst).Nodup) : assocFind? (assocErase l k) k = none := by
  induction l with
  | nil => rfl
  | cons p rest ih =>
    rcases p with ⟨pk, pv⟩
    rw [List.map_cons, List.nodup_cons] at h
    by_cases hk : pk = k
    · subst hk
      show assocFind? (List.eraseP (fun p => p.1 == pk) ((pk, pv) :: rest)) pk = none
      rw [List.eraseP_cons_of_pos (by simp)]
      unfold assocFind?
      rw [List.find?_eq_none.mpr]
      intro p hp
      simp only [beq_iff_eq]
      intro he
      exact h.1 (List.mem_map.mpr ⟨p, hp, he⟩)
    · show assocFind? (List.eraseP (fun p => p.1 == k) ((pk, pv) :: rest)) k = none
      rw [List.eraseP_cons_of_neg (by simp [hk])]
      rw [show List.eraseP (fun p => p.1 == k) rest = assocErase rest k from rfl]
      rw [assocFind?_cons, if_neg hk]
      exact ih h.2

theorem assocFind?_assocErase_ne {α : Type} (l : List (String × α)) (k k' : String)
    (h : k' ≠ k) : assocFind? (assocErase l k) k' = assocFind? l k' := by
  induction l with
  | nil => rfl
  | cons p rest ih =>
    rcases p with ⟨pk, pv⟩
    by_cases hk : pk = k
    · show assocFind? (List.eraseP (fun p => p.1 == k) ((pk, pv) :: rest)) k' = _
      rw [List.eraseP_cons_of_pos (by simp [hk])]
      rw [assocFind?_cons, if_neg (by rw [hk]; exact fun e => h (Eq.symm e))]
    · show assocFind? (List.eraseP (fun p => p.1 == k) ((pk, pv) :: rest)) k' = _
      rw [List.eraseP_cons_of_neg (by simp [hk])]
      rw [show List.eraseP (fun p => p.1 == k) rest = assocErase rest k from rfl]
      rw [assocFind?_cons, assocFind?_cons]
      by_cases hk' : pk = k'
      · rw [if_pos hk', if_pos hk']
      · rw [if_neg hk', if_neg hk']
        exact ih

theorem mem_jsSetAdd (s : List Value) (w v : Value) :
    v ∈ jsSetAdd s w ↔ v ∈ s ∨ v = w := by
  unfold jsSetAdd
  by_cases h : s.contains w
  · rw [if_pos h]
    constructor
    · exact Or.inl
    · rintro (hv | rfl)
      · exact hv
      · simpa using h
  · rw [if_neg h]
    simp

theorem jsSetAdd_nodup (s : List Value) (w : Value) (h : s.Nodup) :
    (jsSetAdd s w).Nodup := by
  unfold jsSetAdd
  by_cases hc : s.contains w
  · rwa [if_pos hc]
  · rw [if_neg hc]
    rw [List.nodup_append]
    refine ⟨h, List.nodup_singleton w, ?_⟩
    intro a ha hb
    simp at hb
    subst hb
    exact absurd (by simpa using ha : s.contains a = true) (by simpa using hc)

end MiniRDBMS

namespace MiniRDBMS

theorem mem_jsSetDelete {s : List Value} (h : s.Nodup) (w v : Value) :
    v ∈ jsSetDelete s w ↔ v ≠ w ∧ v ∈ s := List.Nodup.mem_erase_iff h

theorem jsSetDelete_nodup {s : List Value} (h : s.Nodup) (w : Value) :
    (jsSetDelete s w).Nodup := h.erase w

theorem bucketOf_assocSet_self (idx : HashIdx) (k : String) (b : List Nat) :
    bucketOf (assocSet idx k b) k = b := by
  unfold bucketOf
  rw [assocFind?_assocSet_self]
  rfl

theorem bucketOf_assocSet_ne (idx : HashIdx) (k k' : String) (b : List Nat)
    (h : k' ≠ k) : bucketOf (assocSet idx k b) k' = bucketOf idx k' := by
  unfold bucketOf
  rw [assocFind?_assocSet_ne _ _ _ _ h]

theorem mem_bucketAdd (idx : HashIdx) (k0 : String) (i : Nat) (k : String) (q : Nat) :
    q ∈ bucketOf (bucketAdd idx k0 i) k ↔ q ∈ bucketOf idx k ∨ (k = k0 ∧ q = i) := by
  unfold bucketAdd
  cases h : assocFind? idx k0 with
  | some b =>
    by_cases hk : k = k0
    · subst hk
      rw [bucketOf_assocSet_self]
      have hb : bucketOf idx k = b := by unfold bucketOf; rw [h]; rfl
      rw [hb]
      simp
    · rw [bucketOf_assocSet_ne _ _ _ _ hk]
      simp [hk]
  | none =>
    by_cases hk : k = k0
    · subst hk
      rw [bucketOf_assocSet_self]
      have hb : bucketOf idx k = [] := by unfold bucketOf; rw [h]; rfl
      rw [hb]
      simp
    · rw [bucketOf_assocSet_ne _ _ _ _ hk]
      simp [hk]

theorem bucketAdd_keys_nodup (idx : HashIdx) (k0 : String) (i : Nat)
    (h : (idx.map Prod.fst).Nodup) : ((bucketAdd idx k0 i).map Prod.fst).Nodup := by
  unfold bucketAdd
  cases assocFind? idx k0 <;> exact assocSet_keys_nodup _ _ _ h

theorem bucketAdd_buckets_nodup (idx : HashIdx) (k0 : String) (i : Nat)
    (hb : ∀ k, (bucketOf idx k).Nodup) (hi : i ∉ bucketOf idx k0) :
    ∀ k, (bucketOf (bucketAdd idx k0 i) k).Nodup := by
  intro k
  unfold bucketAdd
  cases h : assocFind? idx k0 with
  | some b =>
    by_cases hk : k = k0
    · subst hk
      rw [bucketOf_assocSet_self]
      have hbk : bucketOf idx k = b := by unfold bucketOf; rw [h]; rfl
      rw [List.nodup_append]
      refine ⟨by rw [← hbk]; exact hb k, List.nodup_singleton i, ?_⟩
      intro a ha hb'
      simp at hb'
      subst hb'
      exact hi (by rw [hbk]; exact ha)
    · rw [bucketOf_assocSet_ne _ _ _ _ hk]
      exact hb k
  | none =>
    by_cases hk : k = k0
    · subst hk
      rw [bucketOf_assocSet_self]
      exact List.nodup_singleton i
    · rw [bucketOf_assocSet_ne _ _ _ _ hk]
      exact hb k

theorem mem_bucketRemove (idx : HashIdx) (k0 : String) (i : Nat)
    (hkeys : (idx.map Prod.fst).Nodup) (hb : ∀ k, (bucketOf idx k).Nodup)
    (k : String) (q : Nat) :
    q ∈ bucketOf (bucketRemove idx k0 i) k ↔ q ∈ bucketOf idx k ∧ ¬(k = k0 ∧ q = i) := by
  unfold bucketRemove
  cases h : assocFind? idx k0 with
  | none =>
    dsimp only
    by_cases hk : k = k0
    · subst hk
      have hbk : bucketOf idx k = [] := by unfold bucketOf; rw [h]; rfl
      rw [hbk]
      simp
    · simp [hk]
  | some b =>
    dsimp only
    have hbk : bucketOf idx k0 = b := by unfold bucketOf; rw [h]; rfl
    have hbnd : b.Nodup := by rw [← hbk]; exact hb k0
    by_cases he : (b.erase i).isEmpty
    · rw [if_pos he]
      by_cases hk : k = k0
      · subst hk
        have h1 : bucketOf (assocErase idx k) k = [] := by
          unfold bucketOf
          rw [assocFind?_assocErase_self _ _ hkeys]
          rfl
        rw [h1, hbk]
        simp
        intro hq
        by_contra hqi
        have : q ∈ b.erase i := (List.Nodup.mem_erase_iff hbnd).mpr ⟨hqi, hq⟩
        rw [List.isEmpty_iff.mp he] at this
        simp at this
      · have h1 : bucketOf (assocErase idx k0) k = bucketOf idx k := by
          unfold bucketOf
          rw [assocFind?_assocErase_ne _ _ _ hk]
        rw [h1]
        simp [hk]
    · rw [if_neg he]
      by_cases hk : k = k0
      · subst hk
        rw [bucketOf_assocSet_self, hbk]
        rw [List.Nodup.mem_erase_iff hbnd]
        simp
        tauto
      · rw [bucketOf_assocSet_ne _ _ _ _ hk]
        simp [hk]

theorem bucketRemove_keys_nodup (idx : HashIdx) (k0 : String) (i : Nat)
    (h : (idx.map Prod.fst).Nodup) : ((bucketRemove idx k0 i).map Prod.fst).Nodup := by
  unfold bucketRemove
  cases assocFind? idx k0 with
  | none => exact h
  | some b =>
    dsimp only
    by_cases he : (b.erase i).isEmpty
    · rw [if_pos he]
      exact h.sublist (assocErase_keys_sublist idx k0)
    · rw [if_neg he]
      exact assocSet_keys_nodup _ _ _ h

theorem bucketRemove_buckets_nodup (idx : HashIdx) (k0 : String) (i : Nat)
    (hb : ∀ k, (bucketOf idx k).Nodup) (hkeys : (idx.map Prod.fst).Nodup) :
    ∀ k, (bucketOf (bucketRemove idx k0 i) k).Nodup := by
  intro k
  unfold bucketRemove
  cases h : assocFind? idx k0 with
  | none => exact hb k
  | some b =>
    dsimp only
    have hbk : bucketOf idx k0 = b := by unfold bucketOf; rw [h]; rfl
    by_cases he : (b.erase i).isEmpty
    · rw [if_pos he]
      by_cases hk : k = k0
      · subst hk
        unfold bucketOf
        rw [assocFind?_assocErase_self _ _ hkeys]
        exact List.nodup_nil
      · unfold bucketOf
        rw [assocFind?_assocErase_ne _ _ _ hk]
        exact hb k
    · rw [if_neg he]
      by_cases hk : k = k0
      · subst hk
        rw [bucketOf_assocSet_self]
        exact List.Nodup.erase i (by rw [← hbk]; exact hb k)
      · rw [bucketOf_assocSet_ne _ _ _ _ hk]
        exact hb k

/-! ### Positional list helpers -/

theorem get_snoc_lt {α : Type} (l : List α) (x : α) (q : Nat)
    (h : q < (l ++ [x]).length) (hq : q < l.length) :
    (l ++ [x]).get ⟨q, h⟩ = l.get ⟨q, hq⟩ := by
  simp [List.get_eq_getElem, List.getElem_append_left hq]

theorem get_snoc_last {α : Type} (l : List α) (x : α)
    (h : l.length < (l ++ [x]).length) :
    (l ++ [x]).get ⟨l.length, h⟩ = x := by
  simp [List.get_eq_getElem, List.getElem_append_right (Nat.le_refl l.length)]

theorem get_set_self {α : Type} (l : List α) (p : Nat) (a : α)
    (h : p < (l.set p a).length) : (l.set p a).get ⟨p, h⟩ = a := by
  simp [List.get_eq_getElem]

theorem get_set_ne {α : Type} (l : List α) (p : Nat) (a : α) (q : Nat)
    (h : q < (l.set p a).length) (hne : q ≠ p) (h2 : q < l.length) :
    (l.set p a).get ⟨q, h⟩ = l.get ⟨q, h2⟩ := by
  simp [List.get_eq_getElem, List.getElem_set_ne (fun e => hne (Eq.symm e))]

theorem get_eraseIdx_lt {α : Type} (l : List α) (p q : Nat)
    (h : q < (l.eraseIdx p).length) (h2 : q < p) (h3 : q < l.length) :
    (l.eraseIdx p).get ⟨q, h⟩ = l.get ⟨q, h3⟩ := by
  simp [List.get_eq_getElem, List.getElem_eraseIdx, h2]

theorem get_eraseIdx_ge {α : Type} (l : List α) (p q : Nat)
    (h : q < (l.eraseIdx p).length) (h2 : ¬(q < p)) (h3 : q + 1 < l.length) :
    (l.eraseIdx p).get ⟨q, h⟩ = l.get ⟨q + 1, h3⟩ := by
  simp [List.get_eq_getElem, List.getElem_eraseIdx, h2]

end MiniRDBMS

namespace MiniRDBMS

theorem buildIndexAux (c : String) :
    ∀ (l : List (Nat × Row)) (idx : HashIdx),
      (idx.map Prod.fst).Nodup →
      (∀ k, (bucketOf idx k).Nodup) →
      (∀ pr ∈ l, ∀ k, pr.1 ∉ bucketOf idx k) →
      (l.map Prod.fst).Nodup →
      ((l.foldl (idxStep c) idx).map Prod.fst).Nodup ∧
      (∀ k, (bucketOf (l.foldl (idxStep c) idx) k).Nodup) ∧
      (∀ (k : String) (q : Nat), q ∈ bucketOf (l.foldl (idxStep c) idx) k ↔
        q ∈ bucketOf idx k ∨ ∃ pr ∈ l, pr.1 = q ∧ (rowGet pr.2 c).isNullish = false ∧
          (rowGet pr.2 c).toKeyString = k) := by
  intro l
  induction l with
  | nil =>
    intro idx h1 h2 _ _
    refine ⟨h1, h2, ?_⟩
    intro k q
    simp
  | cons pr l ih =>
    intro idx h1 h2 hfresh hl
    rw [List.foldl_cons]
    rw [List.map_cons, List.nodup_cons] at hl
    by_cases hnl : (rowGet pr.2 c).isNullish = true
    · have hstep : idxStep c idx pr = idx := by unfold idxStep; rw [if_pos hnl]
      rw [hstep]
      obtain ⟨g1, g2, g3⟩ := ih idx h1 h2
        (fun pr' h' k => hfresh pr' (List.mem_cons_of_mem pr h') k) hl.2
      refine ⟨g1, g2, ?_⟩
      intro k q
      rw [g3 k q]
      constructor
      · rintro (hq | ⟨pr', hpr', hrest⟩)
        · exact Or.inl hq
        · exact Or.inr ⟨pr', List.mem_cons_of_mem pr hpr', hrest⟩
      · rintro (hq | ⟨pr', hpr', hq, hnn, hkey⟩)
        · exact Or.inl hq
        · rcases List.mem_cons.mp hpr' with rfl | hpr'
          · rw [hnl] at hnn; cases hnn
          · exact Or.inr ⟨pr', hpr', hq, hnn, hkey⟩
    · rw [Bool.not_eq_true] at hnl
      have hstep : idxStep c idx pr =
          bucketAdd idx (rowGet pr.2 c).toKeyString pr.1 := by
        unfold idxStep
        rw [if_neg (by rw [hnl]; exact Bool.false_ne_true)]
      rw [hstep]
      have hi : pr.1 ∉ bucketOf idx (rowGet pr.2 c).toKeyString :=
        hfresh pr (List.mem_cons_self pr l) _
      have hfresh' : ∀ pr' ∈ l, ∀ k,
          pr'.1 ∉ bucketOf (bucketAdd idx (rowGet pr.2 c).toKeyString pr.1) k := by
        intro pr' h' k hmem
        rcases (mem_bucketAdd _ _ _ _ _).mp hmem with hmem | ⟨_, hq⟩
        · exact hfresh pr' (List.mem_cons_of_mem pr h') k hmem
        · exact hl.1 (hq ▸ List.mem_map_of_mem Prod.fst h')
      obtain ⟨g1, g2, g3⟩ := ih (bucketAdd idx (rowGet pr.2 c).toKeyString pr.1)
        (bucketAdd_keys_nodup _ _ _ h1) (bucketAdd_buckets_nodup _ _ _ h2 hi) hfresh' hl.2
      refine ⟨g1, g2, ?_⟩
      intro k q
      rw [g3 k q, mem_bucketAdd]
      constructor
      · rintro ((hq | ⟨rfl, rfl⟩) | ⟨pr', hpr', hrest⟩)
        · exact Or.inl hq
        · exact Or.inr ⟨pr, List.mem_cons_self pr l, rfl, by rw [hnl], rfl⟩
        · exact Or.inr ⟨pr', List.mem_cons_of_mem pr hpr', hrest⟩
      · rintro (hq | ⟨pr', hpr', hq, hnn, hkey⟩)
        · exact Or.inl (Or.inl hq)
        · rcases List.mem_cons.mp hpr' with rfl | hpr'
          · exact Or.inl (Or.inr ⟨hkey.symm, hq.symm⟩)
          · exact Or.inr ⟨pr', hpr', hq, hnn, hkey⟩

theorem buildIndex_good (rows : List Row) (c : String) :
    IdxGood rows c (buildIndex rows c) := by
  obtain ⟨h1, h2, h3⟩ := buildIndexAux c rows.enum []
    (by simp)
    (fun k => List.nodup_nil)
    (by intro pr _ k hmem; simp [bucketOf, assocFind?, List.find?] at hmem)
    (by rw [List.enum_map_fst]; exact List.nodup_range rows.length)
  refine ⟨h1, h2, ?_⟩
  intro k q
  rw [show buildIndex rows c = rows.enum.foldl (idxStep c) [] from rfl, h3 k q]
  constructor
  · rintro (hq | ⟨pr, hpr, hq, hnn, hkey⟩)
    · simp [bucketOf, assocFind?, List.find?] at hq
    · have := List.mem_enum_iff_getElem?.mp hpr
      subst hq
      have hlt : pr.1 < rows.length := by
        by_contra hge
        rw [List.getElem?_eq_none (by omega)] at this
        cases this
      refine ⟨hlt, ?_, ?_⟩
      · have hr : rows.get ⟨pr.1, hlt⟩ = pr.2 := by
          have := (List.getElem?_eq_some.mp this).2
          simpa [List.get_eq_getElem] using this
        rw [hr]; exact hnn
      · have hr : rows.get ⟨pr.1, hlt⟩ = pr.2 := by
          have := (List.getElem?_eq_some.mp this).2
          simpa [List.get_eq_getElem] using this
        rw [hr]; exact hkey
  · rintro ⟨hlt, hnn, hkey⟩
    refine Or.inr ⟨(q, rows.get ⟨q, hlt⟩), ?_, rfl, hnn, hkey⟩
    rw [List.mem_enum_iff_getElem?]
    simp [List.get_eq_getElem]

end MiniRDBMS

namespace MiniRDBMS

theorem firstDup_fold_some (x : String) :
    ∀ (cols : List Column) (seen : List String),
      (cols.foldl
        (fun acc col =>
          (acc.1 ∪ [col.name],
           acc.2 <|> (if col.name ∈ acc.1 then some col.name else none)))
        (seen, some x)).2 = some x := by
  intro cols
  induction cols with
  | nil => intro seen; rfl
  | cons col cols ih =>
    intro seen
    rw [List.foldl_cons]
    exact ih (seen ∪ [col.name])

theorem firstDup_fold_none :
    ∀ (cols : List Column) (seen : List String),
      (cols.foldl
        (fun acc col =>
          (acc.1 ∪ [col.name],
           acc.2 <|> (if col.name ∈ acc.1 then some col.name else none)))
        (seen, none)).2 = none →
      (∀ col ∈ cols, col.name ∉ seen) ∧ (cols.map Column.name).Nodup := by
  intro cols
  induction cols with
  | nil => intro seen _; exact ⟨fun col h => absurd h (List.not_mem_nil col), List.nodup_nil⟩
  | cons col cols ih =>
    intro seen h
    rw [List.foldl_cons] at h
    by_cases hmem : col.name ∈ seen
    · rw [show ((none : Option String) <|> (if col.name ∈ seen then some col.name else none)) =
          some col.name by simp [hmem]] at h
      rw [firstDup_fold_some] at h
      cases h
    · rw [show ((none : Option String) <|> (if col.name ∈ seen then some col.name else none)) =
          none by simp [hmem]] at h
      obtain ⟨ha, hb⟩ := ih (seen ∪ [col.name]) h
      refine ⟨?_, ?_⟩
      · intro col' h'
        rcases List.mem_cons.mp h' with rfl | h'
        · exact hmem
        · intro hc
          exact ha col' h' (List.mem_union_iff.mpr (Or.inl hc))
      · rw [List.map_cons, List.nodup_cons]
        refine ⟨?_, hb⟩
        intro hc
        obtain ⟨col', hcol', he⟩ := List.mem_map.mp hc
        exact ha col' hcol' (List.mem_union_iff.mpr (Or.inr (by simp [he])))

theorem firstDupName_none_nodup {cols : List Column} (h : firstDupName cols = none) :
    (cols.map Column.name).Nodup :=
  (firstDup_fold_none cols [] h).2

theorem um_built_entries_nil (cols : List Column) :
    ∀ (m : List (String × List Value)),
      (∀ c s, assocFind? m c = some s → s = []) →
      ∀ c s, assocFind? (cols.foldl
        (fun m col => if col.unique && !col.primaryKey then assocSet m col.name [] else m)
        m) c = some s → s = [] := by
  induction cols with
  | nil => intro m hm; exact hm
  | cons col cols ih =>
    intro m hm
    rw [List.foldl_cons]
    by_cases hc : (col.unique && !col.primaryKey) = true
    · rw [if_pos hc]
      refine ih _ ?_
      intro c s hs
      by_cases he : c = col.name
      · subst he
        rw [assocFind?_assocSet_self] at hs
        exact (Option.some_inj.mp hs).symm
      · rw [assocFind?_assocSet_ne _ _ _ _ he] at hs
        exact hm c s hs
    · rw [if_neg hc]
      exact ih m hm

theorem inv_of_empty_rows (t : Table)
    (hrows : t.rows = [])
    (hnd : (t.columns.map Column.name).Nodup)
    (hum : ∀ c s, assocFind? t.uniqueMap c = some s → s = [])
    (hkeys : (t.indexes.map Prod.fst).Nodup)
    (hidx : ∀ c idx, assocFind? t.indexes c = some idx → idx = []) : Inv t := by
  unfold Inv CoreInv IdxInv
  refine ⟨⟨hnd, ?_, ?_⟩, ⟨hkeys, ?_⟩⟩
  · intro row hrow
    rw [hrows] at hrow
    cases hrow
  · intro col _ _
    constructor
    · unfold UniqueSetInv
      cases hf : assocFind? t.uniqueMap col.name with
      | some s =>
        have : s = [] := hum _ _ hf
        subst this
        refine ⟨List.nodup_nil, ?_⟩
        intro v
        simp [hrows]
      | none =>
        intro q h
        rw [hrows] at h
        cases h
    · intro p q hp
      rw [hrows] at hp
      cases hp
  · intro c idx hf
    have : idx = [] := hidx _ _ hf
    subst this
    unfold IdxGood
    refine ⟨List.nodup_nil, fun k => List.nodup_nil, ?_⟩
    intro k q
    constructor
    · intro hq
      simp [bucketOf, assocFind?, List.find?] at hq
    · rintro ⟨hlt, _⟩
      rw [hrows] at hlt
      cases hlt

theorem mkNew_inv {name : String} {cols : List Column} {t0 : Table}
    (h : Table.mkNew name cols = .ok t0) : Inv t0 := by
  unfold Table.mkNew at h
  split at h
  · cases h
  · split at h
    · cases h
    · split at h
      · cases h
      next hfd =>
        have hnd : (cols.map Column.name).Nodup := firstDupName_none_nodup hfd
        have hum : ∀ (c : String) (s : List Value),
            assocFind? (cols.foldl
              (fun m col => if col.unique && !col.primaryKey then assocSet m col.name [] else m)
              (match cols.find? (fun c => c.primaryKey) with
               | some pk => [(pk.name, [])]
               | none => [])) c = some s → s = [] := by
          refine um_built_entries_nil cols _ ?_
          intro c s hs
          cases hpk : cols.find? (fun c => c.primaryKey) with
          | some pk =>
            rw [hpk] at hs
            dsimp only at hs
            by_cases he : c = pk.name
            · subst he
              rw [assocFind?_cons, if_pos rfl] at hs
              exact (Option.some_inj.mp hs).symm
            · rw [assocFind?_cons, if_neg (fun e => he (Eq.symm e))] at hs
              cases hs
          | none =>
            rw [hpk] at hs
            cases hs
        dsimp only at h
        split at h
        next pk hpk =>
          unfold Table.createIndex at h
          split at h
          · cases h
          · injection h with ht0
            subst ht0
            refine inv_of_empty_rows _ rfl hnd ?_ ?_ ?_
            · intro c s hs
              exact hum c s (by rw [hpk]; exact hs)
            · have : ((([(pk.name, ([] : HashIdx))]).map Prod.fst).Nodup) := by simp
              exact this
            · intro c idx hf
              have hfi : assocFind? [(pk.name, ([] : HashIdx))] c = some idx := hf
              by_cases he : c = pk.name
              · subst he
                rw [assocFind?_cons, if_pos rfl] at hfi
                exact (Option.some_inj.mp hfi).symm
              · rw [assocFind?_cons, if_neg (fun e => he (Eq.symm e))] at hfi
                cases hfi
        next hpk =>
          injection h with ht0
          subst ht0
          refine inv_of_empty_rows _ rfl hnd ?_ ?_ ?_
          · intro c s hs
            exact hum c s (by rw [hpk]; exact hs)
          · exact List.nodup_nil
          · intro c idx hf
            have hfi : assocFind? ([] : List (String × HashIdx)) c = some idx := hf
            cases hfi

end MiniRDBMS

namespace MiniRDBMS

theorem jsSetHas_eq_false {s : List Value} {v : Value} (h : jsSetHas s v = false) :
    v ∉ s := by
  intro hv
  rw [show jsSetHas s v = true by simpa [jsSetHas] using hv] at h
  cases h

theorem map_nodup_name_inj {l : List Column} (h : (l.map Column.name).Nodup) :
    ∀ a ∈ l, ∀ b ∈ l, a.name = b.name → a = b := by
  induction l with
  | nil => intro a ha; cases ha
  | cons x l ih =>
    rw [List.map_cons, List.nodup_cons] at h
    intro a ha b hb he
    rcases List.mem_cons.mp ha with rfl | ha2 <;> rcases List.mem_cons.mp hb with rfl | hb2
    · rfl
    · exact absurd (by rw [he]; exact List.mem_map_of_mem Column.name hb2) h.1
    · exact absurd (by rw [← he]; exact List.mem_map_of_mem Column.name ha2) h.1
    · exact ih h.2 a ha2 b hb2 he

theorem validate_ok_isValidType {col : Column} {v : Value}
    (h : col.validate v = .ok ()) : col.isValidType v = true := by
  by_cases hn : v.isNullish = true
  · cases v <;> first | rfl | simp [Value.isNullish] at hn
  · rw [Bool.not_eq_true] at hn
    unfold Column.validate at h
    rw [show (col.notNull && v.isNullish) = false by rw [hn]; simp] at h
    rw [if_neg Bool.false_ne_true] at h
    rw [hn, if_neg Bool.false_ne_true] at h
    by_contra hvt
    rw [Bool.not_eq_true] at hvt
    rw [show (!col.isValidType v) = true by rw [hvt]; rfl, if_pos rfl] at h
    cases h

theorem insertCheckCol_ok_parts {t : Table} {rowData : Row} {col : Column}
    (h : insertCheckCol t rowData col = .ok ()) :
    col.validate (rowGet rowData col.name) = .ok () ∧
    ((col.unique || col.primaryKey) = true → (rowGet rowData col.name).isNullish = false →
      ∃ s, assocFind? t.uniqueMap col.name = some s ∧
        jsSetHas s (rowGet rowData col.name) = false) := by
  unfold insertCheckCol at h
  simp only [bind, Bind.bind] at h
  cases hv : col.validate (rowGet rowData col.name) with
  | error e => rw [hv] at h; simp [Except.bind] at h
  | ok u =>
    cases u
    rw [hv] at h
    simp only [Except.bind] at h
    refine ⟨rfl, ?_⟩
    intro hu hnn
    rw [if_pos hu] at h
    rw [show (!(rowGet rowData col.name).isNullish) = true by rw [hnn]; rfl, if_pos rfl] at h
    cases hf : assocFind? t.uniqueMap col.name with
    | none =>
      rw [hf] at h
      dsimp only at h
      simp [throw, throwThe, MonadExceptOf.throw] at h
    | some s =>
      rw [hf] at h
      dsimp only at h
      cases hhas : jsSetHas s (rowGet rowData col.name) with
      | true =>
        rw [hhas] at h
        simp [throw, throwThe, MonadExceptOf.throw] at h
      | false => exact ⟨s, rfl, hhas⟩

theorem insertValidate_ok_checks (t : Table) (rowData : Row) :
    ∀ (cols : List Column) (acc res : Row),
      cols.foldlM
        (fun row col => do
          insertCheckCol t rowData col
          pure (assocSet row col.name (rowGet rowData col.name)))
        acc = .ok res →
      (∀ col ∈ cols, insertCheckCol t rowData col = .ok ()) ∧
      (∀ c : String, rowGet res c =
        if cols.any (fun col => col.name == c) then rowGet rowData c else rowGet acc c) := by
  intro cols
  induction cols with
  | nil =>
    intro acc res h
    simp only [List.foldlM, pure, Except.pure, Except.ok.injEq] at h
    subst h
    exact ⟨fun col hc => absurd hc (List.not_mem_nil col), fun c => by simp⟩
  | cons col cols ih =>
    intro acc res h
    rw [List.foldlM_cons] at h
    simp only [bind, Bind.bind] at h
    cases hchk : insertCheckCol t rowData col with
    | error e => rw [hchk] at h; simp [Except.bind] at h
    | ok u =>
      cases u
      rw [hchk] at h
      simp only [Except.bind, pure, Except.pure] at h
      obtain ⟨h1, h2⟩ := ih (assocSet acc col.name (rowGet rowData col.name)) res h
      refine ⟨?_, ?_⟩
      · intro col' hc
        rcases List.mem_cons.mp hc with rfl | hc
        · exact hchk
        · exact h1 col' hc
      · intro c
        rw [h2 c]
        by_cases hany : cols.any (fun col => col.name == c) = true
        · rw [if_pos hany, if_pos (by rw [List.any_cons, hany]; simp)]
        · rw [Bool.not_eq_true] at hany
          rw [if_neg (by rw [hany]; exact Bool.false_ne_true)]
          by_cases he : col.name = c
          · subst he
            rw [if_pos (by rw [List.any_cons, hany]; simp), rowGet_assocSet_self]
          · rw [rowGet_assocSet_ne _ _ _ _ (fun e => he (Eq.symm e))]
            rw [if_neg (by rw [List.any_cons, hany]; simp; exact he)]

theorem uniqueAddGo_effect (row : Row) :
    ∀ (cols : List Column) (t : Table),
      (cols.map Column.name).Nodup →
      (∀ col ∈ cols, (col.unique || col.primaryKey) = true →
        (rowGet row col.name).isNullish = false →
        (assocFind? t.uniqueMap col.name).isSome = true) →
      ∃ t2, uniqueAddGo row t cols = (t2, .ok ()) ∧
        t2.name = t.name ∧ t2.columns = t.columns ∧ t2.rows = t.rows ∧
        t2.indexes = t.indexes ∧
        (∀ c : String,
          (¬ ∃ col ∈ cols, col.name = c ∧ (col.unique || col.primaryKey) = true ∧
              (rowGet row c).isNullish = false) →
            assocFind? t2.uniqueMap c = assocFind? t.uniqueMap c) ∧
        (∀ col ∈ cols, (col.unique || col.primaryKey) = true →
          (rowGet row col.name).isNullish = false →
          assocFind? t2.uniqueMap col.name =
            (assocFind? t.uniqueMap col.name).map
              (fun s => jsSetAdd s (rowGet row col.name))) := by
  intro cols
  induction cols with
  | nil =>
    intro t _ _
    exact ⟨t, rfl, rfl, rfl, rfl, rfl, fun c _ => rfl,
      fun col hc => absurd hc (List.not_mem_nil col)⟩
  | cons col cols ih =>
    intro t hnd hok
    rw [List.map_cons, List.nodup_cons] at hnd
    by_cases hu : (col.unique || col.primaryKey) = true
    · by_cases hnn : (rowGet row col.name).isNullish = false
      · obtain ⟨s, hs⟩ := Option.isSome_iff_exists.mp
          (hok col (List.mem_cons_self col cols) hu hnn)
        have hstep : uniqueAddGo row t (col :: cols) =
            uniqueAddGo row
              { t with uniqueMap := (assocSet t.uniqueMap col.name
                  (jsSetAdd s (rowGet row col.name))) } cols := by
          simp only [uniqueAddGo]
          rw [if_pos hu]
          try dsimp only
          rw [show (!(rowGet row col.name).isNullish) = true by rw [hnn]; rfl, if_pos rfl, hs]
        have hok1 : ∀ col' ∈ cols, (col'.unique || col'.primaryKey) = true →
            (rowGet row col'.name).isNullish = false →
            (assocFind? (assocSet t.uniqueMap col.name
              (jsSetAdd s (rowGet row col.name))) col'.name).isSome = true := by
          intro col' hc' hu' hnn'
          by_cases he : col'.name = col.name
          · rw [he, assocFind?_assocSet_self]; rfl
          · rw [assocFind?_assocSet_ne _ _ _ _ he]
            exact hok col' (List.mem_cons_of_mem col hc') hu' hnn'
        obtain ⟨t2, hgo, ha, hb, hc, hd, hpres, heff⟩ := ih
          { t with uniqueMap := (assocSet t.uniqueMap col.name
              (jsSetAdd s (rowGet row col.name))) } hnd.2 hok1
        refine ⟨t2, by rw [hstep]; exact hgo, ha, hb, hc, hd, ?_, ?_⟩
        · intro c hno
          have hne : col.name ≠ c := by
            intro he
            exact hno ⟨col, List.mem_cons_self col cols, he, hu, he ▸ hnn⟩
          rw [hpres c (fun ⟨col', hc', he', hu', hnn'⟩ =>
            hno ⟨col', List.mem_cons_of_mem col hc', he', hu', hnn'⟩)]
          show assocFind? (assocSet t.uniqueMap col.name
            (jsSetAdd s (rowGet row col.name))) c = _
          rw [assocFind?_assocSet_ne _ _ _ _ (fun e => hne (Eq.symm e))]
        · intro col' hc' hu' hnn'
          rcases List.mem_cons.mp hc' with rfl | hc'
          · rw [hpres col'.name ?hno]
            case hno =>
              rintro ⟨col'', hc'', he'', _, _⟩
              exact hnd.1 (he'' ▸ List.mem_map_of_mem Column.name hc'')
            show assocFind? (assocSet t.uniqueMap col'.name
              (jsSetAdd s (rowGet row col'.name))) col'.name = _
            rw [assocFind?_assocSet_self, hs]
            rfl
          · rw [heff col' hc' hu' hnn']
            have hne : col'.name ≠ col.name := by
              intro he
              exact hnd.1 (he ▸ List.mem_map_of_mem Column.name hc')
            show (assocFind? (assocSet t.uniqueMap col.name
              (jsSetAdd s (rowGet row col.name))) col'.name).map
                (fun s => jsSetAdd s (rowGet row col'.name)) = _
            rw [assocFind?_assocSet_ne _ _ _ _ hne]
      · rw [Bool.not_eq_false] at hnn
        have hstep : uniqueAddGo row t (col :: cols) = uniqueAddGo row t cols := by
          simp only [uniqueAddGo]
          rw [if_pos hu]
          try dsimp only
          rw [show (!(rowGet row col.name).isNullish) = false by rw [hnn]; rfl,
            if_neg Bool.false_ne_true]
        obtain ⟨t2, hgo, ha, hb, hc, hd, hpres, heff⟩ := ih t hnd.2
          (fun col' hc' => hok col' (List.mem_cons_of_mem col hc'))
        refine ⟨t2, by rw [hstep]; exact hgo, ha, hb, hc, hd, ?_, ?_⟩
        · intro c hno
          exact hpres c (fun ⟨col', hc', he', hu', hnn'⟩ =>
            hno ⟨col', List.mem_cons_of_mem col hc', he', hu', hnn'⟩)
        · intro col' hc' hu' hnn'
          rcases List.mem_cons.mp hc' with rfl | hc'
          · rw [hnn] at hnn'; cases hnn'
          · exact heff col' hc' hu' hnn'
    · have hstep : uniqueAddGo row t (col :: cols) = uniqueAddGo row t cols := by
        simp only [uniqueAddGo]
        rw [if_neg hu]
      obtain ⟨t2, hgo, ha, hb, hc, hd, hpres, heff⟩ := ih t hnd.2
        (fun col' hc' => hok col' (List.mem_cons_of_mem col hc'))
      refine ⟨t2, by rw [hstep]; exact hgo, ha, hb, hc, hd, ?_, ?_⟩
      · intro c hno
        exact hpres c (fun ⟨col', hc', he', hu', hnn'⟩ =>
          hno ⟨col', List.mem_cons_of_mem col hc', he', hu', hnn'⟩)
      · intro col' hc' hu' hnn'
        rcases List.mem_cons.mp hc' with rfl | hc'
        · exact absurd hu' hu
        · exact heff col' hc' hu' hnn'

end MiniRDBMS

namespace MiniRDBMS

theorem mapVal_keys {α β : Type} (l : List (String × α)) (g : String → α → β) :
    ((l.map (fun p => (p.1, g p.1 p.2))).map Prod.fst) = l.map Prod.fst := by
  induction l with
  | nil => rfl
  | cons p rest ih => simp [ih]

theorem updateIndexesOnInsert_keys (indexes : List (String × HashIdx)) (row : Row)
    (n : Nat) :
    ((updateIndexesOnInsert indexes row n).map Prod.fst) = indexes.map Prod.fst := by
  unfold updateIndexesOnInsert
  induction indexes with
  | nil => rfl
  | cons p rest ih => simp_all

theorem assocFind?_updateIndexesOnInsert (indexes : List (String × HashIdx)) (row : Row)
    (n : Nat) (c : String) :
    assocFind? (updateIndexesOnInsert indexes row n) c =
      (assocFind? indexes c).map (fun idx =>
        if (rowGet row c).isNullish then idx
        else bucketAdd idx (rowGet row c).toKeyString n) := by
  unfold updateIndexesOnInsert
  induction indexes with
  | nil => rfl
  | cons p rest ih =>
    rcases p with ⟨pk, pidx⟩
    rw [List.map_cons]
    dsimp only
    by_cases h : pk = c
    · subst h
      rw [assocFind?_cons, assocFind?_cons, if_pos rfl, if_pos rfl]
      rfl
    · rw [assocFind?_cons, assocFind?_cons, if_neg h, if_neg h]
      exact ih

theorem insert_inv (t : Table) (r : Row) (hinv : Inv t) : Inv (t.insert r).1 := by
  obtain ⟨⟨hnd, htyped, huniq⟩, hkeys, hidx⟩ := hinv
  unfold Table.insert
  cases hval : t.insertValidate r with
  | error e => exact ⟨⟨hnd, htyped, huniq⟩, hkeys, hidx⟩
  | ok row =>
    dsimp only
    have hval' := hval
    unfold Table.insertValidate at hval'
    obtain ⟨hchecks, hrowc⟩ := insertValidate_ok_checks t r t.columns [] row hval'
    have hrw : ∀ col ∈ t.columns, rowGet row col.name = rowGet r col.name := by
      intro col hc
      rw [hrowc col.name, if_pos (List.any_eq_true.mpr ⟨col, hc, by simp⟩)]
    have hok : ∀ col ∈ t.columns, (col.unique || col.primaryKey) = true →
        (rowGet row col.name).isNullish = false →
        (assocFind? t.uniqueMap col.name).isSome = true := by
      intro col hc hu hnn
      obtain ⟨s, hs, _⟩ := (insertCheckCol_ok_parts (hchecks col hc)).2 hu
        (by rw [← hrw col hc]; exact hnn)
      rw [hs]
      rfl
    obtain ⟨t2, hgo, hname2, hcols2, hrows2, hidx2, hpres, heff⟩ :=
      uniqueAddGo_effect row t.columns { t with rows := t.rows ++ [row] } hnd hok
    have hgo' : Table.uniqueAddAll { t with rows := t.rows ++ [row] } row = (t2, .ok ()) :=
      hgo
    rw [hgo']
    dsimp only
    obtain ⟨nm2, c2, r2, u2, i2⟩ := t2
    dsimp only at hcols2 hrows2 hidx2 hpres heff
    subst hcols2
    subst hrows2
    subst hidx2
    refine ⟨⟨hnd, ?_, ?_⟩, ?_, ?_⟩
    · -- TypedInv
      intro row' hr' col hcol
      rcases List.mem_append.mp hr' with hr' | hr'
      · exact htyped row' hr' col hcol
      · rw [List.mem_singleton] at hr'
        subst hr'
        rw [hrw col hcol]
        exact validate_ok_isValidType (insertCheckCol_ok_parts (hchecks col hcol)).1
    · -- unique columns
      intro col hcol hflags
      obtain ⟨hold1, hold2⟩ := huniq col hcol hflags
      constructor
      · -- UniqueSetInv
        unfold UniqueSetInv
        dsimp only
        by_cases hn0 : (rowGet row col.name).isNullish = true
        · have hno : ¬ ∃ col' ∈ t.columns, col'.name = col.name ∧
              (col'.unique || col'.primaryKey) = true ∧
              (rowGet row col.name).isNullish = false := by
            rintro ⟨col', hc', he', _, hnn'⟩
            rw [hn0] at hnn'
            cases hnn'
          rw [hpres col.name hno]
          unfold UniqueSetInv at hold1
          cases hf : assocFind? t.uniqueMap col.name with
          | some s =>
            rw [hf] at hold1
            obtain ⟨hsnd, hex⟩ := hold1
            refine ⟨hsnd, ?_⟩
            intro v
            rw [hex v]
            constructor
            · rintro ⟨hnn, q, h, hv⟩
              refine ⟨hnn, q, by simp; omega, ?_⟩
              rw [get_snoc_lt t.rows row q _ h]
              exact hv
            · rintro ⟨hnn, q, h', hv⟩
              by_cases hq : q < t.rows.length
              · rw [get_snoc_lt t.rows row q h' hq] at hv
                exact ⟨hnn, q, hq, hv⟩
              · have hqn : q = t.rows.length := by
                  simp at h'
                  omega
                subst hqn
                rw [get_snoc_last t.rows row h'] at hv
                rw [← hv, hn0] at hnn
                cases hnn
          | none =>
            rw [hf] at hold1
            intro q h'
            by_cases hq : q < t.rows.length
            · rw [get_snoc_lt t.rows row q h' hq]
              exact hold1 q hq
            · have hqn : q = t.rows.length := by
                simp at h'
                omega
              subst hqn
              rw [get_snoc_last t.rows row h']
              exact hn0
        · rw [Bool.not_eq_true] at hn0
          obtain ⟨s, hs, hhas⟩ := (insertCheckCol_ok_parts (hchecks col hcol)).2 hflags
            (by rw [← hrw col hcol]; exact hn0)
          have hfind2 : assocFind? u2 col.name =
              some (jsSetAdd s (rowGet row col.name)) := by
            rw [heff col hcol hflags hn0, hs]
            rfl
          rw [hfind2]
          unfold UniqueSetInv at hold1
          rw [hs] at hold1
          obtain ⟨hsnd, hex⟩ := hold1
          refine ⟨jsSetAdd_nodup s _ hsnd, ?_⟩
          intro v
          rw [mem_jsSetAdd]
          constructor
          · rintro (hv | rfl)
            · obtain ⟨hnn, q, h, hv'⟩ := hex v |>.mp hv
              refine ⟨hnn, q, by simp; omega, ?_⟩
              rw [get_snoc_lt t.rows row q _ h]
              exact hv'
            · refine ⟨hn0, t.rows.length, by simp, ?_⟩
              rw [get_snoc_last t.rows row (by simp)]
          · rintro ⟨hnn, q, h', hv⟩
            by_cases hq : q < t.rows.length
            · rw [get_snoc_lt t.rows row q h' hq] at hv
              exact Or.inl ((hex v).mpr ⟨hnn, q, hq, hv⟩)
            · have hqn : q = t.rows.length := by
                simp at h'
                omega
              subst hqn
              rw [get_snoc_last t.rows row h'] at hv
              exact Or.inr hv.symm
      · -- DistinctColInv
        intro p q hp hq hnnp heq
        dsimp only at hp hq hnnp heq
        have hval_mem : ∀ (j : Nat) (hj : j < (t.rows ++ [row]).length),
            ¬ j < t.rows.length → j = t.rows.length := by
          intro j hj hjn
          simp at hj
          omega
        by_cases hpn : p < t.rows.length <;> by_cases hqn : q < t.rows.length
        · rw [get_snoc_lt t.rows row p hp hpn] at hnnp heq
          rw [get_snoc_lt t.rows row q hq hqn] at heq
          exact hold2 p q hpn hqn hnnp heq
        · have hq' := hval_mem q hq hqn
          subst hq'
          rw [get_snoc_lt t.rows row p hp hpn] at hnnp heq
          rw [get_snoc_last t.rows row hq] at heq
          exfalso
          unfold UniqueSetInv at hold1
          cases hf : assocFind? t.uniqueMap col.name with
          | some s =>
            rw [hf] at hold1
            obtain ⟨s2, hs2, hhas⟩ := (insertCheckCol_ok_parts (hchecks col hcol)).2 hflags
              (by rw [← hrw col hcol, ← heq]; exact hnnp)
            rw [hf] at hs2
            have hs2' : s = s2 := Option.some_inj.mp hs2
            subst hs2'
            have hmem0 : rowGet row col.name ∈ s := (hold1.2 _).mpr
              ⟨by rw [← heq]; exact hnnp, p, hpn, heq⟩
            exact jsSetHas_eq_false hhas (hrw col hcol ▸ hmem0)
          | none =>
            rw [hf] at hold1
            rw [hold1 p hpn] at hnnp
            exact absurd hnnp (by decide)
        · have hp' := hval_mem p hp hpn
          subst hp'
          rw [get_snoc_last t.rows row hp] at hnnp heq
          rw [get_snoc_lt t.rows row q hq hqn] at heq
          exfalso
          unfold UniqueSetInv at hold1
          cases hf : assocFind? t.uniqueMap col.name with
          | some s =>
            rw [hf] at hold1
            obtain ⟨s2, hs2, hhas⟩ := (insertCheckCol_ok_parts (hchecks col hcol)).2 hflags
              (by rw [← hrw col hcol]; exact hnnp)
            rw [hf] at hs2
            have hs2' : s = s2 := Option.some_inj.mp hs2
            subst hs2'
            have hmem0 : rowGet row col.name ∈ s := (hold1.2 _).mpr ⟨hnnp, q, hqn, heq.symm⟩
            exact jsSetHas_eq_false hhas (hrw col hcol ▸ hmem0)
          | none =>
            rw [hf] at hold1
            have hnul := hold1 q hqn
            rw [heq] at hnnp
            rw [hnul] at hnnp
            exact absurd hnnp (by decide)
        · have hp' := hval_mem p hp hpn
          have hq' := hval_mem q hq hqn
          omega
    · -- index keys
      show ((updateIndexesOnInsert t.indexes row t.rows.length).map Prod.fst).Nodup
      rw [updateIndexesOnInsert_keys]
      exact hkeys
    · -- index entries
      intro c idx' hf
      have hf2 : (assocFind? t.indexes c).map (fun idx =>
          if (rowGet row c).isNullish then idx
          else bucketAdd idx (rowGet row c).toKeyString t.rows.length) = some idx' := by
        rw [← assocFind?_updateIndexesOnInsert t.indexes row t.rows.length c]
        exact hf
      obtain ⟨idx, hfi, hgc⟩ := Option.map_eq_some'.mp hf2
      obtain ⟨hiknd, hibnd, himem⟩ := hidx c idx hfi
      subst hgc
      by_cases hn0 : (rowGet row c).isNullish = true
      · rw [if_pos hn0]
        refine ⟨hiknd, hibnd, ?_⟩
        intro k q
        rw [himem k q]
        constructor
        · rintro ⟨h, hnn, hk⟩
          refine ⟨by simp; omega, ?_, ?_⟩
          · rw [get_snoc_lt t.rows row q _ h]; exact hnn
          · rw [get_snoc_lt t.rows row q _ h]; exact hk
        · rintro ⟨h', hnn, hk⟩
          by_cases hq : q < t.rows.length
          · rw [get_snoc_lt t.rows row q h' hq] at hnn hk
            exact ⟨hq, hnn, hk⟩
          · have hqn : q = t.rows.length := by simp at h'; omega
            subst hqn
            rw [get_snoc_last t.rows row h'] at hnn
            rw [hn0] at hnn
            cases hnn
      · rw [Bool.not_eq_true] at hn0
        rw [if_neg (by rw [hn0]; exact Bool.false_ne_true)]
        have hfresh : t.rows.length ∉ bucketOf idx (rowGet row c).toKeyString := by
          intro hmem
          obtain ⟨h, _, _⟩ := (himem _ _).mp hmem
          omega
        refine ⟨bucketAdd_keys_nodup _ _ _ hiknd,
          bucketAdd_buckets_nodup _ _ _ hibnd hfresh, ?_⟩
        intro k q
        rw [mem_bucketAdd, himem k q]
        constructor
        · rintro (⟨h, hnn, hk⟩ | ⟨rfl, rfl⟩)
          · refine ⟨by simp; omega, ?_, ?_⟩
            · rw [get_snoc_lt t.rows row q _ h]; exact hnn
            · rw [get_snoc_lt t.rows row q _ h]; exact hk
          · refine ⟨by simp, ?_, ?_⟩
            · rw [get_snoc_last t.rows row (by simp)]; exact hn0
            · rw [get_snoc_last t.rows row (by simp)]
        · rintro ⟨h', hnn, hk⟩
          by_cases hq : q < t.rows.length
          · rw [get_snoc_lt t.rows row q h' hq] at hnn hk
            exact Or.inl ⟨hq, hnn, hk⟩
          · have hqn : q = t.rows.length := by simp at h'; omega
            subst hqn
            rw [get_snoc_last t.rows row h'] at hk
            exact Or.inr ⟨hk.symm, rfl⟩

end MiniRDBMS

namespace MiniRDBMS

theorem applySetEntry_ok (oldValues : Row) (p : Nat) (t : Table) (c : String) (v : Value)
    (col : Column) (hcol : t.findColumn c = some col)
    (hentry : (col.unique || col.primaryKey) = true →
      ¬((rowGet oldValues c).isNullish = true ∧ v.isNullish = true) →
      (assocFind? t.uniqueMap c).isSome = true) :
    ∃ T, applySetEntry oldValues p t c v = (T, .ok ()) ∧
      T.name = t.name ∧ T.columns = t.columns ∧
      T.rows = t.rows.set p (assocSet ((t.rows.get? p).getD []) c v) ∧
      (∀ c', c' ≠ c → assocFind? T.uniqueMap c' = assocFind? t.uniqueMap c') ∧
      ((col.unique || col.primaryKey) = true →
        ¬((rowGet oldValues c).isNullish = true ∧ v.isNullish = true) →
          assocFind? T.uniqueMap c =
            (assocFind? t.uniqueMap c).map (updSetFn (rowGet oldValues c) v)) ∧
      (((col.unique || col.primaryKey) = false ∨
         ((rowGet oldValues c).isNullish = true ∧ v.isNullish = true)) →
        assocFind? T.uniqueMap c = assocFind? t.uniqueMap c) ∧
      (∀ c', c' ≠ c → assocFind? T.indexes c' = assocFind? t.indexes c') ∧
      (assocFind? T.indexes c =
        (assocFind? t.indexes c).map (updIdxFn (rowGet oldValues c) v p)) ∧
      ((t.indexes.map Prod.fst).Nodup → (T.indexes.map Prod.fst).Nodup) := by
  unfold applySetEntry
  rw [hcol]
  dsimp only
  simp only [Option.getD_some]
  by_cases hu : (col.unique || col.primaryKey) = true
  · rw [if_pos hu]
    by_cases hbn : (rowGet oldValues c).isNullish = true ∧ v.isNullish = true
    · rw [if_pos hbn]
      dsimp only
      cases hix : assocFind? t.indexes c with
      | some idx =>
        dsimp only
        refine ⟨_, rfl, rfl, rfl, rfl, fun c' _ => rfl, ?_, fun _ => rfl, ?_, ?_, ?_⟩
        · intro _ hn
          exact absurd hbn hn
        · intro c' hc'
          dsimp only
          exact assocFind?_assocSet_ne _ _ _ _ hc'
        · dsimp only
          rw [assocFind?_assocSet_self]
          rfl
        · intro h
          dsimp only
          exact assocSet_keys_nodup _ _ _ h
      | none =>
        dsimp only
        refine ⟨_, rfl, rfl, rfl, rfl, fun c' _ => rfl, ?_, fun _ => rfl,
          fun c' _ => rfl, ?_, fun h => h⟩
        · intro _ hn
          exact absurd hbn hn
        · dsimp only
          rw [hix]
          rfl
    · rw [if_neg hbn]
      obtain ⟨s, hs⟩ := Option.isSome_iff_exists.mp (hentry hu hbn)
      rw [hs]
      dsimp only
      cases hix : assocFind? t.indexes c with
      | some idx =>
        dsimp only
        refine ⟨_, rfl, rfl, rfl, rfl, ?_, ?_, ?_, ?_, ?_, ?_⟩
        · intro c' hc'
          dsimp only
          exact assocFind?_assocSet_ne _ _ _ _ hc'
        · intro _ _
          dsimp only
          rw [assocFind?_assocSet_self]
          rfl
        · rintro (h | h)
          · rw [hu] at h; cases h
          · exact absurd h hbn
        · intro c' hc'
          dsimp only
          exact assocFind?_assocSet_ne _ _ _ _ hc'
        · dsimp only
          rw [assocFind?_assocSet_self]
          rfl
        · intro h
          dsimp only
          exact assocSet_keys_nodup _ _ _ h
      | none =>
        dsimp only
        refine ⟨_, rfl, rfl, rfl, rfl, ?_, ?_, ?_, fun c' _ => rfl, ?_, fun h => h⟩
        · intro c' hc'
          dsimp only
          exact assocFind?_assocSet_ne _ _ _ _ hc'
        · intro _ _
          dsimp only
          rw [assocFind?_assocSet_self]
          rfl
        · rintro (h | h)
          · rw [hu] at h; cases h
          · exact absurd h hbn
        · dsimp only
          rw [hix]
          rfl
  · rw [if_neg hu]
    dsimp only
    cases hix : assocFind? t.indexes c with
    | some idx =>
      dsimp only
      refine ⟨_, rfl, rfl, rfl, rfl, fun c' _ => rfl, ?_, fun _ => rfl, ?_, ?_, ?_⟩
      · intro h
        exact absurd h hu
      · intro c' hc'
        dsimp only
        exact assocFind?_assocSet_ne _ _ _ _ hc'
      · dsimp only
        rw [assocFind?_assocSet_self]
        rfl
      · intro h
        dsimp only
        exact assocSet_keys_nodup _ _ _ h
    | none =>
      dsimp only
      refine ⟨_, rfl, rfl, rfl, rfl, fun c' _ => rfl, ?_, fun _ => rfl,
        fun c' _ => rfl, ?_, fun h => h⟩
      · intro h
        exact absurd h hu
      · dsimp only
        rw [hix]
        rfl

end MiniRDBMS

namespace MiniRDBMS

theorem UniqueSetInv_congr (t t' : Table) (c : String)
    (hum : assocFind? t'.uniqueMap c = assocFind? t.uniqueMap c)
    (hlen : t'.rows.length = t.rows.length)
    (hvq : ∀ (q : Nat) (h : q < t.rows.length) (h' : q < t'.rows.length),
      rowGet (t'.rows.get ⟨q, h'⟩) c = rowGet (t.rows.get ⟨q, h⟩) c)
    (h : UniqueSetInv t c) : UniqueSetInv t' c := by
  unfold UniqueSetInv at h ⊢
  rw [hum]
  cases hf : assocFind? t.uniqueMap c with
  | some s =>
    rw [hf] at h
    obtain ⟨hsnd, hex⟩ := h
    refine ⟨hsnd, ?_⟩
    intro v
    rw [hex v]
    constructor
    · rintro ⟨hnn, q, hq, hv⟩
      exact ⟨hnn, q, by omega, by rw [hvq q hq (by omega)]; exact hv⟩
    · rintro ⟨hnn, q, hq, hv⟩
      exact ⟨hnn, q, by omega, by rw [← hvq q (by omega) hq]; exact hv⟩
  | none =>
    rw [hf] at h
    intro q hq
    rw [hvq q (by omega) hq]
    exact h q (by omega)

theorem DistinctColInv_congr (t t' : Table) (c : String)
    (hlen : t'.rows.length = t.rows.length)
    (hvq : ∀ (q : Nat) (h : q < t.rows.length) (h' : q < t'.rows.length),
      rowGet (t'.rows.get ⟨q, h'⟩) c = rowGet (t.rows.get ⟨q, h⟩) c)
    (h : DistinctColInv t c) : DistinctColInv t' c := by
  intro p q hp hq hnn heq
  rw [hvq p (by omega) hp] at hnn heq
  rw [hvq q (by omega) hq] at heq
  exact h p q (by omega) (by omega) hnn heq

theorem IdxGood_congr (rows rows' : List Row) (c : String) (idx : HashIdx)
    (hlen : rows'.length = rows.length)
    (hvq : ∀ (q : Nat) (h : q < rows.length) (h' : q < rows'.length),
      rowGet (rows'.get ⟨q, h'⟩) c = rowGet (rows.get ⟨q, h⟩) c)
    (hg : IdxGood rows c idx) : IdxGood rows' c idx := by
  obtain ⟨h1, h2, h3⟩ := hg
  refine ⟨h1, h2, ?_⟩
  intro k q
  rw [h3 k q]
  constructor
  · rintro ⟨hq, hnn, hk⟩
    exact ⟨by omega, by rw [hvq q hq (by omega)]; exact hnn,
      by rw [hvq q hq (by omega)]; exact hk⟩
  · rintro ⟨hq, hnn, hk⟩
    exact ⟨by omega, by rw [← hvq q (by omega) hq]; exact hnn,
      by rw [← hvq q (by omega) hq]; exact hk⟩

end MiniRDBMS

namespace MiniRDBMS

theorem applySetEntry_inv (t : Table) (p : Nat) (hp : p < t.rows.length)
    (oldValues : Row) (c : String) (v : Value) (col : Column)
    (hcol : t.findColumn c = some col) (hinv : Inv t)
    (hold : rowGet oldValues c = rowGet (t.rows.get ⟨p, hp⟩) c)
    (hty : col.isValidType v = true)
    (huniq : (col.unique || col.primaryKey) = true → v.isNullish = false →
      ¬ v = rowGet oldValues c →
      ∃ s, assocFind? t.uniqueMap c = some s ∧ v ∉ s) :
    ∃ T, applySetEntry oldValues p t c v = (T, .ok ()) ∧ Inv T ∧
      T.name = t.name ∧ T.columns = t.columns ∧
      T.rows = t.rows.set p (assocSet (t.rows.get ⟨p, hp⟩) c v) ∧
      (∀ c', c' ≠ c → assocFind? T.uniqueMap c' = assocFind? t.uniqueMap c') := by
  obtain ⟨⟨hnd, htyped, huniqcols⟩, hkeys, hidx⟩ := hinv
  have hcolmem : col ∈ t.columns := List.mem_of_find?_eq_some hcol
  have hcolname : col.name = c := by
    have := List.find?_some hcol
    simpa using this
  have hrowp : (t.rows.get? p).getD [] = t.rows.get ⟨p, hp⟩ := by
    rw [List.get?_eq_get hp]
    rfl
  have hstored : (col.unique || col.primaryKey) = true →
      (rowGet oldValues c).isNullish = false →
      (assocFind? t.uniqueMap c).isSome = true := by
    intro hfl hun
    have husi := (huniqcols col hcolmem hfl).1
    rw [hcolname] at husi
    unfold UniqueSetInv at husi
    cases hf : assocFind? t.uniqueMap c with
    | some _ => rfl
    | none =>
      rw [hf] at husi
      rw [hold] at hun
      rw [husi p hp] at hun
      exact absurd hun (by decide)
  have hentry : (col.unique || col.primaryKey) = true →
      ¬((rowGet oldValues c).isNullish = true ∧ v.isNullish = true) →
      (assocFind? t.uniqueMap c).isSome = true := by
    intro hfl hbn
    by_cases hun : (rowGet oldValues c).isNullish = true
    · by_cases hvn : v.isNullish = true
      · exact absurd ⟨hun, hvn⟩ hbn
      · by_cases hveq : v = rowGet oldValues c
        · rw [hveq] at hvn
          exact absurd hun hvn
        · obtain ⟨s, hs, _⟩ := huniq hfl (by rw [Bool.not_eq_true] at hvn; exact hvn) hveq
          rw [hs]
          rfl
    · rw [Bool.not_eq_true] at hun
      exact hstored hfl hun
  obtain ⟨T, heqT, hTname, hTcols, hTrows0, hTum_ne, hTum_c, hTum_same, hTix_ne, hTix_c,
    hTkeys⟩ := applySetEntry_ok oldValues p t c v col hcol hentry
  rw [hrowp] at hTrows0
  have hlen : T.rows.length = t.rows.length := by rw [hTrows0, List.length_set]
  have hgetTp : ∀ (h' : p < T.rows.length),
      T.rows.get ⟨p, h'⟩ = assocSet (t.rows.get ⟨p, hp⟩) c v := by
    intro h'
    have h1 : T.rows.get? p = some (assocSet (t.rows.get ⟨p, hp⟩) c v) := by
      rw [hTrows0]
      simp [List.get?_eq_getElem?, List.getElem?_set_self, hp]
    have h2 : T.rows.get? p = some (T.rows.get ⟨p, h'⟩) := List.get?_eq_get h'
    rw [h1] at h2
    exact (Option.some_inj.mp h2).symm
  have hgetTne : ∀ (q : Nat), q ≠ p → ∀ (h : q < t.rows.length) (h' : q < T.rows.length),
      T.rows.get ⟨q, h'⟩ = t.rows.get ⟨q, h⟩ := by
    intro q hqp h h'
    have h1 : T.rows.get? q = t.rows.get? q := by
      rw [hTrows0, List.get?_eq_getElem?, List.get?_eq_getElem?,
        List.getElem?_set_ne (fun e => hqp (Eq.symm e))]
    have h2 : T.rows.get? q = some (T.rows.get ⟨q, h'⟩) := List.get?_eq_get h'
    have h3 : t.rows.get? q = some (t.rows.get ⟨q, h⟩) := List.get?_eq_get h
    rw [h1, h3] at h2
    exact (Option.some_inj.mp h2).symm
  have hrow' : ∀ c' : String, rowGet (assocSet (t.rows.get ⟨p, hp⟩) c v) c' =
      if c' = c then v else rowGet (t.rows.get ⟨p, hp⟩) c' := by
    intro c'
    by_cases h : c' = c
    · subst h
      rw [rowGet_assocSet_self, if_pos rfl]
    · rw [rowGet_assocSet_ne _ _ _ _ h, if_neg h]
  have hvq_ne : ∀ (c' : String), c' ≠ c → ∀ (q : Nat) (h : q < t.rows.length)
      (h' : q < T.rows.length),
      rowGet (T.rows.get ⟨q, h'⟩) c' = rowGet (t.rows.get ⟨q, h⟩) c' := by
    intro c' hc' q h h'
    by_cases hqp : q = p
    · subst hqp
      rw [hgetTp h', hrow' c', if_neg hc']
    · rw [hgetTne q hqp h h']
  have hvalT : ∀ (q : Nat) (h' : q < T.rows.length),
      rowGet (T.rows.get ⟨q, h'⟩) c =
        if q = p then v else rowGet (t.rows.get ⟨q, by omega⟩) c := by
    intro q h'
    by_cases hqp : q = p
    · subst hqp
      rw [hgetTp h', hrow' c, if_pos rfl, if_pos rfl]
    · rw [hgetTne q hqp (by omega) h', if_neg hqp]
  refine ⟨T, heqT, ⟨⟨by rw [hTcols]; exact hnd, ?_, ?_⟩, ?_, ?_⟩, hTname, hTcols, hTrows0,
    hTum_ne⟩
  · -- TypedInv
    intro r0 hr0 col0 hc0
    rw [hTcols] at hc0
    rw [hTrows0] at hr0
    rcases List.mem_or_eq_of_mem_set hr0 with hr0 | rfl
    · exact htyped r0 hr0 col0 hc0
    · rw [hrow' col0.name]
      by_cases h : col0.name = c
      · rw [if_pos h]
        have : col0 = col := map_nodup_name_inj hnd col0 hc0 col hcolmem (by rw [h, hcolname])
        subst this
        exact hty
      · rw [if_neg h]
        exact htyped _ (t.rows.get_mem p hp) col0 hc0
  · -- unique columns
    intro col0 hc0 hfl0
    rw [hTcols] at hc0
    by_cases hceq : col0.name = c
    · have hcol0 : col0 = col :=
        map_nodup_name_inj hnd col0 hc0 col hcolmem (by rw [hceq, hcolname])
      subst hcol0
      rw [hceq]
      by_cases hbn : (rowGet oldValues c).isNullish = true ∧ v.isNullish = true
      · -- both nullish: entry and non-nullish values unchanged
        have hsame := hTum_same (Or.inr hbn)
        have husi := (huniqcols col0 hc0 hfl0).1
        have hdist := (huniqcols col0 hc0 hfl0).2
        rw [hceq] at husi hdist
        have holdp : rowGet (t.rows.get ⟨p, hp⟩) c = rowGet oldValues c := hold.symm
        constructor
        · unfold UniqueSetInv at husi ⊢
          rw [hsame]
          cases hf : assocFind? t.uniqueMap c with
          | some s =>
            rw [hf] at husi
            obtain ⟨hsnd, hex⟩ := husi
            refine ⟨hsnd, ?_⟩
            intro w
            rw [hex w]
            constructor
            · rintro ⟨hnn, q, hq, hv⟩
              have hqp : q ≠ p := by
                intro hqp
                subst hqp
                rw [show t.rows.get ⟨q, hq⟩ = t.rows.get ⟨q, hp⟩ from rfl, holdp] at hv
                rw [← hv] at hnn
                rw [hbn.1] at hnn
                cases hnn
              exact ⟨hnn, q, by omega, by rw [hgetTne q hqp hq (by omega)]; exact hv⟩
            · rintro ⟨hnn, q, hq, hv⟩
              have hqp : q ≠ p := by
                intro hqp
                subst hqp
                rw [hvalT q hq, if_pos rfl] at hv
                rw [← hv] at hnn
                rw [hbn.2] at hnn
                cases hnn
              exact ⟨hnn, q, by omega, by rw [← hgetTne q hqp (by omega) hq]; exact hv⟩
          | none =>
            rw [hf] at husi
            intro q hq
            rw [hvalT q hq]
            by_cases hqp : q = p
            · rw [if_pos hqp]
              exact hbn.2
            · rw [if_neg hqp]
              exact husi q (by omega)
        · intro p0 q0 hp0 hq0 hnn0 heq0
          rw [hvalT p0 hp0] at hnn0 heq0
          rw [hvalT q0 hq0] at heq0
          by_cases hpp : p0 = p <;> by_cases hqq : q0 = p
          · omega
          · rw [if_pos hpp] at hnn0 heq0
            rw [if_neg hqq] at heq0
            rw [hbn.2] at hnn0
            cases hnn0
          · rw [if_neg hpp] at hnn0 heq0
            rw [if_pos hqq] at heq0
            have : (rowGet (t.rows.get ⟨p0, by omega⟩) c).isNullish = true := by
              rw [heq0]
              exact hbn.2
            rw [this] at hnn0
            cases hnn0
          · rw [if_neg hpp] at hnn0 heq0
            rw [if_neg hqq] at heq0
            exact hdist p0 q0 (by omega) (by omega) hnn0 heq0
      · -- at least one side non-nullish: delete old, add new
        obtain ⟨s, hs⟩ := Option.isSome_iff_exists.mp (hentry hfl0 hbn)
        have hTc : assocFind? T.uniqueMap c = some (updSetFn (rowGet oldValues c) v s) := by
          rw [hTum_c hfl0 hbn, hs]
          rfl
        have husi := (huniqcols col0 hc0 hfl0).1
        have hdist := (huniqcols col0 hc0 hfl0).2
        rw [hceq] at husi hdist
        unfold UniqueSetInv at husi
        rw [hs] at husi
        obtain ⟨hsnd, hex⟩ := husi
        have holdp : rowGet (t.rows.get ⟨p, hp⟩) c = rowGet oldValues c := hold.symm
        have hmemFn : ∀ w : Value, w ∈ updSetFn (rowGet oldValues c) v s ↔
            ((w ∈ s ∧ ((rowGet oldValues c).isNullish = false → w ≠ rowGet oldValues c)) ∨
              (v.isNullish = false ∧ w = v)) := by
          intro w
          unfold updSetFn
          by_cases hun : (rowGet oldValues c).isNullish = true
          · rw [if_pos hun]
            by_cases hvn : v.isNullish = true
            · exact absurd ⟨hun, hvn⟩ hbn
            · rw [if_neg (by rw [Bool.not_eq_true] at hvn; rw [hvn]; exact Bool.false_ne_true)]
              rw [mem_jsSetAdd]
              rw [Bool.not_eq_true] at hvn
              constructor
              · rintro (hw | rfl)
                · exact Or.inl ⟨hw, fun hc0' => absurd hun (by rw [hc0'] at *; simp [hc0'])⟩
                · exact Or.inr ⟨hvn, rfl⟩
              · rintro (⟨hw, _⟩ | ⟨_, rfl⟩)
                · exact Or.inl hw
                · exact Or.inr rfl
          · rw [if_neg hun]
            rw [Bool.not_eq_true] at hun
            by_cases hvn : v.isNullish = true
            · rw [if_pos hvn]
              rw [mem_jsSetDelete hsnd]
              constructor
              · rintro ⟨hne, hw⟩
                exact Or.inl ⟨hw, fun _ => hne⟩
              · rintro (⟨hw, hne⟩ | ⟨hvf, rfl⟩)
                · exact ⟨hne hun, hw⟩
                · rw [hvn] at hvf
                  cases hvf
            · rw [if_neg hvn]
              rw [mem_jsSetAdd, mem_jsSetDelete hsnd]
              rw [Bool.not_eq_true] at hvn
              constructor
              · rintro (⟨hne, hw⟩ | rfl)
                · exact Or.inl ⟨hw, fun _ => hne⟩
                · exact Or.inr ⟨hvn, rfl⟩
              · rintro (⟨hw, hne⟩ | ⟨_, rfl⟩)
                · exact Or.inl ⟨hne hun, hw⟩
                · exact Or.inr rfl
        constructor
        · unfold UniqueSetInv
          rw [hTc]
          have hs1nd : (if (rowGet oldValues c).isNullish = true then s
              else jsSetDelete s (rowGet oldValues c)).Nodup := by
            by_cases hun : (rowGet oldValues c).isNullish = true
            · rw [if_pos hun]; exact hsnd
            · rw [if_neg hun]; exact jsSetDelete_nodup hsnd _
          refine ⟨?_, ?_⟩
          · unfold updSetFn
            by_cases hvn : v.isNullish = true
            · rw [if_pos hvn]
              exact hs1nd
            · rw [if_neg hvn]
              exact jsSetAdd_nodup _ _ hs1nd
          · intro w
            rw [hmemFn w]
            constructor
            · rintro (⟨hw, hne⟩ | ⟨hvf, rfl⟩)
              · obtain ⟨hnn, q, hq, hv'⟩ := (hex w).mp hw
                have hqp : q ≠ p := by
                  intro hqp
                  subst hqp
                  rw [show t.rows.get ⟨q, hq⟩ = t.rows.get ⟨q, hp⟩ from rfl, holdp] at hv'
                  have hun : (rowGet oldValues c).isNullish = false := by
                    rw [hv']
                    exact hnn
                  exact hne hun hv'.symm
                exact ⟨hnn, q, by omega, by
                  rw [hvalT q (by omega), if_neg hqp]
                  exact hv'⟩
              · refine ⟨hvf, p, by omega, ?_⟩
                rw [hvalT p (by omega), if_pos rfl]
            · rintro ⟨hnn, q, hq, hv'⟩
              rw [hvalT q hq] at hv'
              by_cases hqp : q = p
              · rw [if_pos hqp] at hv'
                exact Or.inr ⟨by rw [hv']; exact hnn, hv'.symm⟩
              · rw [if_neg hqp] at hv'
                have hw : w ∈ s := (hex w).mpr ⟨hnn, q, by omega, hv'⟩
                refine Or.inl ⟨hw, ?_⟩
                intro hun hweq
                have : q = p := hdist q p (by omega) hp (by rw [hv']; exact hnn)
                  (by rw [hv', hweq, holdp])
                exact hqp this
        · intro p0 q0 hp0 hq0 hnn0 heq0
          rw [hvalT p0 hp0] at hnn0 heq0
          rw [hvalT q0 hq0] at heq0
          by_cases hpp : p0 = p <;> by_cases hqq : q0 = p
          · omega
          · rw [if_pos hpp] at hnn0 heq0
            rw [if_neg hqq] at heq0
            exfalso
            by_cases hveq : v = rowGet oldValues c
            · have : q0 = p := hdist q0 p (by omega) hp
                (by rw [← heq0]; exact hnn0) (by rw [← heq0, hveq, holdp])
              exact hqq this
            · obtain ⟨s0, hs0, hvnotin⟩ := huniq hfl0 hnn0 hveq
              rw [hs] at hs0
              have hs0' : s = s0 := Option.some_inj.mp hs0
              subst hs0'
              exact hvnotin ((hex v).mpr ⟨hnn0, q0, by omega, heq0.symm⟩)
          · rw [if_neg hpp] at hnn0 heq0
            rw [if_pos hqq] at heq0
            exfalso
            have hnnv : v.isNullish = false := by
              rw [heq0] at hnn0
              exact hnn0
            by_cases hveq : v = rowGet oldValues c
            · have : p0 = p := hdist p0 p (by omega) hp hnn0 (by rw [heq0, hveq, holdp])
              exact hpp this
            · obtain ⟨s0, hs0, hvnotin⟩ := huniq hfl0 hnnv hveq
              rw [hs] at hs0
              have hs0' : s = s0 := Option.some_inj.mp hs0
              subst hs0'
              exact hvnotin ((hex v).mpr ⟨hnnv, p0, by omega, by rw [← heq0]⟩)
          · rw [if_neg hpp] at hnn0 heq0
            rw [if_neg hqq] at heq0
            exact hdist p0 q0 (by omega) (by omega) hnn0 heq0
    · -- a different column: everything at that column is unchanged
      have hum := hTum_ne col0.name hceq
      refine ⟨?_, ?_⟩
      · exact UniqueSetInv_congr t T col0.name hum hlen
          (fun q h h' => hvq_ne col0.name hceq q h h')
          (huniqcols col0 hc0 hfl0).1
      · exact DistinctColInv_congr t T col0.name hlen
          (fun q h h' => hvq_ne col0.name hceq q h h')
          (huniqcols col0 hc0 hfl0).2
  · -- index keys
    exact hTkeys hkeys
  · -- index entries
    intro c' idx' hfind'
    by_cases hc' : c' = c
    · subst hc'
      rw [hTix_c] at hfind'
      obtain ⟨idx0, hfi, hgc⟩ := Option.map_eq_some'.mp hfind'
      obtain ⟨iknd, ibnd, imem⟩ := hidx c' idx0 hfi
      subst hgc
      have holdp : rowGet (t.rows.get ⟨p, hp⟩) c' = rowGet oldValues c' := hold.symm
      have hp_no_bucket1 : ∀ k, p ∉ bucketOf (if (rowGet oldValues c').isNullish = true
          then idx0 else bucketRemove idx0 (rowGet oldValues c').toKeyString p) k := by
        intro k hmem
        by_cases hun : (rowGet oldValues c').isNullish = true
        · rw [if_pos hun] at hmem
          obtain ⟨h0, hnn0, _⟩ := (imem k p).mp hmem
          rw [show t.rows.get ⟨p, h0⟩ = t.rows.get ⟨p, hp⟩ from rfl, holdp, hun] at hnn0
          cases hnn0
        · rw [if_neg hun] at hmem
          rw [mem_bucketRemove idx0 _ p iknd ibnd] at hmem
          obtain ⟨hm0, hnk⟩ := hmem
          obtain ⟨h0, hnn0, hk0⟩ := (imem k p).mp hm0
          rw [show t.rows.get ⟨p, h0⟩ = t.rows.get ⟨p, hp⟩ from rfl, holdp] at hnn0 hk0
          exact hnk ⟨hk0.symm, rfl⟩
      have hb1nd : ∀ k, (bucketOf (if (rowGet oldValues c').isNullish = true
          then idx0 else bucketRemove idx0 (rowGet oldValues c').toKeyString p) k).Nodup := by
        intro k
        by_cases hun : (rowGet oldValues c').isNullish = true
        · rw [if_pos hun]; exact ibnd k
        · rw [if_neg hun]; exact bucketRemove_buckets_nodup idx0 _ p ibnd iknd k
      have hk1nd : ((if (rowGet oldValues c').isNullish = true
          then idx0 else bucketRemove idx0 (rowGet oldValues c').toKeyString p).map
            Prod.fst).Nodup := by
        by_cases hun : (rowGet oldValues c').isNullish = true
        · rw [if_pos hun]; exact iknd
        · rw [if_neg hun]; exact bucketRemove_keys_nodup idx0 _ p iknd
      have hmem1 : ∀ k q, q ∈ bucketOf (if (rowGet oldValues c').isNullish = true
          then idx0 else bucketRemove idx0 (rowGet oldValues c').toKeyString p) k ↔
          (q ∈ bucketOf idx0 k ∧ q ≠ p) := by
        intro k q
        by_cases hun : (rowGet oldValues c').isNullish = true
        · rw [if_pos hun]
          constructor
          · intro hm
            refine ⟨hm, ?_⟩
            intro hqp
            subst hqp
            exact hp_no_bucket1 k (by rw [if_pos hun]; exact hm)
          · exact fun h => h.1
        · rw [if_neg hun]
          rw [mem_bucketRemove idx0 _ p iknd ibnd]
          constructor
          · rintro ⟨hm, hnk⟩
            refine ⟨hm, ?_⟩
            intro hqp
            subst hqp
            obtain ⟨h0, hnn0, hk0⟩ := (imem k q).mp hm
            rw [show t.rows.get ⟨q, h0⟩ = t.rows.get ⟨q, hp⟩ from rfl, holdp] at hk0
            exact hnk ⟨hk0.symm, rfl⟩
          · rintro ⟨hm, hqp⟩
            exact ⟨hm, fun hand => hqp hand.2⟩
      unfold updIdxFn
      by_cases hvn : v.isNullish = true
      · rw [if_pos hvn]
        refine ⟨hk1nd, hb1nd, ?_⟩
        intro k q
        rw [hmem1 k q]
        constructor
        · rintro ⟨hm, hqp⟩
          obtain ⟨h0, hnn0, hk0⟩ := (imem k q).mp hm
          refine ⟨by omega, ?_, ?_⟩
          · rw [hvalT q (by omega), if_neg hqp]
            exact hnn0
          · rw [hvalT q (by omega), if_neg hqp]
            exact hk0
        · rintro ⟨h', hnn0, hk0⟩
          rw [hvalT q h'] at hnn0 hk0
          by_cases hqp : q = p
          · rw [if_pos hqp] at hnn0
            rw [hvn] at hnn0
            cases hnn0
          · rw [if_neg hqp] at hnn0 hk0
            exact ⟨(imem k q).mpr ⟨by omega, hnn0, hk0⟩, hqp⟩
      · rw [if_neg hvn]
        rw [Bool.not_eq_true] at hvn
        refine ⟨bucketAdd_keys_nodup _ _ _ hk1nd,
          bucketAdd_buckets_nodup _ _ _ hb1nd (hp_no_bucket1 _), ?_⟩
        intro k q
        rw [mem_bucketAdd, hmem1 k q]
        constructor
        · rintro (⟨hm, hqp⟩ | ⟨rfl, rfl⟩)
          · obtain ⟨h0, hnn0, hk0⟩ := (imem k q).mp hm
            refine ⟨by omega, ?_, ?_⟩
            · rw [hvalT q (by omega), if_neg hqp]
              exact hnn0
            · rw [hvalT q (by omega), if_neg hqp]
              exact hk0
          · refine ⟨by omega, ?_, ?_⟩
            · rw [hvalT q (by omega), if_pos rfl]
              exact hvn
            · rw [hvalT q (by omega), if_pos rfl]
        · rintro ⟨h', hnn0, hk0⟩
          rw [hvalT q h'] at hnn0 hk0
          by_cases hqp : q = p
          · subst hqp
            rw [if_pos rfl] at hk0
            exact Or.inr ⟨hk0.symm, rfl⟩
          · rw [if_neg hqp] at hnn0 hk0
            exact Or.inl ⟨(imem k q).mpr ⟨by omega, hnn0, hk0⟩, hqp⟩
    · rw [hTix_ne c' hc'] at hfind'
      exact IdxGood_congr t.rows T.rows c' idx' hlen
        (fun q h h' => hvq_ne c' hc' q h h') (hidx c' idx' hfind')

end MiniRDBMS

namespace MiniRDBMS

theorem get_from_get? {α : Type} (l : List α) (q : Nat) (h : q < l.length) (x : α)
    (hx : l.get? q = some x) : l.get ⟨q, h⟩ = x := by
  rw [List.get?_eq_get h] at hx
  exact Option.some_inj.mp hx

theorem foldlM_unit_ok {α : Type} (f : Unit → α → Except String Unit) :
    ∀ (l : List α), l.foldlM f () = .ok () → ∀ x ∈ l, f () x = .ok () := by
  intro l
  induction l with
  | nil => intro _ x hx; cases hx
  | cons y l ih =>
    intro h x hx
    rw [List.foldlM_cons] at h
    simp only [bind, Bind.bind] at h
    cases hf : f () y with
    | error e => rw [hf] at h; simp [Except.bind] at h
    | ok u =>
      cases u
      rw [hf] at h
      simp only [Except.bind] at h
      rcases List.mem_cons.mp hx with rfl | hx
      · exact hf
      · exact ih h x hx

theorem updateRowValidate_parts (t : Table) (set : List (String × Value)) (p : Nat)
    (h : t.updateRowValidate set p = .ok ()) :
    ∀ kv ∈ set, ∃ col, t.findColumn kv.1 = some col ∧ col.validate kv.2 = .ok () ∧
      ((col.unique || col.primaryKey) = true →
        jsStrictEq kv.2 (rowGet ((t.rows.get? p).getD []) kv.1) = false →
        kv.2.isNullish = false →
        ∃ s, assocFind? t.uniqueMap kv.1 = some s ∧ jsSetHas s kv.2 = false) := by
  unfold Table.updateRowValidate at h
  intro kv hkv
  have hstep := foldlM_unit_ok _ set h kv hkv
  dsimp only at hstep
  cases hfc : t.findColumn kv.1 with
  | none => rw [hfc] at hstep; simp [throw, throwThe, MonadExceptOf.throw] at hstep
  | some col =>
    rw [hfc] at hstep
    dsimp only at hstep
    simp only [bind, Bind.bind] at hstep
    cases hv : col.validate kv.2 with
    | error e => rw [hv] at hstep; simp [Except.bind] at hstep
    | ok u =>
      cases u
      rw [hv] at hstep
      simp only [Except.bind] at hstep
      refine ⟨col, rfl, hv, ?_⟩
      intro hfl hne hnn
      rw [if_pos hfl] at hstep
      rw [show (!jsStrictEq kv.2 (rowGet ((t.rows.get? p).getD []) kv.1)) = true by
        rw [hne]; rfl, if_pos rfl] at hstep
      rw [show (!kv.2.isNullish) = true by rw [hnn]; rfl, if_pos rfl] at hstep
      cases hfu : assocFind? t.uniqueMap kv.1 with
      | none => rw [hfu] at hstep; simp [throw, throwThe, MonadExceptOf.throw] at hstep
      | some s =>
        rw [hfu] at hstep
        dsimp only at hstep
        cases hhas : jsSetHas s kv.2 with
        | true =>
          rw [hhas] at hstep
          simp [throw, throwThe, MonadExceptOf.throw] at hstep
        | false => exact ⟨s, rfl, hhas⟩

theorem applySetEntries_inv (oldValues : Row) (p : Nat) :
    ∀ (entries : List (String × Value)) (t : Table) (hinv : Inv t)
      (hp : p < t.rows.length),
      ((entries.map Prod.fst).Nodup) →
      (∀ kv ∈ entries, rowGet oldValues kv.1 = rowGet (t.rows.get ⟨p, hp⟩) kv.1) →
      (∀ kv ∈ entries, ∃ col, t.findColumn kv.1 = some col ∧ col.isValidType kv.2 = true ∧
        ((col.unique || col.primaryKey) = true → kv.2.isNullish = false →
          ¬ kv.2 = rowGet oldValues kv.1 →
          ∃ s, assocFind? t.uniqueMap kv.1 = some s ∧ kv.2 ∉ s)) →
      ∃ T, applySetEntries oldValues p t entries = (T, .ok ()) ∧ Inv T ∧
        T.columns = t.columns ∧ T.rows.length = t.rows.length ∧
        (∀ q : Nat, q ≠ p → T.rows.get? q = t.rows.get? q) := by
  intro entries
  induction entries with
  | nil =>
    intro t hinv hp _ _ _
    exact ⟨t, rfl, hinv, rfl, rfl, fun q _ => rfl⟩
  | cons kv rest ih =>
    intro t hinv hp hnd hold hfacts
    rw [List.map_cons, List.nodup_cons] at hnd
    obtain ⟨c, v⟩ := kv
    obtain ⟨col, hcol, hty, huni⟩ := hfacts (c, v) (List.mem_cons_self _ _)
    have hold0 := hold (c, v) (List.mem_cons_self _ _)
    obtain ⟨T1, heq1, hinv1, hT1name, hT1cols, hT1rows, hT1um⟩ :=
      applySetEntry_inv t p hp oldValues c v col hcol hinv hold0 hty (fun hfl hnn hne =>
        huni hfl hnn hne)
    have hp1 : p < T1.rows.length := by
      rw [hT1rows, List.length_set]
      exact hp
    have hT1getp : T1.rows.get ⟨p, hp1⟩ = assocSet (t.rows.get ⟨p, hp⟩) c v := by
      refine get_from_get? _ _ _ _ ?_
      rw [hT1rows]
      simp [List.get?_eq_getElem?, List.getElem?_set_self, hp]
    have hT1get_ne : ∀ q : Nat, q ≠ p → T1.rows.get? q = t.rows.get? q := by
      intro q hq
      rw [hT1rows, List.get?_eq_getElem?, List.get?_eq_getElem?,
        List.getElem?_set_ne (fun e => hq (Eq.symm e))]
    have hkeyne : ∀ kv2 ∈ rest, kv2.1 ≠ c := by
      intro kv2 h2 he
      exact hnd.1 (List.mem_map.mpr ⟨kv2, h2, he⟩)
    obtain ⟨T, heq, hinvT, hTcols, hTlen, hTne⟩ := ih T1 hinv1 hp1 hnd.2
      (by
        intro kv2 h2
        rw [hold kv2 (List.mem_cons_of_mem _ h2), hT1getp,
          rowGet_assocSet_ne _ _ _ _ (hkeyne kv2 h2)])
      (by
        intro kv2 h2
        obtain ⟨col2, hcol2, hty2, huni2⟩ := hfacts kv2 (List.mem_cons_of_mem _ h2)
        refine ⟨col2, ?_, hty2, ?_⟩
        · show T1.columns.find? (fun col => col.name == kv2.1) = some col2
          rw [hT1cols]
          exact hcol2
        · intro hfl2 hnn2 hne2
          obtain ⟨s, hs, hmem⟩ := huni2 hfl2 hnn2 hne2
          exact ⟨s, by rw [hT1um kv2.1 (hkeyne kv2 h2)]; exact hs, hmem⟩)
    refine ⟨T, ?_, hinvT, by rw [hTcols, hT1cols], ?_, ?_⟩
    · unfold applySetEntries
      rw [heq1]
      exact heq
    · rw [hTlen, hT1rows, List.length_set]
    · intro q hq
      rw [hTne q hq, hT1get_ne q hq]

theorem updateRow_inv (t : Table) (set : List (String × Value)) (p : Nat)
    (hinv : Inv t) (hp : p < t.rows.length)
    (hnd : (set.map Prod.fst).Nodup)
    (hval : t.updateRowValidate set p = .ok ()) :
    ∃ T, t.updateRowApply set p = (T, .ok ()) ∧ Inv T ∧ T.columns = t.columns ∧
      T.rows.length = t.rows.length ∧
      (∀ q : Nat, q ≠ p → T.rows.get? q = t.rows.get? q) := by
  have hparts := updateRowValidate_parts t set p hval
  have hrowp : (t.rows.get? p).getD [] = t.rows.get ⟨p, hp⟩ := by
    rw [List.get?_eq_get hp]
    rfl
  obtain ⟨T, heq, hinvT, hTcols, hTlen, hTne⟩ :=
    applySetEntries_inv ((t.rows.get? p).getD []) p set t hinv hp hnd
      (by
        intro kv _
        rw [hrowp])
      (by
        intro kv hkv
        obtain ⟨col, hcol, hvalid, huni⟩ := hparts kv hkv
        refine ⟨col, hcol, validate_ok_isValidType hvalid, ?_⟩
        intro hfl hnn hne
        obtain ⟨s, hs, hhas⟩ := huni hfl (by
          unfold jsStrictEq
          rw [decide_eq_false hne]) hnn
        exact ⟨s, hs, jsSetHas_eq_false hhas⟩)
  exact ⟨T, heq, hinvT, hTcols, hTlen, hTne⟩

theorem updateGo_inv (set : List (String × Value))
    (hnd : (set.map Prod.fst).Nodup) :
    ∀ (ps : List Nat) (t : Table) (count : Nat), Inv t →
      (∀ p ∈ ps, p < t.rows.length) →
      Inv (updateGo set t ps count).1 := by
  intro ps
  induction ps with
  | nil => intro t count hinv _; exact hinv
  | cons p ps ih =>
    intro t count hinv hbound
    unfold updateGo
    cases hv : t.updateRowValidate set p with
    | error e => exact hinv
    | ok u =>
      cases u
      dsimp only
      obtain ⟨T, heq, hinvT, _, hTlen, _⟩ :=
        updateRow_inv t set p hinv (hbound p (List.mem_cons_self p ps)) hnd hv
      rw [heq]
      exact ih T (count + 1) hinvT (by
        intro q hq
        rw [hTlen]
        exact hbound q (List.mem_cons_of_mem p hq))

theorem update_inv (t : Table) (set : List (String × Value)) (w : Option WhereClause)
    (hinv : Inv t) (hnd : (set.map Prod.fst).Nodup) :
    Inv (t.update set w).1 := by
  unfold Table.update
  cases w with
  | none => exact hinv
  | some wc =>
    dsimp only
    cases hfc : set.find? (fun kv => (t.findColumn kv.1).isNone) with
    | some kv => exact hinv
    | none =>
      dsimp only
      cases hps : matchPositionsAsc t wc with
      | error e => exact hinv
      | ok ps =>
        dsimp only
        refine updateGo_inv set hnd ps t 0 hinv ?_
        intro p hmem
        obtain ⟨qs, hres, hsub⟩ := posFold_sublist wc t.rows.enum [] ps hps
        rw [hres, List.nil_append] at hmem
        have : p ∈ List.range t.rows.length := by
          rw [← List.enum_map_fst t.rows]
          exact hsub.mem hmem
        exact List.mem_range.mp this

end MiniRDBMS

namespace MiniRDBMS

theorem delUniqueGo_effect (row : Row) :
    ∀ (cols : List Column) (t : Table),
      (cols.map Column.name).Nodup →
      (∀ col ∈ cols, (col.unique || col.primaryKey) = true →
        (rowGet row col.name).isNullish = false →
        (assocFind? t.uniqueMap col.name).isSome = true) →
      ∃ t2, delUniqueGo row t cols = (t2, .ok ()) ∧
        t2.name = t.name ∧ t2.columns = t.columns ∧ t2.rows = t.rows ∧
        t2.indexes = t.indexes ∧
        (∀ c : String,
          (¬ ∃ col ∈ cols, col.name = c ∧ (col.unique || col.primaryKey) = true ∧
              (rowGet row c).isNullish = false) →
            assocFind? t2.uniqueMap c = assocFind? t.uniqueMap c) ∧
        (∀ col ∈ cols, (col.unique || col.primaryKey) = true →
          (rowGet row col.name).isNullish = false →
          assocFind? t2.uniqueMap col.name =
            (assocFind? t.uniqueMap col.name).map
              (fun s => jsSetDelete s (rowGet row col.name))) := by
  intro cols
  induction cols with
  | nil =>
    intro t _ _
    exact ⟨t, rfl, rfl, rfl, rfl, rfl, fun c _ => rfl,
      fun col hc => absurd hc (List.not_mem_nil col)⟩
  | cons col cols ih =>
    intro t hnd hok
    rw [List.map_cons, List.nodup_cons] at hnd
    by_cases hu : (col.unique || col.primaryKey) = true
    · by_cases hnn : (rowGet row col.name).isNullish = false
      · obtain ⟨s, hs⟩ := Option.isSome_iff_exists.mp
          (hok col (List.mem_cons_self col cols) hu hnn)
        have hstep : delUniqueGo row t (col :: cols) =
            delUniqueGo row
              { t with uniqueMap := (assocSet t.uniqueMap col.name
                  (jsSetDelete s (rowGet row col.name))) } cols := by
          simp only [delUniqueGo]
          rw [if_pos hu]
          try dsimp only
          rw [show (!(rowGet row col.name).isNullish) = true by rw [hnn]; rfl, if_pos rfl, hs]
        have hok1 : ∀ col' ∈ cols, (col'.unique || col'.primaryKey) = true →
            (rowGet row col'.name).isNullish = false →
            (assocFind? (assocSet t.uniqueMap col.name
              (jsSetDelete s (rowGet row col.name))) col'.name).isSome = true := by
          intro col' hc' hu' hnn'
          by_cases he : col'.name = col.name
          · rw [he, assocFind?_assocSet_self]; rfl
          · rw [assocFind?_assocSet_ne _ _ _ _ he]
            exact hok col' (List.mem_cons_of_mem col hc') hu' hnn'
        obtain ⟨t2, hgo, ha, hb, hc, hd, hpres, heff⟩ := ih
          { t with uniqueMap := (assocSet t.uniqueMap col.name
              (jsSetDelete s (rowGet row col.name))) } hnd.2 hok1
        refine ⟨t2, by rw [hstep]; exact hgo, ha, hb, hc, hd, ?_, ?_⟩
        · intro c hno
          have hne : col.name ≠ c := by
            intro he
            exact hno ⟨col, List.mem_cons_self col cols, he, hu, he ▸ hnn⟩
          rw [hpres c (fun ⟨col', hc', he', hu', hnn'⟩ =>
            hno ⟨col', List.mem_cons_of_mem col hc', he', hu', hnn'⟩)]
          show assocFind? (assocSet t.uniqueMap col.name
            (jsSetDelete s (rowGet row col.name))) c = _
          rw [assocFind?_assocSet_ne _ _ _ _ (fun e => hne (Eq.symm e))]
        · intro col' hc' hu' hnn'
          rcases List.mem_cons.mp hc' with rfl | hc'
          · rw [hpres col'.name ?hno]
            case hno =>
              rintro ⟨col'', hc'', he'', _, _⟩
              exact hnd.1 (he'' ▸ List.mem_map_of_mem Column.name hc'')
            show assocFind? (assocSet t.uniqueMap col'.name
              (jsSetDelete s (rowGet row col'.name))) col'.name = _
            rw [assocFind?_assocSet_self, hs]
            rfl
          · rw [heff col' hc' hu' hnn']
            have hne : col'.name ≠ col.name := by
              intro he
              exact hnd.1 (he ▸ List.mem_map_of_mem Column.name hc')
            show (assocFind? (assocSet t.uniqueMap col.name
              (jsSetDelete s (rowGet row col.name))) col'.name).map
                (fun s => jsSetDelete s (rowGet row col'.name)) = _
            rw [assocFind?_assocSet_ne _ _ _ _ hne]
      · rw [Bool.not_eq_false] at hnn
        have hstep : delUniqueGo row t (col :: cols) = delUniqueGo row t cols := by
          simp only [delUniqueGo]
          rw [if_pos hu]
          try dsimp only
          rw [show (!(rowGet row col.name).isNullish) = false by rw [hnn]; rfl,
            if_neg Bool.false_ne_true]
        obtain ⟨t2, hgo, ha, hb, hc, hd, hpres, heff⟩ := ih t hnd.2
          (fun col' hc' => hok col' (List.mem_cons_of_mem col hc'))
        refine ⟨t2, by rw [hstep]; exact hgo, ha, hb, hc, hd, ?_, ?_⟩
        · intro c hno
          exact hpres c (fun ⟨col', hc', he', hu', hnn'⟩ =>
            hno ⟨col', List.mem_cons_of_mem col hc', he', hu', hnn'⟩)
        · intro col' hc' hu' hnn'
          rcases List.mem_cons.mp hc' with rfl | hc'
          · rw [hnn] at hnn'; cases hnn'
          · exact heff col' hc' hu' hnn'
    · have hstep : delUniqueGo row t (col :: cols) = delUniqueGo row t cols := by
        simp only [delUniqueGo]
        rw [if_neg hu]
      obtain ⟨t2, hgo, ha, hb, hc, hd, hpres, heff⟩ := ih t hnd.2
        (fun col' hc' => hok col' (List.mem_cons_of_mem col hc'))
      refine ⟨t2, by rw [hstep]; exact hgo, ha, hb, hc, hd, ?_, ?_⟩
      · intro c hno
        exact hpres c (fun ⟨col', hc', he', hu', hnn'⟩ =>
          hno ⟨col', List.mem_cons_of_mem col hc', he', hu', hnn'⟩)
      · intro col' hc' hu' hnn'
        rcases List.mem_cons.mp hc' with rfl | hc'
        · exact absurd hu' hu
        · exact heff col' hc' hu' hnn'

theorem exists_val_eraseIdx (rows : List Row) (p : Nat) (hp : p < rows.length)
    (c : String) (P : Value → Prop) :
    (∃ q : Nat, ∃ h : q < (rows.eraseIdx p).length,
        P (rowGet ((rows.eraseIdx p).get ⟨q, h⟩) c)) ↔
    (∃ q : Nat, ∃ h : q < rows.length, q ≠ p ∧ P (rowGet (rows.get ⟨q, h⟩) c)) := by
  have hlen : (rows.eraseIdx p).length + 1 = rows.length := by
    rw [List.length_eraseIdx_of_lt hp]
    omega
  constructor
  · rintro ⟨q, h, hP⟩
    by_cases hq : q < p
    · rw [get_eraseIdx_lt rows p q h hq (by omega)] at hP
      exact ⟨q, by omega, by omega, hP⟩
    · rw [get_eraseIdx_ge rows p q h hq (by omega)] at hP
      exact ⟨q + 1, by omega, by omega, hP⟩
  · rintro ⟨q, h, hq, hP⟩
    by_cases hqp : q < p
    · refine ⟨q, by omega, ?_⟩
      rw [get_eraseIdx_lt rows p q (by omega) hqp h]
      exact hP
    · have hq1 : p < q := by omega
      refine ⟨q - 1, by omega, ?_⟩
      rw [get_eraseIdx_ge rows p (q - 1) (by omega) (by omega)
        (by omega : q - 1 + 1 < rows.length)]
      have : q - 1 + 1 = q := by omega
      rw [show rows.get ⟨q - 1 + 1, by omega⟩ = rows.get ⟨q, h⟩ by
        congr 1
        exact Fin.ext this]
      exact hP

theorem forall_val_eraseIdx (rows : List Row) (p : Nat) (hp : p < rows.length)
    (c : String) (P : Value → Prop) :
    (∀ q : Nat, ∀ h : q < rows.length, q ≠ p → P (rowGet (rows.get ⟨q, h⟩) c)) →
    (∀ q : Nat, ∀ h : q < (rows.eraseIdx p).length,
      P (rowGet ((rows.eraseIdx p).get ⟨q, h⟩) c)) := by
  intro hold q h
  have hlen : (rows.eraseIdx p).length + 1 = rows.length := by
    rw [List.length_eraseIdx_of_lt hp]
    omega
  by_cases hq : q < p
  · rw [get_eraseIdx_lt rows p q h hq (by omega)]
    exact hold q (by omega) (by omega)
  · rw [get_eraseIdx_ge rows p q h hq (by omega)]
    exact hold (q + 1) (by omega) (by omega)

end MiniRDBMS

namespace MiniRDBMS

theorem DistinctColInv_eraseIdx (t T : Table) (c : String) (p : Nat)
    (hrows : T.rows = t.rows.eraseIdx p)
    (hd : DistinctColInv t c) : DistinctColInv T c := by
  by_cases hp : p < t.rows.length
  · have hlen : T.rows.length + 1 = t.rows.length := by
      rw [hrows, List.length_eraseIdx_of_lt hp]
      omega
    have hget_lt : ∀ (q : Nat) (h : q < T.rows.length) (hq : q < p)
        (h2 : q < t.rows.length),
        T.rows.get ⟨q, h⟩ = t.rows.get ⟨q, h2⟩ := by
      intro q h hq h2
      refine get_from_get? _ _ _ _ ?_
      rw [hrows]
      rw [List.get?_eq_get (show q < (t.rows.eraseIdx p).length by
        rw [← hrows]; exact h)]
      rw [get_eraseIdx_lt t.rows p q _ hq h2]
    have hget_ge : ∀ (q : Nat) (h : q < T.rows.length) (hq : ¬ q < p)
        (h2 : q + 1 < t.rows.length),
        T.rows.get ⟨q, h⟩ = t.rows.get ⟨q + 1, h2⟩ := by
      intro q h hq h2
      refine get_from_get? _ _ _ _ ?_
      rw [hrows]
      rw [List.get?_eq_get (show q < (t.rows.eraseIdx p).length by
        rw [← hrows]; exact h)]
      rw [get_eraseIdx_ge t.rows p q _ hq h2]
    intro q1 q2 h1 h2 hnn heq
    by_cases hc1 : q1 < p <;> by_cases hc2 : q2 < p
    · rw [hget_lt q1 h1 hc1 (by omega)] at hnn heq
      rw [hget_lt q2 h2 hc2 (by omega)] at heq
      exact hd q1 q2 (by omega) (by omega) hnn heq
    · rw [hget_lt q1 h1 hc1 (by omega)] at hnn heq
      rw [hget_ge q2 h2 hc2 (by omega)] at heq
      have := hd q1 (q2 + 1) (by omega) (by omega) hnn heq
      omega
    · rw [hget_ge q1 h1 hc1 (by omega)] at hnn heq
      rw [hget_lt q2 h2 hc2 (by omega)] at heq
      have := hd (q1 + 1) q2 (by omega) (by omega) hnn heq
      omega
    · rw [hget_ge q1 h1 hc1 (by omega)] at hnn heq
      rw [hget_ge q2 h2 hc2 (by omega)] at heq
      have := hd (q1 + 1) (q2 + 1) (by omega) (by omega) hnn heq
      omega
  · have hrows2 : T.rows = t.rows := by
      rw [hrows, List.eraseIdx_of_length_le (by omega)]
    have hlen2 : T.rows.length = t.rows.length := by rw [hrows2]
    have hg : ∀ (q : Nat) (h : q < T.rows.length) (h2 : q < t.rows.length),
        T.rows.get ⟨q, h⟩ = t.rows.get ⟨q, h2⟩ := by
      intro q h h2
      refine get_from_get? _ _ _ _ ?_
      rw [hrows2]
      exact List.get?_eq_get h2
    intro q1 q2 h1 h2 hnn heq
    rw [hg q1 h1 (by omega)] at hnn heq
    rw [hg q2 h2 (by omega)] at heq
    exact hd q1 q2 (by omega) (by omega) hnn heq

theorem deleteOne_mid (t : Table) (p : Nat)
    (hcore : CoreInv t) (hkeys : (t.indexes.map Prod.fst).Nodup) :
    ∃ T, t.deleteOne p = (T, .ok ()) ∧ CoreInv T ∧ ((T.indexes.map Prod.fst).Nodup) ∧
      T.columns = t.columns ∧ T.rows = t.rows.eraseIdx p := by
  obtain ⟨hnd, htyped, huniq⟩ := hcore
  have hok : ∀ col ∈ t.columns, (col.unique || col.primaryKey) = true →
      (rowGet ((t.rows.get? p).getD []) col.name).isNullish = false →
      (assocFind? t.uniqueMap col.name).isSome = true := by
    intro col hc hu hnn
    by_cases hp : p < t.rows.length
    · have hrowp : (t.rows.get? p).getD [] = t.rows.get ⟨p, hp⟩ := by
        rw [List.get?_eq_get hp]
        rfl
      rw [hrowp] at hnn
      have husi := (huniq col hc hu).1
      unfold UniqueSetInv at husi
      cases hf : assocFind? t.uniqueMap col.name with
      | some _ => rfl
      | none =>
        rw [hf] at husi
        rw [husi p hp] at hnn
        exact absurd hnn (by decide)
    · have hnone : (t.rows.get? p).getD [] = [] := by
        rw [List.get?_eq_none.mpr (by omega)]
        rfl
      rw [hnone] at hnn
      simp [rowGet, assocFind?, List.find?, Value.isNullish] at hnn
  obtain ⟨t2, hgo, ha2, hb2, hc2, hd2, hpres, heff⟩ :=
    delUniqueGo_effect ((t.rows.get? p).getD []) t.columns t hnd hok
  unfold Table.deleteOne
  dsimp only
  rw [hgo]
  dsimp only
  obtain ⟨nm2, c2, r2, u2, i2⟩ := t2
  dsimp only at hb2 hc2 hd2 hpres heff
  subst hb2
  subst hc2
  subst hd2
  refine ⟨_, rfl, ⟨hnd, ?_, ?_⟩, ?_, rfl, rfl⟩
  · -- TypedInv
    intro r0 hr0 col0 hc0
    exact htyped r0 ((List.eraseIdx_sublist t.rows p).mem hr0) col0 hc0
  · -- unique columns
    intro col0 hc0 hfl0
    have husi := (huniq col0 hc0 hfl0).1
    have hdist := (huniq col0 hc0 hfl0).2
    by_cases hp : p < t.rows.length
    · have hrowp : (t.rows.get? p).getD [] = t.rows.get ⟨p, hp⟩ := by
        rw [List.get?_eq_get hp]
        rfl
      constructor
      · -- UniqueSetInv
        unfold UniqueSetInv
        dsimp only
        by_cases hn0 : (rowGet ((t.rows.get? p).getD []) col0.name).isNullish = true
        · rw [hpres col0.name (by
            rintro ⟨col', _, he', _, hnn'⟩
            rw [hn0] at hnn'
            cases hnn')]
          unfold UniqueSetInv at husi
          cases hf : assocFind? t.uniqueMap col0.name with
          | some s =>
            rw [hf] at husi
            obtain ⟨hsnd, hex⟩ := husi
            refine ⟨hsnd, ?_⟩
            intro w
            rw [hex w]
            constructor
            · rintro ⟨hnn, q, hq, hv⟩
              refine ⟨hnn, ?_⟩
              rw [exists_val_eraseIdx t.rows p hp col0.name (fun x => x = w)]
              refine ⟨q, hq, ?_, hv⟩
              intro hqp
              subst hqp
              rw [show t.rows.get ⟨q, hq⟩ = t.rows.get ⟨q, hp⟩ from rfl] at hv
              rw [← hrowp] at hv
              rw [hv] at hn0
              rw [hn0] at hnn
              cases hnn
            · rintro ⟨hnn, hex2⟩
              rw [exists_val_eraseIdx t.rows p hp col0.name (fun x => x = w)] at hex2
              obtain ⟨q, hq, _, hv⟩ := hex2
              exact ⟨hnn, q, hq, hv⟩
          | none =>
            rw [hf] at husi
            exact forall_val_eraseIdx t.rows p hp col0.name (fun x => x.isNullish = true)
              (fun q h _ => husi q h)
        · rw [Bool.not_eq_true] at hn0
          have heff0 := heff col0 hc0 hfl0 hn0
          unfold UniqueSetInv at husi
          cases hf : assocFind? t.uniqueMap col0.name with
          | none =>
            rw [hf] at husi
            rw [hrowp] at hn0
            rw [husi p hp] at hn0
            exact absurd hn0 (by decide)
          | some s =>
            rw [hf] at husi
            obtain ⟨hsnd, hex⟩ := husi
            rw [heff0, hf]
            refine ⟨jsSetDelete_nodup hsnd _, ?_⟩
            intro w
            rw [mem_jsSetDelete hsnd]
            constructor
            · rintro ⟨hne, hw⟩
              obtain ⟨hnn, q, hq, hv⟩ := (hex w).mp hw
              refine ⟨hnn, ?_⟩
              rw [exists_val_eraseIdx t.rows p hp col0.name (fun x => x = w)]
              refine ⟨q, hq, ?_, hv⟩
              intro hqp
              subst hqp
              rw [show t.rows.get ⟨q, hq⟩ = t.rows.get ⟨q, hp⟩ from rfl, ← hrowp] at hv
              exact hne hv.symm
            · rintro ⟨hnn, hex2⟩
              rw [exists_val_eraseIdx t.rows p hp col0.name (fun x => x = w)] at hex2
              obtain ⟨q, hq, hqp, hv⟩ := hex2
              refine ⟨?_, (hex w).mpr ⟨hnn, q, hq, hv⟩⟩
              intro hwv
              have : q = p := hdist q p hq hp (by rw [hv]; exact hnn)
                (by rw [hv, hwv, hrowp])
              exact hqp this
      · exact DistinctColInv_eraseIdx t _ col0.name p rfl hdist
    · have hnone : (t.rows.get? p).getD [] = [] := by
        rw [List.get?_eq_none.mpr (by omega)]
        rfl
      have hrows2 : t.rows.eraseIdx p = t.rows := List.eraseIdx_of_length_le (by omega)
      constructor
      · have hum : assocFind? u2 col0.name = assocFind? t.uniqueMap col0.name := by
          refine hpres col0.name ?_
          rintro ⟨col', _, he', _, hnn'⟩
          rw [hnone] at hnn'
          simp [rowGet, assocFind?, List.find?, Value.isNullish] at hnn'
        unfold UniqueSetInv
        dsimp only
        rw [hum, hrows2]
        exact husi
      · exact DistinctColInv_eraseIdx t _ col0.name p rfl hdist
  · -- index keys preserved
    show ((List.map (fun q =>
        let v := rowGet ((t.rows.get? p).getD []) q.1
        (q.1, if v.isNullish = true then q.2
          else bucketRemove q.2 v.toKeyString p)) t.indexes).map Prod.fst).Nodup
    have : (List.map (fun q =>
        let v := rowGet ((t.rows.get? p).getD []) q.1
        ((q : String × HashIdx).1, if v.isNullish = true then q.2
          else bucketRemove q.2 v.toKeyString p)) t.indexes).map Prod.fst =
        t.indexes.map Prod.fst := by
      induction t.indexes with
      | nil => rfl
      | cons q rest ih => simp_all
    rw [this]
    exact hkeys

end MiniRDBMS

namespace MiniRDBMS

theorem deleteGo_mid :
    ∀ (ps : List Nat) (t : Table), CoreInv t → (t.indexes.map Prod.fst).Nodup →
      ∃ T, deleteGo t ps = (T, .ok ()) ∧ CoreInv T ∧ ((T.indexes.map Prod.fst).Nodup) := by
  intro ps
  induction ps with
  | nil => intro t hc hk; exact ⟨t, rfl, hc, hk⟩
  | cons p ps ih =>
    intro t hc hk
    obtain ⟨T1, heq1, hc1, hk1, _, _⟩ := deleteOne_mid t p hc hk
    obtain ⟨T, heq, hcT, hkT⟩ := ih T1 hc1 hk1
    refine ⟨T, ?_, hcT, hkT⟩
    unfold deleteGo
    rw [heq1]
    exact heq

theorem assocFind?_rebuild (l : List (String × HashIdx)) (rows : List Row) (c : String) :
    assocFind? (l.map (fun p => (p.1, buildIndex rows p.1))) c =
      (assocFind? l c).map (fun _ => buildIndex rows c) := by
  induction l with
  | nil => rfl
  | cons p rest ih =>
    rcases p with ⟨pk, pidx⟩
    rw [List.map_cons]
    dsimp only
    by_cases h : pk = c
    · subst h
      rw [assocFind?_cons, assocFind?_cons, if_pos rfl, if_pos rfl]
      rfl
    · rw [assocFind?_cons, assocFind?_cons, if_neg h, if_neg h]
      exact ih

theorem rebuild_keys (l : List (String × HashIdx)) (rows : List Row) :
    ((l.map (fun p => (p.1, buildIndex rows p.1))).map Prod.fst) = l.map Prod.fst := by
  induction l with
  | nil => rfl
  | cons p rest ih => simp_all

theorem rebuild_inv (t : Table) (hcore : CoreInv t)
    (hkeys : (t.indexes.map Prod.fst).Nodup) : Inv t.rebuildAllIndexes := by
  obtain ⟨hnd, htyped, huniq⟩ := hcore
  refine ⟨⟨hnd, htyped, huniq⟩, ?_, ?_⟩
  · show ((t.indexes.map (fun p => (p.1, buildIndex t.rows p.1))).map Prod.fst).Nodup
    rw [rebuild_keys]
    exact hkeys
  · intro c idx hf
    have hf2 : assocFind? (t.indexes.map (fun p => (p.1, buildIndex t.rows p.1))) c =
        some idx := hf
    rw [assocFind?_rebuild] at hf2
    obtain ⟨_, _, hgc⟩ := Option.map_eq_some'.mp hf2
    subst hgc
    exact buildIndex_good t.rows c

theorem delete_inv (t : Table) (w : Option WhereClause) (hinv : Inv t) :
    Inv (t.delete w).1 := by
  obtain ⟨hcore, hkeys, hidx⟩ := hinv
  unfold Table.delete
  cases w with
  | none => exact ⟨hcore, hkeys, hidx⟩
  | some wc =>
    dsimp only
    cases hps : matchPositionsDesc t wc with
    | error e => exact ⟨hcore, hkeys, hidx⟩
    | ok ps =>
      dsimp only
      obtain ⟨T, heq, hcT, hkT⟩ := deleteGo_mid ps t hcore hkeys
      rw [heq]
      dsimp only
      exact rebuild_inv T hcT hkT

theorem createIndex_inv (t : Table) (c : String) (hinv : Inv t) :
    Inv (match t.createIndex c with | .ok t1 => t1 | .error _ => t) := by
  obtain ⟨hcore, hkeys, hidx⟩ := hinv
  unfold Table.createIndex
  cases hf : t.findColumn c with
  | none => exact ⟨hcore, hkeys, hidx⟩
  | some col =>
    dsimp only
    refine ⟨hcore, ?_, ?_⟩
    · show ((assocSet t.indexes c (buildIndex t.rows c)).map Prod.fst).Nodup
      exact assocSet_keys_nodup _ _ _ hkeys
    · intro c' idx' hf'
      by_cases hc' : c' = c
      · subst hc'
        have : assocFind? (assocSet t.indexes c' (buildIndex t.rows c')) c' =
            some (buildIndex t.rows c') := assocFind?_assocSet_self _ _ _
        rw [this] at hf'
        rw [← Option.some_inj.mp hf']
        exact buildIndex_good t.rows c'
      · have : assocFind? (assocSet t.indexes c (buildIndex t.rows c)) c' =
            assocFind? t.indexes c' := assocFind?_assocSet_ne _ _ _ _ hc'
        rw [this] at hf'
        exact hidx c' idx' hf'

theorem dropIndex_inv (t : Table) (c : String) (hinv : Inv t) : Inv (t.dropIndex c) := by
  obtain ⟨hcore, hkeys, hidx⟩ := hinv
  refine ⟨hcore, ?_, ?_⟩
  · show ((assocErase t.indexes c).map Prod.fst).Nodup
    exact hkeys.sublist (assocErase_keys_sublist t.indexes c)
  · intro c' idx' hf'
    by_cases hc' : c' = c
    · subst hc'
      have h1 : assocFind? (assocErase t.indexes c') c' = none :=
        assocFind?_assocErase_self _ _ hkeys
      rw [show (t.dropIndex c').indexes = assocErase t.indexes c' from rfl] at hf'
      rw [h1] at hf'
      cases hf'
    · have : assocFind? (assocErase t.indexes c) c' = assocFind? t.indexes c' :=
        assocFind?_assocErase_ne _ _ _ hc'
      rw [show (t.dropIndex c).indexes = assocErase t.indexes c from rfl] at hf'
      rw [this] at hf'
      exact hidx c' idx' hf'

theorem applyOp_inv (t : Table) (op : Op) (hinv : Inv t) (hwf : op.wfb = true) :
    Inv (applyOp t op) := by
  cases op with
  | ins rowData => exact insert_inv t rowData hinv
  | upd set w =>
    exact update_inv t set w hinv (by
      unfold Op.wfb at hwf
      exact of_decide_eq_true hwf)
  | del w => exact delete_inv t w hinv
  | cidx c => exact createIndex_inv t c hinv
  | didx c => exact dropIndex_inv t c hinv

end MiniRDBMS

namespace MiniRDBMS

theorem foldl_applyOp_inv :
    ∀ (ops : List Op) (t : Table), Inv t → (∀ op ∈ ops, op.wfb = true) →
      Inv (ops.foldl applyOp t) := by
  intro ops
  induction ops with
  | nil => intro t hinv _; exact hinv
  | cons op ops ih =>
    intro t hinv hwf
    rw [List.foldl_cons]
    exact ih (applyOp t op) (applyOp_inv t op hinv (hwf op (List.mem_cons_self op ops)))
      (fun op' h' => hwf op' (List.mem_cons_of_mem op h'))

/-- C1, counterexample to the claimed bucket ordering: after the insert /
create-index / update sequence `c1Ops`, both remaining rows hold `name =
"B"` (positions 0 and 1), and the index bucket for that value is `[1, 0]`
— the exact set of matching positions, but *not* in ascending order,
because `_updateIndexOnUpdate` removes the moved position and pushes it at
the end of its new bucket. -/
theorem claim_C1_counterexample :
    assocFind? ((assocFind? c1Table.indexes "name").getD []) "B" = some [1, 0] ∧
    ¬ List.Pairwise (fun a b : Nat => a < b) [1, 0] ∧
    c1Table.rows.map (fun r => rowGet r "name") = [.str "B", .str "B"] :=
  ⟨by rfl, by decide, by rfl⟩

/-- C1 (amended): the row-store consistency invariant that actually holds.
Starting from any freshly constructed table, after any finite sequence of
insert, update, delete, create-index and drop-index operations — each
taken as the state the `Table` method leaves behind whether it returns or
throws, with UPDATE SET clauses binding each column once (they are JS
objects in the source) — the store satisfies `Inv`: every index bucket
holds exactly the positions (as a duplicate-free set, in no promised
order) of the rows whose column value is non-nullish and coerces to the
bucket's string key, and every unique/primary-key column's tracking set
holds exactly (without duplicates) the non-nullish values currently
stored in that column, which are moreover pairwise distinct and of the
declared column type. -/
theorem claim_C1_amended (name : String) (cols : List Column) (t0 : Table)
    (h0 : Table.mkNew name cols = .ok t0) (ops : List Op)
    (hwf : ∀ op ∈ ops, op.wfb = true) :
    Inv (ops.foldl applyOp t0) :=
  foldl_applyOp_inv ops t0 (mkNew_inv h0) hwf

/-- C1 witness: the amended invariant instantiated on the counterexample
scenario itself. -/
theorem claim_C1_amended_witness : Inv c1Table :=
  claim_C1_amended "users"
    [⟨"id", .int, true, true, true⟩, ⟨"name", .text, false, true, false⟩]
    witnessTable (by rfl) c1Ops (by decide)

end MiniRDBMS

namespace MiniRDBMS

/-! ## Claim C3: indexed equality lookup vs full scan -/

theorem filter_eq_map_posList {α : Type} (d : α) (P : α → Bool) :
    ∀ (l : List α), l.filter P =
      ((List.range l.length).filter (fun q => P ((l.get? q).getD d))).map
        (fun q => (l.get? q).getD d) := by
  intro l
  induction l with
  | nil => rfl
  | cons x xs ih =>
    rw [show (x :: xs).length = xs.length + 1 from rfl, List.range_succ_eq_map]
    rw [List.filter_cons]
    have hcomp : ∀ q : Nat,
        (((x :: xs).get? (Nat.succ q)).getD d) = ((xs.get? q).getD d) := fun q => rfl
    by_cases hx : P x
    · rw [if_pos hx]
      rw [show (List.filter (fun q => P (((x :: xs).get? q).getD d))
          (0 :: (List.range xs.length).map Nat.succ)) =
        0 :: (List.filter (fun q => P (((x :: xs).get? q).getD d))
          ((List.range xs.length).map Nat.succ)) by
        rw [List.filter_cons]
        rw [if_pos (show P (((x :: xs).get? 0).getD d) = true from hx)]]
      rw [List.filter_map]
      rw [List.map_cons, List.map_map]
      rw [ih]
      rfl
    · rw [if_neg hx]
      rw [show (List.filter (fun q => P (((x :: xs).get? q).getD d))
          (0 :: (List.range xs.length).map Nat.succ)) =
        (List.filter (fun q => P (((x :: xs).get? q).getD d))
          ((List.range xs.length).map Nat.succ)) by
        rw [List.filter_cons]
        rw [if_neg (show ¬ P (((x :: xs).get? 0).getD d) = true from hx)]]
      rw [List.filter_map]
      rw [List.map_map]
      rw [ih]
      rfl

theorem scanFold_eq_filter (c : String) (v : Value) :
    ∀ (rows : List Row) (acc : List Row),
      rows.foldlM
        (fun acc row => do
          let b ← rowMatchesWhere row ⟨c, "=", v⟩
          pure (if b then acc ++ [row] else acc))
        acc =
      .ok (acc ++ rows.filter (fun row => jsStrictEq (rowGet row c) v)) := by
  intro rows
  induction rows with
  | nil => intro acc; simp [List.foldlM, pure, Except.pure]
  | cons r rest ih =>
    intro acc
    rw [List.foldlM_cons]
    simp only [bind, Bind.bind]
    rw [show rowMatchesWhere r ⟨c, "=", v⟩ = .ok (jsStrictEq (rowGet r c) v) from rfl]
    simp only [Except.bind, pure, Except.pure]
    by_cases hb : jsStrictEq (rowGet r c) v = true
    · rw [if_pos hb]
      simpa [hb, List.filter_cons, List.append_assoc] using ih (acc ++ [r])
    · rw [if_neg hb]
      simpa [hb, List.filter_cons] using ih acc

/-- C3 (amended): for a WHERE `c = v` whose compared value is non-nullish
and of the filtered column's declared type, on a consistent table
(`Inv`), the indexed lookup returns a *permutation* of the full-scan
result, and the full scan returns exactly the rows strictly equal to `v`
at `c`, in order.  (Dropping the index forces the scan branch, so the
second component is literally the same call without the index.) -/
theorem claim_C3_amended (t : Table) (hinv : Inv t) (c : String) (col : Column)
    (hcol : t.findColumn c = some col) (v : Value)
    (hty : col.isValidType v = true) (hnn : v.isNullish = false) :
    ∃ res resScan,
      t.filterRows ⟨c, "=", v⟩ = .ok res ∧
      (t.dropIndex c).filterRows ⟨c, "=", v⟩ = .ok resScan ∧
      res.Perm resScan ∧
      resScan = t.rows.filter (fun row => jsStrictEq (rowGet row c) v) := by
  obtain ⟨⟨hnd, htyped, _⟩, hkeys, hidx⟩ := hinv
  have hcolmem : col ∈ t.columns := List.mem_of_find?_eq_some hcol
  have hcolname : col.name = c := by
    have := List.find?_some hcol
    simpa using this
  have hscan : (t.dropIndex c).filterRows ⟨c, "=", v⟩ =
      .ok (t.rows.filter (fun row => jsStrictEq (rowGet row c) v)) := by
    unfold Table.filterRows
    rw [show assocFind? (t.dropIndex c).indexes c = none from
      assocFind?_assocErase_self _ _ hkeys]
    rw [show (("=" : String) == "=" && (none : Option HashIdx).isSome) = false from rfl]
    rw [if_neg Bool.false_ne_true]
    exact scanFold_eq_filter c v t.rows []
  cases hix : assocFind? t.indexes c with
  | none =>
    have hres : t.filterRows ⟨c, "=", v⟩ =
        .ok (t.rows.filter (fun row => jsStrictEq (rowGet row c) v)) := by
      unfold Table.filterRows
      rw [hix]
      rw [show (("=" : String) == "=" && (none : Option HashIdx).isSome) = false from rfl]
      rw [if_neg Bool.false_ne_true]
      exact scanFold_eq_filter c v t.rows []
    exact ⟨_, _, hres, hscan, List.Perm.refl _, rfl⟩
  | some idx =>
    obtain ⟨iknd, ibnd, imem⟩ := hidx c idx hix
    have hres : t.filterRows ⟨c, "=", v⟩ =
        .ok ((bucketOf idx v.toKeyString).map (fun i => (t.rows.get? i).getD [])) := by
      unfold Table.filterRows
      rw [hix]
      rfl
    refine ⟨_, _, hres, hscan, ?_, rfl⟩
    rw [@filter_eq_map_posList Row [] (fun row => jsStrictEq (rowGet row c) v) t.rows]
    refine List.Perm.map _ ?_
    refine List.perm_of_nodup_nodup_toFinset_eq (ibnd v.toKeyString)
      ((List.nodup_range t.rows.length).filter _) ?_
    ext q
    rw [List.mem_toFinset, List.mem_toFinset, List.mem_filter, List.mem_range]
    rw [imem v.toKeyString q]
    constructor
    · rintro ⟨hq, hnn0, hk0⟩
      have hrowq : (t.rows.get? q).getD [] = t.rows.get ⟨q, hq⟩ := by
        rw [List.get?_eq_get hq]
        rfl
      refine ⟨hq, ?_⟩
      rw [hrowq]
      have hval : col.isValidType (rowGet (t.rows.get ⟨q, hq⟩) c) = true := by
        have := htyped (t.rows.get ⟨q, hq⟩) (t.rows.get_mem q hq) col hcolmem
        rw [hcolname] at this
        exact this
      have : rowGet (t.rows.get ⟨q, hq⟩) c = v :=
        toKeyString_inj_typed col hval hty hnn0 hnn hk0
      rw [this]
      unfold jsStrictEq
      exact decide_eq_true rfl
    · rintro ⟨hq, hP⟩
      have hrowq : (t.rows.get? q).getD [] = t.rows.get ⟨q, hq⟩ := by
        rw [List.get?_eq_get hq]
        rfl
      rw [hrowq] at hP
      have heq : rowGet (t.rows.get ⟨q, hq⟩) c = v := of_decide_eq_true hP
      refine ⟨hq, ?_, ?_⟩
      · rw [heq]
        exact hnn
      · rw [heq]

/-- C3, counterexample to the claimed strictness and index/scan
equivalence: filtering the `code` TEXT column (which stores the string
`"1"`) with `WHERE code = 1` (the *number* 1) returns the row when the
column is indexed — the bucket lookup coerces the compared value to the
property key `"1"` — but returns nothing under the full scan, whose
`===` comparison is type-sensitive. -/
theorem claim_C3_counterexample :
    c3Table.filterRows ⟨"code", "=", .num 1⟩ =
      .ok [[("id", .num 1), ("code", .str "1")]] ∧
    (c3Table.dropIndex "code").filterRows ⟨"code", "=", .num 1⟩ = .ok [] :=
  ⟨by rfl, by rfl⟩

/-- C3 witness: the amended equivalence on the counterexample table with
a type-correct compared value. -/
theorem claim_C3_amended_witness :
    ∃ res resScan,
      c3Table.filterRows ⟨"code", "=", .str "1"⟩ = .ok res ∧
      (c3Table.dropIndex "code").filterRows ⟨"code", "=", .str "1"⟩ = .ok resScan ∧
      res.Perm resScan ∧
      resScan = c3Table.rows.filter
        (fun row => jsStrictEq (rowGet row "code") (.str "1")) :=
  claim_C3_amended c3Table
    (foldl_applyOp_inv c3Ops c3Base
      (mkNew_inv (show Table.mkNew "items" [⟨"id", .int, true, true, true⟩,
        ⟨"code", .text, false, false, false⟩] = .ok c3Base from rfl)) (by decide))
    "code" ⟨"code", .text, false, false, false⟩ (by rfl) (.str "1") (by rfl) (by rfl)

end MiniRDBMS
